import Mathlib

/-!
# Rotary dial pulse-to-tone converter: command state machine and speed-dial store

A shallow embedding of `src/main.c` (with the constants of `src/dtmf.h`).

* Machine integers are `Nat` (`uint8_t`) and `Int` (`int8_t`); the places where the C
  code converts or increments carry explicit wrap-around arithmetic.
* The global `_g_run_state`, the EEPROM array `_g_speed_dial_eeprom` and the calls
  made to the tone synthesizer (`dtmf_generate_tone`, `sleep_ms`) are collected in
  one explicit `World` that every operation takes and returns.
* Array accesses whose index the C code does not bound itself are checked: an
  access outside the array is reported as a `Fault` instead of a result.
* The elapsed-time counter `_g_delay_counter` belongs to the tone synthesizer, whose
  source file is not among the sources: the sampling loop takes the readings of the
  counter as inputs (`Tick`), and the timed sampling loop (`main_timed_loop`) models
  the counter as the count of timer overflows since its last restart.
-/

namespace RotaryDial

/-! ## Constants of `main.c` and `dtmf.h` -/

def DIGIT_BEEP : Int := -10
def DIGIT_BEEP_LOW : Int := -13
def DIGIT_TUNE_ASC : Int := -11
def DIGIT_TUNE_DESC : Int := -12
def DIGIT_OFF : Int := -1
def DIGIT_STAR : Int := 10
def DIGIT_POUND : Int := 11
def DTMF_DURATION_MS : Nat := 200

def SF_DELAY_MS : Nat := 2000
def SPEED_DIAL_SIZE : Nat := 30

def STATE_DIAL : Nat := 0x00
def STATE_SPECIAL_L1 : Nat := 0x01
def STATE_SPECIAL_L2 : Nat := 0x02
def STATE_SPECIAL_L3 : Nat := 0x04
def STATE_PROGRAM_SD : Nat := 0x05

def F_NONE : Nat := 0x00
def F_DETECT_SPECIAL_L1 : Nat := 0x01
def F_DETECT_SPECIAL_L2 : Nat := 0x02
def F_DETECT_SPECIAL_L3 : Nat := 0x04
def F_WDT_AWAKE : Nat := 0x08

def SPEED_DIAL_COUNT : Nat := 8
def SPEED_DIAL_REDIAL : Nat := SPEED_DIAL_COUNT - 1

def L2_STAR : Int := 1
def L2_POUND : Int := 2
def L2_REDIAL : Int := 3

/-- Build-time configuration: `NZ_DIAL` (reversed dial) and the value of
`T0_OVERFLOW_PER_MS` that `dtmf.h` selects from the clock (31 or 15). -/
structure Build where
  nz_dial : Bool
  t0_overflow_per_ms : Nat
  deriving DecidableEq, Repr

/-- Conversion of an integer value to `int8_t` (wrap-around modulo 2^8). -/
def to_int8 (x : Int) : Int := (x + 128) % 256 - 128

/-- Conversion of an integer value to `uint8_t` (wrap-around modulo 2^8). -/
def to_uint8 (x : Int) : Nat := (x % 256).toNat

/-! ## Data model -/

/-- The fields of `pin_t` that the program reads or writes (`reg` and `bit` are
never accessed: `update_pin` receives both as arguments). -/
structure pin_t where
  buf : Nat
  high : Bool
  changed : Bool
  deriving DecidableEq, Repr

/-- The struct `runstate_t`. -/
structure runstate_t where
  state : Nat
  flags : Nat
  speed_dial_index : Nat
  speed_dial_digit_index : Nat
  speed_dial_digits : List Int
  redial_digits : List Int
  dialed_digit : Int
  dial_pin : pin_t
  pulse_pin : pin_t
  deriving DecidableEq, Repr

/-- One call made to the tone synthesizer: `dtmf_generate_tone (digit, duration_ms)`
or `sleep_ms (msec)`. -/
inductive Sound where
  | tone (digit : Int) (duration_ms : Nat)
  | pause (msec : Nat)
  deriving DecidableEq, Repr

/-- Everything the foreground loop reads and writes: `_g_run_state`, the EEPROM
array `_g_speed_dial_eeprom`, the synthesizer calls made so far (oldest first) and
the number of `eeprom_update_block` calls made so far. -/
structure World where
  rs : runstate_t
  eeprom : List (List Int)
  out : List Sound
  eeprom_updates : Nat
  deriving DecidableEq, Repr

/-- An array access outside the array, or an exhausted recursion budget. -/
inductive Fault where
  | table_index
  | buffer_index
  | recursion
  deriving DecidableEq, Repr

deriving instance DecidableEq for Except

/-- The table `_g_speed_dial_loc`: speed dial digit to memory location. -/
def _g_speed_dial_loc : List Int := [0, -1, -1, -1, 1, 2, 3, 4, 5, 6]

/-- The read `_g_speed_dial_loc[d]`; an index outside the ten entries is a fault. -/
def speed_dial_loc (d : Int) : Except Fault Int :=
  if 0 ≤ d ∧ d < 10 then .ok (_g_speed_dial_loc.getD d.toNat DIGIT_OFF) else .error .table_index

/-- The call `dtmf_generate_tone (digit, duration_ms)`. -/
def dtmf_generate_tone (digit : Int) (duration_ms : Nat) (w : World) : World :=
  { w with out := w.out ++ [Sound.tone digit duration_ms] }

/-- The call `sleep_ms (msec)`. -/
def sleep_ms (msec : Nat) (w : World) : World :=
  { w with out := w.out ++ [Sound.pause msec] }

/-- The function `init_speed_dial`. -/
def init_speed_dial (w : World) : World :=
  { w with rs := { w.rs with
      speed_dial_index := 0
      speed_dial_digit_index := 0
      speed_dial_digits := List.replicate SPEED_DIAL_SIZE DIGIT_OFF } }

/-- The run state part of `init`: state `STATE_DIAL`, redial buffer cleared,
`init_speed_dial`; the other fields of the zero-initialised global stay zero.
The EEPROM keeps the content `e` it had at power-up. -/
def init (e : List (List Int)) : World :=
  init_speed_dial
    { rs := { state := STATE_DIAL
              flags := 0
              speed_dial_index := 0
              speed_dial_digit_index := 0
              speed_dial_digits := List.replicate SPEED_DIAL_SIZE 0
              redial_digits := List.replicate SPEED_DIAL_SIZE DIGIT_OFF
              dialed_digit := 0
              dial_pin := { buf := 0, high := false, changed := false }
              pulse_pin := { buf := 0, high := false, changed := false } }
      eeprom := e
      out := []
      eeprom_updates := 0 }

/-- A copy of `SPEED_DIAL_SIZE` entries from `src` over the start of `dst`
(`memcpy`, `eeprom_read_block` and `eeprom_update_block` with that size). -/
def copy_block (dst src : List Int) : List Int :=
  src.take SPEED_DIAL_SIZE ++ dst.drop SPEED_DIAL_SIZE

/-- The content of row `i` of `_g_speed_dial_eeprom`. -/
def eeprom_row (w : World) (i : Nat) : List Int := w.eeprom.getD i []

/-- The loop of `dial_speed_dial_number` over the loaded digits. -/
def dial_digits : List Int → World → World
  | [], w => w
  | d :: ds, w =>
    if 0 ≤ d ∧ d ≤ DIGIT_POUND then
      dial_digits ds (sleep_ms DTMF_DURATION_MS (dtmf_generate_tone d DTMF_DURATION_MS w))
    else
      dial_digits ds w

/-- The function `dial_speed_dial_number`. -/
def dial_speed_dial_number (index : Int) (w : World) : World :=
  if 0 ≤ index ∧ index < SPEED_DIAL_COUNT then
    let speed_dial_digits :=
      if index = SPEED_DIAL_REDIAL then w.rs.redial_digits.take SPEED_DIAL_SIZE
      else (eeprom_row w index.toNat).take SPEED_DIAL_SIZE
    dial_digits speed_dial_digits w
  else
    w

/-- The function `write_current_speed_dial`. -/
def write_current_speed_dial (speed_dial_digits : List Int) (index : Int) (w : World) : World :=
  if index = SPEED_DIAL_REDIAL then
    { w with rs := { w.rs with redial_digits := copy_block w.rs.redial_digits speed_dial_digits } }
  else if 0 ≤ index ∧ index < SPEED_DIAL_COUNT then
    let old_speed_dial_digits := (eeprom_row w index.toNat).take SPEED_DIAL_SIZE
    if old_speed_dial_digits ≠ speed_dial_digits.take SPEED_DIAL_SIZE then
      { w with
        eeprom := w.eeprom.set index.toNat (copy_block (eeprom_row w index.toNat) speed_dial_digits)
        eeprom_updates := w.eeprom_updates + 1 }
    else
      w
  else
    w

/-- The statement `rs->speed_dial_digits[rs->speed_dial_digit_index++] = rs->dialed_digit`;
an index outside the `SPEED_DIAL_SIZE` entries of the buffer is a fault. -/
def append_dialed_digit (w : World) : Except Fault World :=
  if w.rs.speed_dial_digit_index < SPEED_DIAL_SIZE then
    .ok { w with rs := { w.rs with
            speed_dial_digits := w.rs.speed_dial_digits.set w.rs.speed_dial_digit_index w.rs.dialed_digit
            speed_dial_digit_index := (w.rs.speed_dial_digit_index + 1) % 256 } }
  else
    .error .buffer_index

/-- The function `process_dialed_digit`, with a budget for its recursion. -/
def process_dialed_digit_rec : Nat → World → Except Fault World
  | 0, _ => .error .recursion
  | fuel + 1, w =>
    if w.rs.state = STATE_DIAL then do
      let w1 ←
        if w.rs.speed_dial_digit_index < SPEED_DIAL_SIZE then append_dialed_digit w
        else pure (init_speed_dial w)
      let w2 := { w1 with rs := { w1.rs with speed_dial_index := SPEED_DIAL_REDIAL } }
      pure (dtmf_generate_tone w2.rs.dialed_digit DTMF_DURATION_MS w2)
    else if w.rs.state = STATE_SPECIAL_L1 then
      let w1 := { w with rs := { w.rs with state := STATE_DIAL } }
      if w1.rs.dialed_digit = L2_STAR ∨ w1.rs.dialed_digit = L2_POUND then
        process_dialed_digit_rec fuel
          { w1 with rs := { w1.rs with
              dialed_digit := if w1.rs.dialed_digit = L2_STAR then DIGIT_STAR else DIGIT_POUND } }
      else if w1.rs.dialed_digit = L2_REDIAL then
        pure (dial_speed_dial_number SPEED_DIAL_REDIAL w1)
      else do
        let loc ← speed_dial_loc w1.rs.dialed_digit
        if loc ≥ 0 then pure (dial_speed_dial_number loc w1) else pure w1
    else if w.rs.state = STATE_SPECIAL_L2 then do
      let loc ← speed_dial_loc w.rs.dialed_digit
      if loc ≥ 0 then
        let w1 := init_speed_dial w
        pure { w1 with rs := { w1.rs with
                 speed_dial_index := to_uint8 loc
                 state := STATE_PROGRAM_SD } }
      else
        pure (dtmf_generate_tone DIGIT_TUNE_DESC 800
                { w with rs := { w.rs with state := STATE_DIAL } })
    else if w.rs.state = STATE_SPECIAL_L3 then
      pure { w with rs := { w.rs with state := STATE_DIAL } }
    else if w.rs.state = STATE_PROGRAM_SD then
      if w.rs.speed_dial_digit_index ≥ SPEED_DIAL_SIZE then
        pure (dtmf_generate_tone DIGIT_TUNE_DESC 800
                (init_speed_dial { w with rs := { w.rs with state := STATE_DIAL } }))
      else do
        let w1 ← append_dialed_digit w
        pure (dtmf_generate_tone DIGIT_BEEP_LOW 200 w1)
    else
      pure { w with rs := { w.rs with state := STATE_DIAL } }

/-- The function `process_dialed_digit`: the recursion of the C function is at
most one level deep (the nested call runs in `STATE_DIAL`). -/
def process_dialed_digit (w : World) : Except Fault World :=
  process_dialed_digit_rec 2 w

/-- The macro `PINBUF_CHANGED_HIGH`. -/
def PINBUF_CHANGED_HIGH (x : Nat) : Bool := x &&& 0xC7 = 0x07

/-- The macro `PINBUF_CHANGED_LOW`. -/
def PINBUF_CHANGED_LOW (x : Nat) : Bool := x &&& 0xC7 = 0xC0

/-- The function `update_pin`; `raw` is the level of the sampled port bit. -/
def update_pin (pin : pin_t) (raw : Bool) : pin_t :=
  let buf := (pin.buf * 2 ||| (if raw then 1 else 0)) % 256
  if PINBUF_CHANGED_LOW buf then
    { buf := 0x00, high := false, changed := true }
  else if PINBUF_CHANGED_HIGH buf then
    { buf := 0xFF, high := true, changed := true }
  else
    { pin with buf := buf, changed := false }

/-- What one pass of the sampling loop reads from outside: the elapsed-time
counter `*delay_counter` and the raw levels of the pulse pin and the dial pin. -/
structure Tick where
  delay_counter : Nat
  pulse : Bool
  dial : Bool
  deriving DecidableEq, Repr

/-- The preparation of one gesture in `main` (lines 185-205): special function
detection is armed in `STATE_DIAL` (`ENABLE_SPECIAL_FUNCTIONS` is 1), the pulse
pin is preset with its current raw level and the tally is cleared. -/
def main_gesture_begin (pulse_raw : Bool) (w : World) : World :=
  let flags := if w.rs.state = STATE_DIAL then F_DETECT_SPECIAL_L1 else w.rs.flags
  let pulse_pin : pin_t :=
    if pulse_raw then { w.rs.pulse_pin with buf := 0xFF, high := true }
    else { w.rs.pulse_pin with buf := 0x00, high := false }
  { w with rs := { w.rs with flags := flags, pulse_pin := pulse_pin, dialed_digit := 0 } }

/-- The `switch (rs->flags)` at the head of the sampling loop (lines 209-249). -/
def main_special_function (b : Build) (t : Tick) (w : World) : World :=
  if w.rs.flags = F_DETECT_SPECIAL_L1 then
    if t.delay_counter ≥ SF_DELAY_MS * b.t0_overflow_per_ms then
      dtmf_generate_tone DIGIT_BEEP_LOW 200
        { w with rs := { w.rs with state := STATE_SPECIAL_L1, flags := F_DETECT_SPECIAL_L2 } }
    else w
  else if w.rs.flags = F_DETECT_SPECIAL_L2 then
    if t.delay_counter ≥ SF_DELAY_MS * b.t0_overflow_per_ms then
      dtmf_generate_tone DIGIT_TUNE_ASC 200
        { w with rs := { w.rs with state := STATE_SPECIAL_L2, flags := F_DETECT_SPECIAL_L3 } }
    else w
  else if w.rs.flags = F_DETECT_SPECIAL_L3 then
    if t.delay_counter ≥ SF_DELAY_MS * b.t0_overflow_per_ms then
      dtmf_generate_tone DIGIT_TUNE_DESC 800
        { w with rs := { w.rs with state := STATE_SPECIAL_L3, flags := F_NONE } }
    else w
  else
    { w with rs := { w.rs with flags := F_NONE } }

/-- One pass of the sampling loop of `main` (lines 208-262). -/
def main_sample_tick (b : Build) (t : Tick) (w : World) : World :=
  let w1 := main_special_function b t w
  let w2 := { w1 with rs := { w1.rs with pulse_pin := update_pin w1.rs.pulse_pin t.pulse } }
  let w3 :=
    if w2.rs.pulse_pin.high ∧ w2.rs.pulse_pin.changed then
      { w2 with rs := { w2.rs with flags := F_NONE, dialed_digit := to_int8 (w2.rs.dialed_digit + 1) } }
    else w2
  { w3 with rs := { w3.rs with dial_pin := update_pin w3.rs.dial_pin t.dial } }

/-- The sampling loop `while (!rs->dial_pin.high)` of `main`, run over the
readings `ts`: it stops when the dial pin is high, or when the readings end. -/
def main_sample_loop (b : Build) : List Tick → World → World
  | [], w => w
  | t :: ts, w =>
    if w.rs.dial_pin.high then w else main_sample_loop b ts (main_sample_tick b t w)

/-- The loop of the soft debounce of `main` (lines 175-181): at most `n` samples
of the dial pin, left as soon as the pin is low. -/
def main_debounce_loop : Nat → List Bool → pin_t → pin_t
  | 0, _, pin => pin
  | _ + 1, [], pin => pin
  | n + 1, x :: xs, pin =>
    let pin1 := update_pin pin x
    if !pin1.high then pin1 else main_debounce_loop n xs pin1

/-- The soft debounce of `main` (lines 173-181) over the samples `xs` of the dial
pin. -/
def main_debounce (xs : List Bool) (w : World) : World :=
  { w with rs := { w.rs with
      dial_pin := main_debounce_loop 5000 xs { w.rs.dial_pin with buf := 0xFF, high := true } } }

/-- The handler `ISR(WDT_vect)`. -/
def wdt_isr (w : World) : World :=
  { w with rs := { w.rs with flags := F_WDT_AWAKE } }

/-- The run state with `rs->dialed_digit` set to `d`. -/
def set_dialed_digit (d : Int) (w : World) : World :=
  { w with rs := { w.rs with dialed_digit := d } }

/-- The run state with `rs->state` set to `s`. -/
def set_state (s : Nat) (w : World) : World :=
  { w with rs := { w.rs with state := s } }

/-- The digit that `main` hands to `process_dialed_digit` for a pulse tally
(lines 266-274): none when the tally is not in 1..10. -/
def resolve_dialed_digit (b : Build) (tally : Int) : Option Int :=
  if tally > 0 ∧ tally ≤ 10 then
    if b.nz_dial then some (to_int8 (10 - tally))
    else if tally = 10 then some 0
    else some tally
  else
    none

/-- The end of one gesture in `main` (lines 265-284): dispatch of the resolved
digit, or the reset of the menu state for an invalid tally. -/
def main_process_dialed (b : Build) (w : World) : Except Fault World :=
  match resolve_dialed_digit b w.rs.dialed_digit with
  | some d => process_dialed_digit (set_dialed_digit d w)
  | none => .ok (set_state STATE_DIAL w)

/-- The watchdog branch of `main` (lines 152-170), taken when the wake-up found
`rs->flags == F_WDT_AWAKE`. -/
def main_timeout (w : World) : World :=
  let w1 :=
    if w.rs.speed_dial_digit_index < SPEED_DIAL_SIZE then
      let w2 := write_current_speed_dial w.rs.speed_dial_digits (to_int8 w.rs.speed_dial_index) w
      if w2.rs.state = STATE_PROGRAM_SD then dtmf_generate_tone DIGIT_BEEP 200 w2 else w2
    else
      w
  init_speed_dial { w1 with rs := { w1.rs with state := STATE_DIAL, flags := F_NONE } }

/-- The sampling of one gesture (lines 185-263): preparation, then the sampling
loop over the readings `ts`. -/
def main_gesture_samples (b : Build) (pulse_raw : Bool) (ts : List Tick) (w : World) : World :=
  main_sample_loop b ts (main_gesture_begin pulse_raw w)

/-! ## Vocabulary of the properties -/

/-- Dispatch of the digit `d` to the command state machine. -/
def dispatch (d : Int) (w : World) : Except Fault World :=
  process_dialed_digit (set_dialed_digit d w)

/-- Dispatch of the digits `ds`, one after the other. -/
def dispatch_all : List Int → World → Except Fault World
  | [], w => .ok w
  | d :: ds, w =>
    match dispatch d w with
    | .ok w1 => dispatch_all ds w1
    | .error f => .error f

/-- The digits `s` followed by `DIGIT_OFF` up to `SPEED_DIAL_SIZE` entries. -/
def padded (s : List Int) : List Int :=
  s ++ List.replicate (SPEED_DIAL_SIZE - s.length) DIGIT_OFF

/-- The stored content of slot `i`: the redial buffer for `SPEED_DIAL_REDIAL`,
the EEPROM row otherwise. -/
def slot_content (w : World) (i : Nat) : List Int :=
  if i = SPEED_DIAL_REDIAL then w.rs.redial_digits else eeprom_row w i

/-- The EEPROM array has `SPEED_DIAL_COUNT` rows of `SPEED_DIAL_SIZE` entries. -/
def EepromWF (e : List (List Int)) : Prop :=
  e.length = SPEED_DIAL_COUNT ∧ ∀ r ∈ e, r.length = SPEED_DIAL_SIZE

instance (e : List (List Int)) : Decidable (EepromWF e) := by
  unfold EepromWF; infer_instance

/-- The EEPROM content of the `EEMEM` initialiser: every entry `DIGIT_OFF`. -/
def eeprom_factory : List (List Int) :=
  List.replicate SPEED_DIAL_COUNT (List.replicate SPEED_DIAL_SIZE DIGIT_OFF)

/-- The synthesizer calls of a dial-out of the stored content `c`: for each entry
in 0..11, in order, its tone for 200 ms and a pause of 200 ms. -/
def playback (c : List Int) : List Sound :=
  (c.filter (fun d => decide (0 ≤ d ∧ d ≤ 11))).flatMap
    (fun d => [Sound.tone d 200, Sound.pause 200])

/-- The run states the program can be in: the closure of the initial state (with a
well-formed EEPROM) under every piece of the loop body of `main` and under the
watchdog handler, and moreover under the dispatch of any digit 0..11 in any menu
state. The pieces may follow each other in any order, so this set contains every
state of every execution. -/
inductive Reachable (b : Build) : World → Prop where
  | init (e : List (List Int)) : EepromWF e → Reachable b (init e)
  | wdt_isr (w : World) : Reachable b w → Reachable b (wdt_isr w)
  | timeout (w : World) : Reachable b w → Reachable b (main_timeout w)
  | debounce (xs : List Bool) (w : World) : Reachable b w → Reachable b (main_debounce xs w)
  | gesture_begin (pulse_raw : Bool) (w : World) :
      Reachable b w → Reachable b (main_gesture_begin pulse_raw w)
  | sample_tick (t : Tick) (w : World) : Reachable b w → Reachable b (main_sample_tick b t w)
  | process_dialed (w w1 : World) :
      Reachable b w → main_process_dialed b w = .ok w1 → Reachable b w1
  | dispatch (st : Nat) (d : Int) (w w1 : World) :
      Reachable b w → 0 ≤ d → d ≤ 11 → dispatch d (set_state st w) = .ok w1 → Reachable b w1

/-- The shape every run state keeps: PendingNumber is its first
`speed_dial_digit_index` entries followed by `DIGIT_OFF`, at most
`SPEED_DIAL_SIZE` of them; the redial buffer and the EEPROM rows have
`SPEED_DIAL_SIZE` entries; the commit target is one of the eight slots. -/
def Consistent (w : World) : Prop :=
  (∃ pre, w.rs.speed_dial_digits = padded pre ∧ w.rs.speed_dial_digit_index = pre.length ∧
    pre.length ≤ SPEED_DIAL_SIZE) ∧
  w.rs.redial_digits.length = SPEED_DIAL_SIZE ∧ EepromWF w.eeprom ∧
  w.rs.speed_dial_index ≤ SPEED_DIAL_REDIAL

/-- What one dispatch can do to PendingNumber and the commit target: nothing, an
append at the current index, or a reset; the slots stay as they are. -/
def PendingStep (w w1 : World) : Prop :=
  w1.rs.redial_digits = w.rs.redial_digits ∧ w1.eeprom = w.eeprom ∧
  w1.eeprom_updates = w.eeprom_updates ∧
  ((w1.rs.speed_dial_digits = w.rs.speed_dial_digits ∧
      w1.rs.speed_dial_digit_index = w.rs.speed_dial_digit_index ∧
      w1.rs.speed_dial_index = w.rs.speed_dial_index) ∨
    (w.rs.speed_dial_digit_index < SPEED_DIAL_SIZE ∧
      (∃ c, w1.rs.speed_dial_digits = w.rs.speed_dial_digits.set w.rs.speed_dial_digit_index c) ∧
      w1.rs.speed_dial_digit_index = w.rs.speed_dial_digit_index + 1 ∧
      (w1.rs.speed_dial_index = SPEED_DIAL_REDIAL ∨
        w1.rs.speed_dial_index = w.rs.speed_dial_index)) ∨
    (w1.rs.speed_dial_digits = List.replicate SPEED_DIAL_SIZE DIGIT_OFF ∧
      w1.rs.speed_dial_digit_index = 0 ∧ w1.rs.speed_dial_index ≤ SPEED_DIAL_REDIAL))

/-- The standard build: dial not reversed, 8 MHz clock. -/
def standard_build : Build := { nz_dial := false, t0_overflow_per_ms := 31 }

/-- The run state after thirty digits 5 were dialed in state Dial right after
initialisation: PendingNumber is full. -/
def thirty_fives : World :=
  { rs := { state := STATE_DIAL
            flags := 0
            speed_dial_index := 7
            speed_dial_digit_index := 30
            speed_dial_digits := List.replicate 30 5
            redial_digits := List.replicate 30 (-1)
            dialed_digit := 5
            dial_pin := { buf := 0, high := false, changed := false }
            pulse_pin := { buf := 0, high := false, changed := false } }
    eeprom := eeprom_factory
    out := List.replicate 30 (Sound.tone 5 200)
    eeprom_updates := 0 }

/-- The run state after the digits 5 and 2 were dialed in state Dial right after
initialisation. -/
def five_two : World :=
  { rs := { state := STATE_DIAL
            flags := 0
            speed_dial_index := 7
            speed_dial_digit_index := 2
            speed_dial_digits := [5, 2] ++ List.replicate 28 (-1)
            redial_digits := List.replicate 30 (-1)
            dialed_digit := 2
            dial_pin := { buf := 0, high := false, changed := false }
            pulse_pin := { buf := 0, high := false, changed := false } }
    eeprom := eeprom_factory
    out := [Sound.tone 5 200, Sound.tone 2 200]
    eeprom_updates := 0 }

/-- The run state after digit 4 was dispatched in state SpecialL2 right after
initialisation: programming of slot 1 has begun. -/
def programming_slot_1 : World :=
  { rs := { state := STATE_PROGRAM_SD
            flags := 0
            speed_dial_index := 1
            speed_dial_digit_index := 0
            speed_dial_digits := List.replicate 30 (-1)
            redial_digits := List.replicate 30 (-1)
            dialed_digit := 4
            dial_pin := { buf := 0, high := false, changed := false }
            pulse_pin := { buf := 0, high := false, changed := false } }
    eeprom := eeprom_factory
    out := []
    eeprom_updates := 0 }

/-- The readings of one clean pulse while the dial pin stays low: the pulse pin is
sampled low three times, then high three times. -/
def one_pulse : List Tick :=
  List.replicate 3 { delay_counter := 0, pulse := false, dial := false } ++
  List.replicate 3 { delay_counter := 0, pulse := true, dial := false }

/-- The readings of the release of the dial: the dial pin is sampled high three
times. -/
def dial_release : List Tick :=
  List.replicate 3 { delay_counter := 0, pulse := true, dial := true }

/-- The readings of a gesture of `n` clean pulses. -/
def pulses (n : Nat) : List Tick :=
  (List.replicate n one_pulse).flatten ++ dial_release

/-! ## Vocabulary of the sampling and of the main loop -/

/-- The pass of the sampling loop over the reading `t` counts a pulse: after its
`update_pin` the pulse pin is high and changed. -/
def pulse_counted (t : Tick) (w : World) : Bool :=
  (update_pin w.rs.pulse_pin t.pulse).high && (update_pin w.rs.pulse_pin t.pulse).changed

/-- The count `SF_DELAY_MS * T0_OVERFLOW_PER_MS` the elapsed-time counter is
compared with. -/
def sf_delay_ticks (b : Build) : Nat := SF_DELAY_MS * b.t0_overflow_per_ms

/-- The pin after the raw samples `xs` were fed to `update_pin`, one by one. -/
def feed_pin (p : pin_t) (xs : List Bool) : pin_t := xs.foldl update_pin p

/-- A pin as `main` presets it at the start of a monitoring session: history 0xFF
with level high, or history 0x00 with level low. -/
def session_initial (p : pin_t) : Prop :=
  (p.buf = 0xFF ∧ p.high = true) ∨ (p.buf = 0x00 ∧ p.high = false)

instance (p : pin_t) : Decidable (session_initial p) := by
  unfold session_initial; infer_instance

/-- The number of low-to-high transitions in the samples `xs`, `prev` being the
sample before the first. -/
def rising : Bool → List Bool → Nat
  | _, [] => 0
  | prev, x :: xs => (if !prev && x then 1 else 0) + rising x xs

/-- The samples of alternating runs: a run of `n` samples of level `lv` for the
first length `n`, then a run of the other level for the next length, and so on. -/
def alternating_runs : Bool → List Nat → List Bool
  | _, [] => []
  | lv, n :: ns => List.replicate n lv ++ alternating_runs (!lv) ns

/-- The start of one pass of the loop of `main` (lines 144-149): the watchdog is
started only while PendingNumber is not empty, so only then can its interrupt,
`fired`, come during the sleep. -/
def main_sleep (fired : Bool) (w : World) : World :=
  if fired ∧ w.rs.speed_dial_digit_index > 0 then wdt_isr w else w

/-- The run states at the head of the loop of `main`, in every execution from
initialisation: each pass is a timeout, an abandoned wake (the dial pin still
high after the soft debounce) or a complete gesture (the sampling loop left
with the dial pin high) followed by the processing of its tally. -/
inductive MainLoop (b : Build) : World → Prop where
  | init (e : List (List Int)) : MainLoop b (init e)
  | timeout (fired : Bool) (w : World) : MainLoop b w →
      (main_sleep fired w).rs.flags = F_WDT_AWAKE →
      MainLoop b (main_timeout (main_sleep fired w))
  | abandoned (fired : Bool) (xs : List Bool) (w : World) : MainLoop b w →
      (main_sleep fired w).rs.flags ≠ F_WDT_AWAKE →
      (main_debounce xs (main_sleep fired w)).rs.dial_pin.high = true →
      MainLoop b (main_debounce xs (main_sleep fired w))
  | gesture (fired : Bool) (xs : List Bool) (pulse_raw : Bool) (ts : List Tick) (w w1 : World) :
      MainLoop b w →
      (main_sleep fired w).rs.flags ≠ F_WDT_AWAKE →
      (main_debounce xs (main_sleep fired w)).rs.dial_pin.high = false →
      (main_gesture_samples b pulse_raw ts
        (main_debounce xs (main_sleep fired w))).rs.dial_pin.high = true →
      main_process_dialed b
        (main_gesture_samples b pulse_raw ts (main_debounce xs (main_sleep fired w))) = .ok w1 →
      MainLoop b w1

/-- The readings of a gesture that holds the dial until the elapsed-time counter
has reached the special function delay at two passes, and then dials four clean
pulses. -/
def hold_twice_then_4 : List Tick :=
  [{ delay_counter := 62000, pulse := true, dial := false },
   { delay_counter := 62000, pulse := true, dial := false }] ++ pulses 4

/-- The run state at the head of the loop of `main` after the gesture
`hold_twice_then_4` was made right after initialisation: programming of slot 1 has
begun. -/
def programming_after_gesture : World :=
  { programming_slot_1 with
    rs := { programming_slot_1.rs with
      dial_pin := { buf := 255, high := true, changed := true }
      pulse_pin := { buf := 255, high := true, changed := false } }
    out := [Sound.tone DIGIT_BEEP_LOW 200, Sound.tone DIGIT_TUNE_ASC 200] }

/-- Readings of a held dial over which the elapsed-time counter is never
restarted: it reads the special function delay of the standard build (62000) at
the first pass, and 200 ms more (6200 counts) at each following pass. -/
def hold_without_restart : List Tick :=
  [{ delay_counter := 62000, pulse := true, dial := false },
   { delay_counter := 68200, pulse := true, dial := false },
   { delay_counter := 74400, pulse := true, dial := false }]

/-- The run state right after initialisation and a soft debounce that found the
dial pin low. -/
def dial_low_after_init : World :=
  main_debounce [false, false, false] (init eeprom_factory)

/-- The readings of a glitch on the pulse line while the dial pin stays low: the
pulse pin is sampled low twice, then high six times. -/
def glitch : List Tick :=
  List.replicate 2 { delay_counter := 0, pulse := false, dial := false } ++
  List.replicate 6 { delay_counter := 0, pulse := true, dial := false }

/-- A pin whose history is uniformly at the level `lv`, with `lv` as its level:
the two session-initial states, which are also the states after a reported
change. -/
def stable_at (lv : Bool) (p : pin_t) : Prop :=
  p.buf = (if lv then 0xFF else 0x00) ∧ p.high = lv

instance (lv : Bool) (p : pin_t) : Decidable (stable_at lv p) := by
  unfold stable_at; infer_instance

/-- The number of samples among `xs`, fed one by one to the pin `p`, after whose
`update_pin` the pin is high and changed: the pulses the sampling loop counts. -/
def counted_pulses : pin_t → List Bool → Nat
  | _, [] => 0
  | p, x :: xs =>
    (if (update_pin p x).high && (update_pin p x).changed then 1 else 0) +
      counted_pulses (update_pin p x) xs

/-- The readings of `n` clean pulses in a row while the dial pin stays low. -/
def pulse_train (n : Nat) : List Tick := (List.replicate n one_pulse).flatten

/-- The run state at the head of the loop of `main` after a gesture of seven clean
pulses was made in `programming_after_gesture`: digit 7 is recorded for slot 1. -/
def recorded_seven : World :=
  { programming_after_gesture with
    rs := { programming_after_gesture.rs with
      speed_dial_digit_index := 1
      speed_dial_digits := [7] ++ List.replicate 29 (-1)
      dialed_digit := 7 }
    out := [Sound.tone DIGIT_BEEP_LOW 200, Sound.tone DIGIT_TUNE_ASC 200,
      Sound.tone DIGIT_BEEP_LOW 200] }

/-- The run state at the head of the loop of `main` after the dial was then moved
and released without a pulse: the menu state is back at Dial, and PendingNumber
still holds the recorded 7. -/
def seven_pending : World :=
  { recorded_seven with rs := { recorded_seven.rs with state := STATE_DIAL, dialed_digit := 0 } }

/-! ## Vocabulary of the elapsed-time counter -/

/-- What one pass of the sampling loop meets: the time `now` at which it tests the
elapsed-time counter, counted in overflows of timer 0 since power-up, and the raw
levels of the pulse pin and the dial pin. -/
structure Pass where
  now : Nat
  pulse : Bool
  dial : Bool
  deriving DecidableEq, Repr

/-- The run state together with the time at which the elapsed-time counter
`_g_delay_counter` was last restarted. -/
structure Timed where
  w : World
  restart : Nat
  deriving DecidableEq, Repr

/-- Modelled from the spec: the value of the counter `_g_delay_counter` of the tone
synthesizer. `dtmf.h` declares the counter next to `sleep_ms`; the file that
advances it and that implements `dtmf_generate_tone` and `sleep_ms` (`dtmf.c`) is
not among the sources. The spec has the synthesizer expose "a free-running
elapsed-time counter" of ticks, started "when the dial line first asserts": the
counter reads the overflows of timer 0 since it was last restarted. -/
def delay_counter_at (restart now : Nat) : Nat := now - restart

/-- What the pass `p` reads when the counter was last restarted at `restart`. -/
def pass_reading (restart : Nat) (p : Pass) : Tick :=
  { delay_counter := delay_counter_at restart p.now, pulse := p.pulse, dial := p.dial }

/-- The preparation of one gesture at the time `t0` (lines 185-205):
`main_gesture_begin`, with the assignment `*delay_counter = 0` of line 189, made
in `STATE_DIAL` only, as a restart of the counter at `t0`. -/
def main_timed_begin (pulse_raw : Bool) (t0 : Nat) (s : Timed) : Timed :=
  { w := main_gesture_begin pulse_raw s.w
    restart := if s.w.rs.state = STATE_DIAL then t0 else s.restart }

/-- Modelled from the spec: what a tone does to the counter (`dtmf_generate_tone`
is declared in `dtmf.h`, its file `dtmf.c` is not among the sources). The spec has
the synthesizer block "for the duration" of a tone and gives each of the three
thresholds 2000ms of hold of its own ("hold dial line 2000ms ... hold another
2000ms"); `main` compares the counter with the same count at every level and
zeroes it itself only when the gesture starts. The model therefore has the
synthesizer restart the counter when a tone begins. One pass of the sampling loop
at the time `p.now` is `main_sample_tick` on the reading of the counter; when the
pass has called the synthesizer, the counter was restarted at `p.now`. -/
def main_timed_tick (b : Build) (p : Pass) (s : Timed) : Timed :=
  let w1 := main_sample_tick b (pass_reading s.restart p) s.w
  { w := w1, restart := if w1.out = s.w.out then s.restart else p.now }

/-- The sampling loop `while (!rs->dial_pin.high)` of `main` over the passes `ps`. -/
def main_timed_loop (b : Build) : List Pass → Timed → Timed
  | [], s => s
  | p :: ps, s =>
    if s.w.rs.dial_pin.high then s else main_timed_loop b ps (main_timed_tick b p s)

/-- The sampling of one gesture begun at the time `t0` (lines 185-263). -/
def main_timed_gesture (b : Build) (pulse_raw : Bool) (t0 : Nat) (ps : List Pass)
    (s : Timed) : Timed :=
  main_timed_loop b ps (main_timed_begin pulse_raw t0 s)

/-- The passes of a held dial at the standard build, the gesture begun at time 0:
the dial has been held for 2000 ms at the third pass, the low beep then takes
200 ms, and so on for the two further levels. -/
def timed_hold : List Pass :=
  [{ now := 0, pulse := true, dial := false },
   { now := 61999, pulse := true, dial := false },
   { now := 62000, pulse := true, dial := false },
   { now := 68200, pulse := true, dial := false },
   { now := 123999, pulse := true, dial := false },
   { now := 124000, pulse := true, dial := false },
   { now := 130200, pulse := true, dial := false },
   { now := 185999, pulse := true, dial := false },
   { now := 186000, pulse := true, dial := false },
   { now := 210800, pulse := true, dial := false },
   { now := 400000, pulse := true, dial := false }]

/-! ## Digit resolution -/

/-- C1: a digit is dispatched to the command state machine exactly for the pulse
tallies 1..10 (otherwise `main` only resets the menu state); the standard build
dispatches the tally itself for 1..9 and 0 for 10, the reversed build dispatches
10 minus the tally. -/
theorem C1_digit_resolution (b : Build) :
    (∀ t : Int, (resolve_dialed_digit b t).isSome ↔ 1 ≤ t ∧ t ≤ 10) ∧
    (∀ w d, resolve_dialed_digit b w.rs.dialed_digit = some d →
      main_process_dialed b w = process_dialed_digit (set_dialed_digit d w)) ∧
    (∀ w, resolve_dialed_digit b w.rs.dialed_digit = none →
      main_process_dialed b w = .ok (set_state STATE_DIAL w)) ∧
    (∀ t : Int, b.nz_dial = false → 1 ≤ t → t ≤ 9 → resolve_dialed_digit b t = some t) ∧
    (b.nz_dial = false → resolve_dialed_digit b 10 = some 0) ∧
    (∀ t : Int, b.nz_dial = true → 1 ≤ t → t ≤ 10 →
      resolve_dialed_digit b t = some (10 - t)) := by
  refine ⟨?_, ?_, ?_, ?_, ?_, ?_⟩
  · intro t
    unfold resolve_dialed_digit
    by_cases h : t > 0 ∧ t ≤ 10
    · rw [if_pos h]
      constructor
      · intro _; omega
      · intro _; split_ifs <;> rfl
    · rw [if_neg h]
      constructor
      · intro h1; cases h1
      · intro h1; exact absurd (by omega) h
  · intro w d h
    simp only [main_process_dialed, h]
  · intro w h
    simp only [main_process_dialed, h]
  · intro t hb h1 h9
    have h : t > 0 ∧ t ≤ 10 := by omega
    have h10 : ¬ t = 10 := by omega
    simp [resolve_dialed_digit, hb, h, h10]
  · intro hb
    simp [resolve_dialed_digit, hb]
  · intro t hb h1 h10
    have h : t > 0 ∧ t ≤ 10 := by omega
    simp only [resolve_dialed_digit, if_pos h, hb, if_true, to_int8]
    congr 1
    omega

/-! ## Single dispatch steps -/

theorem ok_eq_exists {a : Except Fault World} {v : World} (h : a = .ok v) :
    ∃ w0, a = .ok w0 ∧ w0 = v := ⟨v, h, rfl⟩

theorem dispatch_dial_room (d : Int) (w : World) (hs : w.rs.state = STATE_DIAL)
    (hi : w.rs.speed_dial_digit_index < SPEED_DIAL_SIZE) :
    dispatch d w = .ok
      { w with
        rs := { w.rs with
          dialed_digit := d
          speed_dial_digits := w.rs.speed_dial_digits.set w.rs.speed_dial_digit_index d
          speed_dial_digit_index := w.rs.speed_dial_digit_index + 1
          speed_dial_index := SPEED_DIAL_REDIAL }
        out := w.out ++ [Sound.tone d DTMF_DURATION_MS] } := by
  have h256 : (w.rs.speed_dial_digit_index + 1) % 256 = w.rs.speed_dial_digit_index + 1 := by
    unfold SPEED_DIAL_SIZE at hi; omega
  simp [dispatch, process_dialed_digit, process_dialed_digit_rec, set_dialed_digit, hs, hi,
    append_dialed_digit, dtmf_generate_tone, h256, bind, Except.bind, pure, Except.pure]

theorem dispatch_dial_full (d : Int) (w : World) (hs : w.rs.state = STATE_DIAL)
    (hi : ¬ w.rs.speed_dial_digit_index < SPEED_DIAL_SIZE) :
    dispatch d w = .ok
      { w with
        rs := { w.rs with
          dialed_digit := d
          speed_dial_digits := List.replicate SPEED_DIAL_SIZE DIGIT_OFF
          speed_dial_digit_index := 0
          speed_dial_index := SPEED_DIAL_REDIAL }
        out := w.out ++ [Sound.tone d DTMF_DURATION_MS] } := by
  simp [dispatch, process_dialed_digit, process_dialed_digit_rec, set_dialed_digit, hs, hi,
    init_speed_dial, dtmf_generate_tone, bind, Except.bind, pure, Except.pure]

theorem dispatch_program_room (d : Int) (w : World) (hs : w.rs.state = STATE_PROGRAM_SD)
    (hi : w.rs.speed_dial_digit_index < SPEED_DIAL_SIZE) :
    dispatch d w = .ok
      { w with
        rs := { w.rs with
          dialed_digit := d
          speed_dial_digits := w.rs.speed_dial_digits.set w.rs.speed_dial_digit_index d
          speed_dial_digit_index := w.rs.speed_dial_digit_index + 1 }
        out := w.out ++ [Sound.tone DIGIT_BEEP_LOW 200] } := by
  have h256 : (w.rs.speed_dial_digit_index + 1) % 256 = w.rs.speed_dial_digit_index + 1 := by
    unfold SPEED_DIAL_SIZE at hi; omega
  have hge : ¬ w.rs.speed_dial_digit_index ≥ SPEED_DIAL_SIZE := by omega
  simp [dispatch, process_dialed_digit, process_dialed_digit_rec, set_dialed_digit, hs, hi,
    append_dialed_digit, dtmf_generate_tone, h256, bind, Except.bind, pure, Except.pure,
    STATE_PROGRAM_SD, STATE_DIAL, STATE_SPECIAL_L1, STATE_SPECIAL_L2, STATE_SPECIAL_L3]

theorem dispatch_program_full (d : Int) (w : World) (hs : w.rs.state = STATE_PROGRAM_SD)
    (hi : ¬ w.rs.speed_dial_digit_index < SPEED_DIAL_SIZE) :
    dispatch d w = .ok
      { w with
        rs := { w.rs with
          dialed_digit := d
          state := STATE_DIAL
          speed_dial_digits := List.replicate SPEED_DIAL_SIZE DIGIT_OFF
          speed_dial_digit_index := 0
          speed_dial_index := 0 }
        out := w.out ++ [Sound.tone DIGIT_TUNE_DESC 800] } := by
  have hge : w.rs.speed_dial_digit_index ≥ SPEED_DIAL_SIZE := by omega
  simp [dispatch, process_dialed_digit, process_dialed_digit_rec, set_dialed_digit, hs, hge,
    init_speed_dial, dtmf_generate_tone, bind, Except.bind, pure, Except.pure,
    STATE_PROGRAM_SD, STATE_DIAL, STATE_SPECIAL_L1, STATE_SPECIAL_L2, STATE_SPECIAL_L3]

/-! ## Padded buffers -/

theorem padded_length (s : List Int) (h : s.length ≤ SPEED_DIAL_SIZE) :
    (padded s).length = SPEED_DIAL_SIZE := by
  simp [padded]; omega

theorem padded_nil : padded [] = List.replicate SPEED_DIAL_SIZE DIGIT_OFF := by
  simp [padded]

theorem padded_set (s : List Int) (d : Int) (h : s.length < SPEED_DIAL_SIZE) :
    (padded s).set s.length d = padded (s ++ [d]) := by
  unfold padded
  obtain ⟨k, hk⟩ : ∃ k, SPEED_DIAL_SIZE - s.length = k + 1 := ⟨SPEED_DIAL_SIZE - s.length - 1, by omega⟩
  have hk2 : SPEED_DIAL_SIZE - (s ++ [d]).length = k := by simp; omega
  rw [hk, hk2, List.set_append_right _ _ (le_refl _)]
  simp [List.replicate_succ]

theorem copy_block_full (dst src : List Int) (hd : dst.length = SPEED_DIAL_SIZE)
    (hs : src.length = SPEED_DIAL_SIZE) : copy_block dst src = src := by
  unfold copy_block
  rw [List.take_of_length_le (le_of_eq hs), List.drop_of_length_le (le_of_eq hd)]
  simp

/-! ## Runs of dispatches in one menu state -/

theorem dial_run (s : List Int) : ∀ (w : World) (pre : List Int),
    w.rs.state = STATE_DIAL → w.rs.speed_dial_digits = padded pre →
    w.rs.speed_dial_digit_index = pre.length → pre.length + s.length ≤ SPEED_DIAL_SIZE →
    ∃ w1, dispatch_all s w = .ok w1 ∧ w1.rs.state = STATE_DIAL ∧
      w1.rs.speed_dial_digits = padded (pre ++ s) ∧
      w1.rs.speed_dial_digit_index = pre.length + s.length ∧
      (s ≠ [] → w1.rs.speed_dial_index = SPEED_DIAL_REDIAL) ∧
      w1.out = w.out ++ s.map (fun d => Sound.tone d DTMF_DURATION_MS) ∧
      w1.rs.redial_digits = w.rs.redial_digits ∧ w1.eeprom = w.eeprom ∧
      w1.eeprom_updates = w.eeprom_updates := by
  induction s with
  | nil =>
    intro w pre hs hd hi _
    exact ⟨w, rfl, hs, by simpa using hd, by simpa using hi, by simp, by simp, rfl, rfl, rfl⟩
  | cons d ds ih =>
    intro w pre hs hd hi hlen
    have hlen2 : pre.length + (ds.length + 1) ≤ SPEED_DIAL_SIZE := by simpa using hlen
    have hroom : w.rs.speed_dial_digit_index < SPEED_DIAL_SIZE := by omega
    obtain ⟨w0, hstep, hw0⟩ := ok_eq_exists (dispatch_dial_room d w hs hroom)
    obtain ⟨w1, h1, h2, h3, h4, h5, h6, h7, h8, h9⟩ := ih w0 (pre ++ [d]) (by rw [hw0]; exact hs)
      (by rw [hw0]; simp only [hd, hi]; exact padded_set pre d (by omega))
      (by rw [hw0]; simp [hi]) (by simp; omega)
    refine ⟨w1, ?_, h2, ?_, ?_, ?_, ?_, ?_, ?_, ?_⟩
    · simp only [dispatch_all, hstep]; exact h1
    · simpa using h3
    · simp at h4 ⊢; omega
    · intro _
      by_cases hds : ds = []
      · subst hds
        simp only [dispatch_all] at h1
        injection h1 with h1
        rw [← h1, hw0]
      · exact h5 hds
    · rw [h6, hw0]; simp
    · rw [h7, hw0]
    · rw [h8, hw0]
    · rw [h9, hw0]

theorem program_run (s : List Int) : ∀ (w : World) (pre : List Int),
    w.rs.state = STATE_PROGRAM_SD → w.rs.speed_dial_digits = padded pre →
    w.rs.speed_dial_digit_index = pre.length → pre.length + s.length ≤ SPEED_DIAL_SIZE →
    ∃ w1, dispatch_all s w = .ok w1 ∧ w1.rs.state = STATE_PROGRAM_SD ∧
      w1.rs.speed_dial_digits = padded (pre ++ s) ∧
      w1.rs.speed_dial_digit_index = pre.length + s.length ∧
      w1.rs.speed_dial_index = w.rs.speed_dial_index ∧
      w1.out = w.out ++ List.replicate s.length (Sound.tone DIGIT_BEEP_LOW 200) ∧
      w1.rs.redial_digits = w.rs.redial_digits ∧ w1.eeprom = w.eeprom ∧
      w1.eeprom_updates = w.eeprom_updates := by
  induction s with
  | nil =>
    intro w pre hs hd hi _
    exact ⟨w, rfl, hs, by simpa using hd, by simpa using hi, rfl, by simp, rfl, rfl, rfl⟩
  | cons d ds ih =>
    intro w pre hs hd hi hlen
    have hlen2 : pre.length + (ds.length + 1) ≤ SPEED_DIAL_SIZE := by simpa using hlen
    have hroom : w.rs.speed_dial_digit_index < SPEED_DIAL_SIZE := by omega
    obtain ⟨w0, hstep, hw0⟩ := ok_eq_exists (dispatch_program_room d w hs hroom)
    obtain ⟨w1, h1, h2, h3, h4, h5, h6, h7, h8, h9⟩ := ih w0 (pre ++ [d]) (by rw [hw0]; exact hs)
      (by rw [hw0]; simp only [hd, hi]; exact padded_set pre d (by omega))
      (by rw [hw0]; simp [hi]) (by simp; omega)
    refine ⟨w1, ?_, h2, ?_, ?_, ?_, ?_, ?_, ?_, ?_⟩
    · simp only [dispatch_all, hstep]; exact h1
    · simpa using h3
    · simp at h4 ⊢; omega
    · rw [h5, hw0]
    · rw [h6, hw0]; simp [List.replicate_succ]
    · rw [h7, hw0]
    · rw [h8, hw0]
    · rw [h9, hw0]

/-! ## Commit of a number to a slot -/

theorem eeprom_row_set_self (w : World) (i : Nat) (r : List Int) (hi : i < w.eeprom.length) :
    eeprom_row { w with eeprom := w.eeprom.set i r } i = r := by
  simp [eeprom_row, List.getD_eq_getElem?_getD, hi]

theorem eeprom_row_length (w : World) (i : Nat) (hwf : EepromWF w.eeprom)
    (hi : i < SPEED_DIAL_COUNT) : (eeprom_row w i).length = SPEED_DIAL_SIZE := by
  obtain ⟨hl, hr⟩ := hwf
  have hi2 : i < w.eeprom.length := by omega
  apply hr
  simp [eeprom_row, List.getD_eq_getElem?_getD, hi2]

/-- A commit to a persisted slot leaves the committed digits in the slot. -/
theorem write_persisted_row (s : List Int) (i : Nat) (w : World) (hwf : EepromWF w.eeprom)
    (hi : i < SPEED_DIAL_REDIAL) (hs : s.length = SPEED_DIAL_SIZE) :
    eeprom_row (write_current_speed_dial s (i : Int) w) i = s := by
  have hrow := eeprom_row_length w i hwf (by unfold SPEED_DIAL_REDIAL at hi; omega)
  have hne : ¬ ((i : Int) = (SPEED_DIAL_REDIAL : Nat)) := by omega
  have hrange : 0 ≤ (i : Int) ∧ (i : Int) < (SPEED_DIAL_COUNT : Nat) := by
    unfold SPEED_DIAL_REDIAL at hi; omega
  have htake : List.take SPEED_DIAL_SIZE s = s := List.take_of_length_le (le_of_eq hs)
  have htake2 : List.take SPEED_DIAL_SIZE (eeprom_row w i) = eeprom_row w i :=
    List.take_of_length_le (le_of_eq hrow)
  unfold write_current_speed_dial
  simp only [hne, hrange, if_false, and_self, if_true, Int.toNat_ofNat, htake, htake2]
  by_cases hdiff : eeprom_row w i ≠ s
  · rw [if_pos hdiff, copy_block_full _ _ hrow hs]
    apply eeprom_row_set_self
    rw [hwf.1]; unfold SPEED_DIAL_REDIAL at hi; omega
  · rw [if_neg hdiff]
    exact not_not.mp hdiff

theorem write_state (s : List Int) (i : Int) (w : World) :
    (write_current_speed_dial s i w).rs.state = w.rs.state ∧
    (write_current_speed_dial s i w).out = w.out ∧
    (write_current_speed_dial s i w).rs.speed_dial_digits = w.rs.speed_dial_digits ∧
    (write_current_speed_dial s i w).rs.speed_dial_digit_index = w.rs.speed_dial_digit_index ∧
    (write_current_speed_dial s i w).rs.speed_dial_index = w.rs.speed_dial_index := by
  unfold write_current_speed_dial
  dsimp only
  split_ifs <;> simp

theorem write_persisted_rs (s : List Int) (i : Int) (w : World)
    (hne : ¬ i = (SPEED_DIAL_REDIAL : Nat)) : (write_current_speed_dial s i w).rs = w.rs := by
  unfold write_current_speed_dial
  dsimp only
  rw [if_neg hne]
  split_ifs <;> rfl

theorem to_int8_small (n : Nat) (h : n < 128) : to_int8 (n : Int) = (n : Int) := by
  unfold to_int8; omega

/-- The state after the watchdog branch: menu state `STATE_DIAL`, flags cleared,
PendingNumber cleared. -/
theorem main_timeout_reset (w : World) :
    (main_timeout w).rs.state = STATE_DIAL ∧ (main_timeout w).rs.flags = F_NONE ∧
    (main_timeout w).rs.speed_dial_digit_index = 0 ∧
    (main_timeout w).rs.speed_dial_digits = List.replicate SPEED_DIAL_SIZE DIGIT_OFF ∧
    (main_timeout w).rs.speed_dial_index = 0 := by
  simp [main_timeout, init_speed_dial]

theorem main_timeout_out (w : World) :
    (main_timeout w).out =
      if w.rs.speed_dial_digit_index < SPEED_DIAL_SIZE ∧ w.rs.state = STATE_PROGRAM_SD then
        w.out ++ [Sound.tone DIGIT_BEEP 200]
      else w.out := by
  have hw := write_state w.rs.speed_dial_digits (to_int8 w.rs.speed_dial_index) w
  by_cases h1 : w.rs.speed_dial_digit_index < SPEED_DIAL_SIZE
  · by_cases h2 : w.rs.state = STATE_PROGRAM_SD
    · simp [main_timeout, init_speed_dial, h1, h2, hw.1, hw.2.1, dtmf_generate_tone]
    · simp [main_timeout, init_speed_dial, h1, h2, hw.1, hw.2.1, dtmf_generate_tone]
  · simp [main_timeout, init_speed_dial, h1]

theorem main_timeout_redial (w : World) (hi : w.rs.speed_dial_digit_index < SPEED_DIAL_SIZE)
    (ht : w.rs.speed_dial_index = SPEED_DIAL_REDIAL)
    (hl : w.rs.speed_dial_digits.length = SPEED_DIAL_SIZE)
    (hr : w.rs.redial_digits.length = SPEED_DIAL_SIZE) :
    (main_timeout w).rs.redial_digits = w.rs.speed_dial_digits ∧
    (main_timeout w).eeprom = w.eeprom ∧
    (main_timeout w).eeprom_updates = w.eeprom_updates := by
  have h7 : to_int8 ((SPEED_DIAL_REDIAL : Nat) : Int) = ((SPEED_DIAL_REDIAL : Nat) : Int) :=
    to_int8_small _ (by decide)
  have hc := copy_block_full _ _ hr hl
  refine ⟨?_, ?_, ?_⟩ <;>
    by_cases h2 : w.rs.state = STATE_PROGRAM_SD <;>
    simp [main_timeout, init_speed_dial, hi, ht, h7, write_current_speed_dial, h2,
      dtmf_generate_tone, hc]

theorem main_timeout_persisted (w : World) (hi : w.rs.speed_dial_digit_index < SPEED_DIAL_SIZE)
    (ht : w.rs.speed_dial_index < SPEED_DIAL_REDIAL)
    (hl : w.rs.speed_dial_digits.length = SPEED_DIAL_SIZE) (hwf : EepromWF w.eeprom) :
    eeprom_row (main_timeout w) w.rs.speed_dial_index = w.rs.speed_dial_digits ∧
    (main_timeout w).rs.redial_digits = w.rs.redial_digits := by
  have h7 : to_int8 (w.rs.speed_dial_index : Int) = (w.rs.speed_dial_index : Int) :=
    to_int8_small _ (by unfold SPEED_DIAL_REDIAL SPEED_DIAL_COUNT at ht; omega)
  have hrow := write_persisted_row w.rs.speed_dial_digits w.rs.speed_dial_index w hwf ht hl
  have hne : ¬ ((w.rs.speed_dial_index : Int) = (SPEED_DIAL_REDIAL : Nat)) := by omega
  constructor
  · rw [← hrow]
    by_cases h2 : (write_current_speed_dial w.rs.speed_dial_digits
        (w.rs.speed_dial_index : Int) w).rs.state = STATE_PROGRAM_SD <;>
      simp [main_timeout, init_speed_dial, hi, h7, h2, dtmf_generate_tone, eeprom_row]
  · have hrs := write_persisted_rs w.rs.speed_dial_digits (w.rs.speed_dial_index : Int) w hne
    by_cases h2 : w.rs.state = STATE_PROGRAM_SD <;>
      simp [main_timeout, init_speed_dial, hi, h7, h2, dtmf_generate_tone, hrs]

theorem init_fields (e : List (List Int)) :
    (init e).rs.state = STATE_DIAL ∧ (init e).rs.speed_dial_digits = padded [] ∧
    (init e).rs.speed_dial_digit_index = 0 ∧ (init e).out = [] ∧
    (init e).rs.redial_digits = List.replicate SPEED_DIAL_SIZE DIGIT_OFF ∧
    (init e).eeprom = e ∧ (init e).rs.speed_dial_index = 0 ∧ (init e).eeprom_updates = 0 := by
  simp [init, init_speed_dial, padded]

/-- A table read that succeeds is in bounds, and a location it yields is one of
the persisted slots 0..6. -/
theorem speed_dial_loc_ok (d slot : Int) (h : speed_dial_loc d = .ok slot) :
    0 ≤ d ∧ d ≤ 9 ∧ -1 ≤ slot ∧ slot ≤ 6 := by
  unfold speed_dial_loc at h
  by_cases hd : 0 ≤ d ∧ d < 10
  · rw [if_pos hd] at h
    injection h with h
    obtain ⟨h0, h10⟩ := hd
    subst h
    interval_cases d <;> simp [_g_speed_dial_loc]
  · rw [if_neg hd] at h
    cases h

theorem dispatch_l2_slot (d slot : Int) (w : World) (hs : w.rs.state = STATE_SPECIAL_L2)
    (hslot : speed_dial_loc d = .ok slot) (hpos : 0 ≤ slot) :
    dispatch d w = .ok
      { w with
        rs := { w.rs with
          dialed_digit := d
          state := STATE_PROGRAM_SD
          speed_dial_digits := List.replicate SPEED_DIAL_SIZE DIGIT_OFF
          speed_dial_digit_index := 0
          speed_dial_index := slot.toNat } } := by
  have hr := speed_dial_loc_ok d slot hslot
  have hu : to_uint8 slot = slot.toNat := by
    unfold to_uint8
    rw [Int.emod_eq_of_lt hpos (by omega)]
  simp [dispatch, process_dialed_digit, process_dialed_digit_rec, set_dialed_digit, hs, hslot,
    hpos, hu, init_speed_dial, bind, Except.bind, pure, Except.pure,
    STATE_PROGRAM_SD, STATE_DIAL, STATE_SPECIAL_L1, STATE_SPECIAL_L2, STATE_SPECIAL_L3]

theorem dispatch_l2_no_slot (d slot : Int) (w : World) (hs : w.rs.state = STATE_SPECIAL_L2)
    (hslot : speed_dial_loc d = .ok slot) (hneg : slot < 0) :
    dispatch d w = .ok
      { w with
        rs := { w.rs with dialed_digit := d, state := STATE_DIAL }
        out := w.out ++ [Sound.tone DIGIT_TUNE_DESC 800] } := by
  have hn : ¬ slot ≥ 0 := by omega
  simp [dispatch, process_dialed_digit, process_dialed_digit_rec, set_dialed_digit, hs, hslot,
    hn, dtmf_generate_tone, bind, Except.bind, pure, Except.pure,
    STATE_PROGRAM_SD, STATE_DIAL, STATE_SPECIAL_L1, STATE_SPECIAL_L2, STATE_SPECIAL_L3]

/-! ## Scenarios -/

/-- C2: from the initial state, dispatching 1 to 29 digits (each 0..9) in state
Dial and then letting the inactivity timeout fire leaves the digits, padded with
`DIGIT_OFF`, in the redial slot; every dispatch ran in state Dial and emitted the
tone of its digit for 200 ms, in order; the timeout emitted nothing; the state is
Dial and PendingNumber is empty. -/
theorem C2_dial_then_timeout (e : List (List Int)) (s : List Int)
    (h1 : 1 ≤ s.length) (h29 : s.length ≤ 29) (_hd : ∀ d ∈ s, 0 ≤ d ∧ d ≤ 9) :
    ∃ w1, dispatch_all s (init e) = .ok w1 ∧
      (∀ k, ∃ wk, dispatch_all (s.take k) (init e) = .ok wk ∧ wk.rs.state = STATE_DIAL) ∧
      w1.out = s.map (fun d => Sound.tone d 200) ∧
      (main_timeout w1).out = w1.out ∧
      (main_timeout w1).rs.redial_digits = s ++ List.replicate (30 - s.length) DIGIT_OFF ∧
      slot_content (main_timeout w1) SPEED_DIAL_REDIAL = padded s ∧
      (main_timeout w1).rs.state = STATE_DIAL ∧
      (main_timeout w1).rs.speed_dial_digit_index = 0 ∧
      (main_timeout w1).rs.speed_dial_digits = List.replicate 30 DIGIT_OFF ∧
      (main_timeout w1).eeprom = e := by
  obtain ⟨i1, i2, i3, i4, i5, i6, _, _⟩ := init_fields e
  obtain ⟨w1, r1, r2, r3, r4, r5, r6, r7, r8, _⟩ := dial_run s (init e) [] i1 i2 (by simpa using i3)
    (by simp [SPEED_DIAL_SIZE]; omega)
  have hne : s ≠ [] := by intro h; subst h; simp at h1
  have hidx : w1.rs.speed_dial_digit_index < SPEED_DIAL_SIZE := by
    rw [r4]; simp [SPEED_DIAL_SIZE]; omega
  have hlen : w1.rs.speed_dial_digits.length = SPEED_DIAL_SIZE := by
    rw [r3]; exact padded_length _ (by simp [SPEED_DIAL_SIZE]; omega)
  have hred : w1.rs.redial_digits.length = SPEED_DIAL_SIZE := by rw [r7, i5]; simp
  obtain ⟨t1, t2, _⟩ := main_timeout_redial w1 hidx (r5 hne) hlen hred
  obtain ⟨m1, _, m3, m4, _⟩ := main_timeout_reset w1
  have hpad : w1.rs.speed_dial_digits = padded s := by simpa using r3
  refine ⟨w1, r1, ?_, ?_, ?_, ?_, ?_, m1, m3, m4, ?_⟩
  · intro k
    obtain ⟨wk, k1, k2, _⟩ := dial_run (s.take k) (init e) [] i1 i2 (by simpa using i3)
      (by simp [SPEED_DIAL_SIZE]; omega)
    exact ⟨wk, k1, k2⟩
  · rw [r6, i4]; simp [DTMF_DURATION_MS]
  · rw [main_timeout_out, if_neg]
    rw [r2]; simp [STATE_DIAL, STATE_PROGRAM_SD]
  · rw [t1, hpad]; rfl
  · simp only [slot_content, if_true, t1, hpad]
  · rw [t2, r8, i6]

/-- C2, at the digits 5 and 2. -/
theorem C2_dial_then_timeout_witness :
    (1 ≤ [(5 : Int), 2].length ∧ [(5 : Int), 2].length ≤ 29 ∧
      ∀ d ∈ [(5 : Int), 2], 0 ≤ d ∧ d ≤ 9) ∧
    ∃ w1, dispatch_all [5, 2] (init eeprom_factory) = .ok w1 ∧
      (∀ k, ∃ wk, dispatch_all ([(5 : Int), 2].take k) (init eeprom_factory) = .ok wk ∧
        wk.rs.state = STATE_DIAL) ∧
      w1.out = [(5 : Int), 2].map (fun d => Sound.tone d 200) ∧
      (main_timeout w1).out = w1.out ∧
      (main_timeout w1).rs.redial_digits =
        [(5 : Int), 2] ++ List.replicate (30 - [(5 : Int), 2].length) DIGIT_OFF ∧
      slot_content (main_timeout w1) SPEED_DIAL_REDIAL = padded [5, 2] ∧
      (main_timeout w1).rs.state = STATE_DIAL ∧
      (main_timeout w1).rs.speed_dial_digit_index = 0 ∧
      (main_timeout w1).rs.speed_dial_digits = List.replicate 30 DIGIT_OFF ∧
      (main_timeout w1).eeprom = eeprom_factory :=
  ⟨by decide, C2_dial_then_timeout eeprom_factory [5, 2] (by decide) (by decide) (by decide)⟩

/-- C3: from state SpecialL2, dispatching a digit `d` whose table entry is a slot,
then 1 to 29 digits (each 0..9), then the inactivity timeout, leaves the digits,
padded with `DIGIT_OFF`, in the persisted slot of `d`; the slot selection emitted
nothing, every recorded digit emitted the low beep for 200 ms and nothing else, the
timeout emitted exactly the confirmation beep; the state is Dial and PendingNumber
is empty. -/
theorem C3_program_speed_dial (w : World) (d slot : Int) (s : List Int)
    (hst : w.rs.state = STATE_SPECIAL_L2) (hwf : EepromWF w.eeprom)
    (hslot : speed_dial_loc d = .ok slot) (hpos : 0 ≤ slot)
    (h1 : 1 ≤ s.length) (h29 : s.length ≤ 29) (_hd : ∀ x ∈ s, 0 ≤ x ∧ x ≤ 9) :
    ∃ w1 w2, dispatch d w = .ok w1 ∧ w1.rs.state = STATE_PROGRAM_SD ∧ w1.out = w.out ∧
      dispatch_all s w1 = .ok w2 ∧ w2.rs.state = STATE_PROGRAM_SD ∧
      w2.out = w.out ++ List.replicate s.length (Sound.tone DIGIT_BEEP_LOW 200) ∧
      (main_timeout w2).out = w2.out ++ [Sound.tone DIGIT_BEEP 200] ∧
      slot.toNat < SPEED_DIAL_REDIAL ∧
      slot_content (main_timeout w2) slot.toNat =
        s ++ List.replicate (30 - s.length) DIGIT_OFF ∧
      (main_timeout w2).rs.state = STATE_DIAL ∧
      (main_timeout w2).rs.speed_dial_digit_index = 0 ∧
      (main_timeout w2).rs.speed_dial_digits = List.replicate 30 DIGIT_OFF := by
  obtain ⟨w1, hstep, hw1⟩ := ok_eq_exists (dispatch_l2_slot d slot w hst hslot hpos)
  obtain ⟨_, _, _, h6⟩ := speed_dial_loc_ok d slot hslot
  have hlt : slot.toNat < SPEED_DIAL_REDIAL := by
    simp [SPEED_DIAL_REDIAL, SPEED_DIAL_COUNT]; omega
  obtain ⟨w2, r1, r2, r3, r4, r5, r6, _, r8, _⟩ := program_run s w1 []
    (by rw [hw1]) (by rw [hw1]; exact padded_nil.symm) (by rw [hw1]; rfl)
    (by simp [SPEED_DIAL_SIZE]; omega)
  have hidx : w2.rs.speed_dial_digit_index < SPEED_DIAL_SIZE := by
    rw [r4]; simp [SPEED_DIAL_SIZE]; omega
  have hlen : w2.rs.speed_dial_digits.length = SPEED_DIAL_SIZE := by
    rw [r3]; exact padded_length _ (by simp [SPEED_DIAL_SIZE]; omega)
  have htgt : w2.rs.speed_dial_index = slot.toNat := by rw [r5, hw1]
  have hwf2 : EepromWF w2.eeprom := by rw [r8, hw1]; exact hwf
  obtain ⟨t1, _⟩ := main_timeout_persisted w2 hidx (by rw [htgt]; exact hlt) hlen hwf2
  obtain ⟨m1, _, m3, m4, _⟩ := main_timeout_reset w2
  have hpad : w2.rs.speed_dial_digits = padded s := by simpa using r3
  refine ⟨w1, w2, hstep, by rw [hw1], by rw [hw1], r1, r2, ?_, ?_, hlt, ?_, m1, m3, m4⟩
  · rw [r6, hw1]
  · rw [main_timeout_out, if_pos ⟨hidx, r2⟩]
  · have hne : ¬ slot.toNat = SPEED_DIAL_REDIAL := by omega
    rw [slot_content, if_neg hne, ← htgt, t1, hpad]; rfl

/-- C3, at the digit 4 (slot 1) and the recorded digits 7 and 3, from the state
SpecialL2 entered right after initialisation. -/
theorem C3_program_speed_dial_witness :
    ((set_state STATE_SPECIAL_L2 (init eeprom_factory)).rs.state = STATE_SPECIAL_L2 ∧
      EepromWF (set_state STATE_SPECIAL_L2 (init eeprom_factory)).eeprom ∧
      speed_dial_loc 4 = .ok 1 ∧ (0 : Int) ≤ 1 ∧
      1 ≤ [(7 : Int), 3].length ∧ [(7 : Int), 3].length ≤ 29 ∧
      ∀ x ∈ [(7 : Int), 3], 0 ≤ x ∧ x ≤ 9) ∧
    ∃ w1 w2, dispatch 4 (set_state STATE_SPECIAL_L2 (init eeprom_factory)) = .ok w1 ∧
      w1.rs.state = STATE_PROGRAM_SD ∧
      w1.out = (set_state STATE_SPECIAL_L2 (init eeprom_factory)).out ∧
      dispatch_all [7, 3] w1 = .ok w2 ∧ w2.rs.state = STATE_PROGRAM_SD ∧
      w2.out = (set_state STATE_SPECIAL_L2 (init eeprom_factory)).out ++
        List.replicate [(7 : Int), 3].length (Sound.tone DIGIT_BEEP_LOW 200) ∧
      (main_timeout w2).out = w2.out ++ [Sound.tone DIGIT_BEEP 200] ∧
      (1 : Int).toNat < SPEED_DIAL_REDIAL ∧
      slot_content (main_timeout w2) (1 : Int).toNat =
        [(7 : Int), 3] ++ List.replicate (30 - [(7 : Int), 3].length) DIGIT_OFF ∧
      (main_timeout w2).rs.state = STATE_DIAL ∧
      (main_timeout w2).rs.speed_dial_digit_index = 0 ∧
      (main_timeout w2).rs.speed_dial_digits = List.replicate 30 DIGIT_OFF :=
  ⟨⟨rfl, by decide, by decide, by decide, by decide, by decide, by decide⟩,
    C3_program_speed_dial (set_state STATE_SPECIAL_L2 (init eeprom_factory)) 4 1 [7, 3]
      rfl (by decide) (by decide) (by decide) (by decide) (by decide) (by decide)⟩

/-! ## Star and pound -/

theorem dispatch_l1_star (w : World) (hs : w.rs.state = STATE_SPECIAL_L1) :
    dispatch 1 w = dispatch DIGIT_STAR (set_state STATE_DIAL w) := by
  simp [dispatch, process_dialed_digit, process_dialed_digit_rec, set_dialed_digit, set_state, hs,
    STATE_DIAL, STATE_SPECIAL_L1, L2_STAR, L2_POUND, DIGIT_STAR]

theorem dispatch_l1_pound (w : World) (hs : w.rs.state = STATE_SPECIAL_L1) :
    dispatch 2 w = dispatch DIGIT_POUND (set_state STATE_DIAL w) := by
  simp [dispatch, process_dialed_digit, process_dialed_digit_rec, set_dialed_digit, set_state, hs,
    STATE_DIAL, STATE_SPECIAL_L1, L2_STAR, L2_POUND, DIGIT_POUND]

/-- The effect of a dispatch in state Dial, with or without room in PendingNumber. -/
theorem dispatch_dial_effect (c : Int) (w : World) (hs : w.rs.state = STATE_DIAL) :
    ∃ w1, dispatch c w = .ok w1 ∧ w1.out = w.out ++ [Sound.tone c 200] ∧
      w1.rs.state = STATE_DIAL ∧
      (w.rs.speed_dial_digit_index < 30 →
        w1.rs.speed_dial_digits = w.rs.speed_dial_digits.set w.rs.speed_dial_digit_index c ∧
        w1.rs.speed_dial_digit_index = w.rs.speed_dial_digit_index + 1) ∧
      (30 ≤ w.rs.speed_dial_digit_index →
        w1.rs.speed_dial_digits = List.replicate 30 DIGIT_OFF ∧
        w1.rs.speed_dial_digit_index = 0) := by
  by_cases hi : w.rs.speed_dial_digit_index < SPEED_DIAL_SIZE
  · obtain ⟨w1, hstep, hw1⟩ := ok_eq_exists (dispatch_dial_room c w hs hi)
    refine ⟨w1, hstep, by rw [hw1]; rfl, by rw [hw1]; exact hs, ?_, ?_⟩
    · intro _; rw [hw1]; exact ⟨rfl, rfl⟩
    · intro h; unfold SPEED_DIAL_SIZE at hi; omega
  · obtain ⟨w1, hstep, hw1⟩ := ok_eq_exists (dispatch_dial_full c w hs hi)
    refine ⟨w1, hstep, by rw [hw1]; rfl, by rw [hw1]; exact hs, ?_, ?_⟩
    · intro h; unfold SPEED_DIAL_SIZE at hi; omega
    · intro _; rw [hw1]; exact ⟨rfl, rfl⟩

/-- C4 (as the code has it): in state SpecialL1, dispatching digit 1 gives exactly
the result of dispatching `DIGIT_STAR` in state Dial, and digit 2 that of
`DIGIT_POUND`: the tone of the code is emitted for 200 ms, the final state is Dial,
and the code is appended to PendingNumber when PendingNumber holds fewer than 30
digits; when it holds 30, PendingNumber is cleared instead. -/
theorem C4_star_pound_redispatch (w : World) (hs : w.rs.state = STATE_SPECIAL_L1) :
    dispatch 1 w = dispatch DIGIT_STAR (set_state STATE_DIAL w) ∧
    dispatch 2 w = dispatch DIGIT_POUND (set_state STATE_DIAL w) ∧
    ∀ p c : Int, (p = 1 ∧ c = DIGIT_STAR) ∨ (p = 2 ∧ c = DIGIT_POUND) →
      ∃ w1, dispatch p w = .ok w1 ∧ w1.out = w.out ++ [Sound.tone c 200] ∧
        w1.rs.state = STATE_DIAL ∧
        (w.rs.speed_dial_digit_index < 30 →
          w1.rs.speed_dial_digits = w.rs.speed_dial_digits.set w.rs.speed_dial_digit_index c ∧
          w1.rs.speed_dial_digit_index = w.rs.speed_dial_digit_index + 1) ∧
        (30 ≤ w.rs.speed_dial_digit_index →
          w1.rs.speed_dial_digits = List.replicate 30 DIGIT_OFF ∧
          w1.rs.speed_dial_digit_index = 0) := by
  refine ⟨dispatch_l1_star w hs, dispatch_l1_pound w hs, ?_⟩
  intro p c hpc
  rcases hpc with ⟨hp, hc⟩ | ⟨hp, hc⟩
  · subst hp; subst hc
    rw [dispatch_l1_star w hs]
    exact dispatch_dial_effect DIGIT_STAR (set_state STATE_DIAL w) rfl
  · subst hp; subst hc
    rw [dispatch_l1_pound w hs]
    exact dispatch_dial_effect DIGIT_POUND (set_state STATE_DIAL w) rfl

/-- C4, in the state SpecialL1 entered right after initialisation. -/
theorem C4_star_pound_redispatch_witness :
    (set_state STATE_SPECIAL_L1 (init eeprom_factory)).rs.state = STATE_SPECIAL_L1 ∧
    dispatch 1 (set_state STATE_SPECIAL_L1 (init eeprom_factory)) =
      dispatch DIGIT_STAR (set_state STATE_DIAL (set_state STATE_SPECIAL_L1 (init eeprom_factory))) ∧
    dispatch 2 (set_state STATE_SPECIAL_L1 (init eeprom_factory)) =
      dispatch DIGIT_POUND (set_state STATE_DIAL (set_state STATE_SPECIAL_L1 (init eeprom_factory))) :=
  ⟨rfl, (C4_star_pound_redispatch (set_state STATE_SPECIAL_L1 (init eeprom_factory)) rfl).1,
    (C4_star_pound_redispatch (set_state STATE_SPECIAL_L1 (init eeprom_factory)) rfl).2.1⟩

set_option maxRecDepth 100000 in
/-- C4 as stated fails when PendingNumber is full: after thirty digits dialed in
state Dial and an escalation to SpecialL1, dispatching digit 1 emits the tone of
`DIGIT_STAR` but does not append the code: PendingNumber is cleared. -/
theorem C4_counterexample :
    dispatch_all (List.replicate 30 5) (init eeprom_factory) = .ok thirty_fives ∧
    (set_state STATE_SPECIAL_L1 thirty_fives).rs.speed_dial_digit_index = 30 ∧
    dispatch 1 (set_state STATE_SPECIAL_L1 thirty_fives) = .ok
      { thirty_fives with
        rs := { thirty_fives.rs with
          dialed_digit := DIGIT_STAR
          speed_dial_digit_index := 0
          speed_dial_digits := List.replicate 30 DIGIT_OFF }
        out := thirty_fives.out ++ [Sound.tone DIGIT_STAR 200] } := by
  decide

/-! ## The sampling loop leaves PendingNumber and the slots alone -/

/-- The part of the world that only the command state machine and the watchdog
branch change: PendingNumber, the commit target, the slots. -/
theorem main_special_function_frame (b : Build) (t : Tick) (w : World) :
    (main_special_function b t w).rs.speed_dial_digits = w.rs.speed_dial_digits ∧
    (main_special_function b t w).rs.speed_dial_digit_index = w.rs.speed_dial_digit_index ∧
    (main_special_function b t w).rs.speed_dial_index = w.rs.speed_dial_index ∧
    (main_special_function b t w).rs.redial_digits = w.rs.redial_digits ∧
    (main_special_function b t w).eeprom = w.eeprom ∧
    (main_special_function b t w).eeprom_updates = w.eeprom_updates ∧
    ∃ l, (main_special_function b t w).out = w.out ++ l ∧
      (l = [] → (main_special_function b t w).rs.state = w.rs.state) := by
  unfold main_special_function
  split_ifs <;>
    first
    | exact ⟨rfl, rfl, rfl, rfl, rfl, rfl, [], by simp, fun _ => rfl⟩
    | exact ⟨rfl, rfl, rfl, rfl, rfl, rfl, [_], rfl, fun h => by cases h⟩

theorem main_sample_tick_frame (b : Build) (t : Tick) (w : World) :
    (main_sample_tick b t w).rs.speed_dial_digits = w.rs.speed_dial_digits ∧
    (main_sample_tick b t w).rs.speed_dial_digit_index = w.rs.speed_dial_digit_index ∧
    (main_sample_tick b t w).rs.speed_dial_index = w.rs.speed_dial_index ∧
    (main_sample_tick b t w).rs.redial_digits = w.rs.redial_digits ∧
    (main_sample_tick b t w).eeprom = w.eeprom ∧
    (main_sample_tick b t w).eeprom_updates = w.eeprom_updates ∧
    ∃ l, (main_sample_tick b t w).out = w.out ++ l ∧
      (l = [] → (main_sample_tick b t w).rs.state = w.rs.state) := by
  obtain ⟨h1, h2, h3, h4, h5, h6, l, h7, h8⟩ := main_special_function_frame b t w
  unfold main_sample_tick
  dsimp only
  split_ifs <;> exact ⟨h1, h2, h3, h4, h5, h6, l, h7, h8⟩

theorem main_sample_loop_frame (b : Build) (ts : List Tick) : ∀ w : World,
    (main_sample_loop b ts w).rs.speed_dial_digits = w.rs.speed_dial_digits ∧
    (main_sample_loop b ts w).rs.speed_dial_digit_index = w.rs.speed_dial_digit_index ∧
    (main_sample_loop b ts w).rs.speed_dial_index = w.rs.speed_dial_index ∧
    (main_sample_loop b ts w).rs.redial_digits = w.rs.redial_digits ∧
    (main_sample_loop b ts w).eeprom = w.eeprom ∧
    (main_sample_loop b ts w).eeprom_updates = w.eeprom_updates ∧
    ∃ l, (main_sample_loop b ts w).out = w.out ++ l ∧
      (l = [] → (main_sample_loop b ts w).rs.state = w.rs.state) := by
  induction ts with
  | nil => intro w; exact ⟨rfl, rfl, rfl, rfl, rfl, rfl, [], by simp [main_sample_loop], fun _ => rfl⟩
  | cons t ts ih =>
    intro w
    unfold main_sample_loop
    by_cases hh : w.rs.dial_pin.high = true
    · rw [if_pos hh]
      exact ⟨rfl, rfl, rfl, rfl, rfl, rfl, [], by simp, fun _ => rfl⟩
    · rw [if_neg hh]
      obtain ⟨h1, h2, h3, h4, h5, h6, l, h7, h8⟩ := main_sample_tick_frame b t w
      obtain ⟨k1, k2, k3, k4, k5, k6, m, k7, k8⟩ := ih (main_sample_tick b t w)
      refine ⟨k1.trans h1, k2.trans h2, k3.trans h3, k4.trans h4, k5.trans h5, k6.trans h6,
        l ++ m, ?_, ?_⟩
      · rw [k7, h7, List.append_assoc]
      · intro hlm
        obtain ⟨hl, hm⟩ := List.append_eq_nil.mp hlm
        rw [k8 hm, h8 hl]

theorem main_gesture_samples_frame (b : Build) (pulse_raw : Bool) (ts : List Tick) (w : World) :
    (main_gesture_samples b pulse_raw ts w).rs.speed_dial_digits = w.rs.speed_dial_digits ∧
    (main_gesture_samples b pulse_raw ts w).rs.speed_dial_digit_index =
      w.rs.speed_dial_digit_index ∧
    (main_gesture_samples b pulse_raw ts w).rs.speed_dial_index = w.rs.speed_dial_index ∧
    (main_gesture_samples b pulse_raw ts w).rs.redial_digits = w.rs.redial_digits ∧
    (main_gesture_samples b pulse_raw ts w).eeprom = w.eeprom ∧
    (main_gesture_samples b pulse_raw ts w).eeprom_updates = w.eeprom_updates ∧
    ((main_gesture_samples b pulse_raw ts w).out = w.out →
      (main_gesture_samples b pulse_raw ts w).rs.state = w.rs.state) := by
  obtain ⟨h1, h2, h3, h4, h5, h6, l, h7, h8⟩ :=
    main_sample_loop_frame b ts (main_gesture_begin pulse_raw w)
  refine ⟨h1, h2, h3, h4, h5, h6, ?_⟩
  intro hout
  have hl : l = [] := by
    have h := h7
    unfold main_gesture_samples at hout
    rw [hout] at h
    have h2 : (main_gesture_begin pulse_raw w).out = w.out := rfl
    rw [h2] at h
    exact (List.self_eq_append_right.mp h)
  unfold main_gesture_samples
  rw [h8 hl]
  rfl

/-- C5 (as the code has it): when the sampling of a gesture ended with the dial
pin high, no escalation fired (the sampling emitted no tone) and the tally is not
in 1..10, `main` does not invoke the command state machine and emits no tone;
PendingNumber, the commit target and all slots are as before the gesture; the menu
state the gesture started in was still in place when the line went idle, and is
then set to Dial (so it is unchanged exactly when the gesture started in Dial). -/
theorem C5_invalid_gesture (b : Build) (pulse_raw : Bool) (ts : List Tick) (w : World)
    (_hidle : (main_gesture_samples b pulse_raw ts w).rs.dial_pin.high = true)
    (hquiet : (main_gesture_samples b pulse_raw ts w).out = w.out)
    (htally : (main_gesture_samples b pulse_raw ts w).rs.dialed_digit ≤ 0 ∨
      10 < (main_gesture_samples b pulse_raw ts w).rs.dialed_digit) :
    resolve_dialed_digit b (main_gesture_samples b pulse_raw ts w).rs.dialed_digit = none ∧
    (main_gesture_samples b pulse_raw ts w).rs.state = w.rs.state ∧
    ∃ w1, main_process_dialed b (main_gesture_samples b pulse_raw ts w) = .ok w1 ∧
      w1.out = w.out ∧
      w1.rs.state = STATE_DIAL ∧
      w1.rs.speed_dial_digits = w.rs.speed_dial_digits ∧
      w1.rs.speed_dial_digit_index = w.rs.speed_dial_digit_index ∧
      w1.rs.speed_dial_index = w.rs.speed_dial_index ∧
      w1.rs.redial_digits = w.rs.redial_digits ∧
      w1.eeprom = w.eeprom ∧
      w1.eeprom_updates = w.eeprom_updates := by
  obtain ⟨h1, h2, h3, h4, h5, h6, h7⟩ := main_gesture_samples_frame b pulse_raw ts w
  have hnone : resolve_dialed_digit b (main_gesture_samples b pulse_raw ts w).rs.dialed_digit
      = none := by
    unfold resolve_dialed_digit
    rw [if_neg (by omega)]
  refine ⟨hnone, h7 hquiet, set_state STATE_DIAL (main_gesture_samples b pulse_raw ts w), ?_,
    hquiet, rfl, h1, h2, h3, h4, h5, h6⟩
  simp only [main_process_dialed, hnone]

set_option maxRecDepth 100000 in
/-- C5, at a gesture of eleven clean pulses that starts in state Dial with special
function detection never reaching its delay. -/
theorem C5_invalid_gesture_witness :
    ((main_gesture_samples standard_build true (pulses 11) (init eeprom_factory)).rs.dial_pin.high
        = true ∧
      (main_gesture_samples standard_build true (pulses 11) (init eeprom_factory)).out
        = (init eeprom_factory).out ∧
      (main_gesture_samples standard_build true (pulses 11) (init eeprom_factory)).rs.dialed_digit
        = 11) ∧
    resolve_dialed_digit standard_build
        (main_gesture_samples standard_build true (pulses 11)
          (init eeprom_factory)).rs.dialed_digit = none ∧
    (main_gesture_samples standard_build true (pulses 11) (init eeprom_factory)).rs.state
      = (init eeprom_factory).rs.state :=
  ⟨by decide,
    (C5_invalid_gesture standard_build true (pulses 11) (init eeprom_factory)
      (by decide) (by decide) (by decide)).1,
    (C5_invalid_gesture standard_build true (pulses 11) (init eeprom_factory)
      (by decide) (by decide) (by decide)).2.1⟩

set_option maxRecDepth 100000 in
/-- C5 as stated fails for a gesture that starts in ProgramSpeedDial: eleven clean
pulses, no escalation, no tone, and the menu state after the gesture is Dial
instead of ProgramSpeedDial. -/
theorem C5_counterexample :
    dispatch 4 (set_state STATE_SPECIAL_L2 (init eeprom_factory)) = .ok programming_slot_1 ∧
    programming_slot_1.rs.state = STATE_PROGRAM_SD ∧
    (main_gesture_samples standard_build true (pulses 11) programming_slot_1).rs.dial_pin.high
      = true ∧
    (main_gesture_samples standard_build true (pulses 11) programming_slot_1).out
      = programming_slot_1.out ∧
    (main_gesture_samples standard_build true (pulses 11) programming_slot_1).rs.dialed_digit
      = 11 ∧
    (main_gesture_samples standard_build true (pulses 11) programming_slot_1).rs.state
      = STATE_PROGRAM_SD ∧
    (main_process_dialed standard_build
        (main_gesture_samples standard_build true (pulses 11) programming_slot_1)).map
      (fun w => w.rs.state) = .ok STATE_DIAL := by
  decide

/-! ## Overflow of PendingNumber -/

/-- C6 (as the code has it): when PendingNumber already holds 30 digits, the next
digit dispatched in ProgramSpeedDial clears PendingNumber, emits the descending
error tone for 800 ms and leaves for Dial; the next digit dispatched in Dial
clears PendingNumber as well, without recording the digit, and emits the tone of
the digit for 200 ms and no error tone. -/
theorem C6_overflow (d : Int) (w : World) (hfull : 30 ≤ w.rs.speed_dial_digit_index) :
    (w.rs.state = STATE_PROGRAM_SD →
      ∃ w1, dispatch d w = .ok w1 ∧ w1.out = w.out ++ [Sound.tone DIGIT_TUNE_DESC 800] ∧
        w1.rs.speed_dial_digit_index = 0 ∧
        w1.rs.speed_dial_digits = List.replicate 30 DIGIT_OFF ∧ w1.rs.state = STATE_DIAL) ∧
    (w.rs.state = STATE_DIAL →
      ∃ w1, dispatch d w = .ok w1 ∧ w1.out = w.out ++ [Sound.tone d 200] ∧
        w1.rs.speed_dial_digit_index = 0 ∧
        w1.rs.speed_dial_digits = List.replicate 30 DIGIT_OFF ∧ w1.rs.state = STATE_DIAL) := by
  have hi : ¬ w.rs.speed_dial_digit_index < SPEED_DIAL_SIZE := by
    unfold SPEED_DIAL_SIZE; omega
  constructor
  · intro hs
    obtain ⟨w1, hstep, hw1⟩ := ok_eq_exists (dispatch_program_full d w hs hi)
    exact ⟨w1, hstep, by rw [hw1], by rw [hw1], by rw [hw1]; rfl, by rw [hw1]⟩
  · intro hs
    obtain ⟨w1, hstep, hw1⟩ := ok_eq_exists (dispatch_dial_full d w hs hi)
    exact ⟨w1, hstep, by rw [hw1]; rfl, by rw [hw1], by rw [hw1]; rfl, by rw [hw1]; exact hs⟩

/-- C6, at the full PendingNumber of thirty dialed digits, in ProgramSpeedDial. -/
theorem C6_overflow_witness :
    30 ≤ (set_state STATE_PROGRAM_SD thirty_fives).rs.speed_dial_digit_index ∧
    ∃ w1, dispatch 5 (set_state STATE_PROGRAM_SD thirty_fives) = .ok w1 ∧
      w1.out = (set_state STATE_PROGRAM_SD thirty_fives).out ++
        [Sound.tone DIGIT_TUNE_DESC 800] ∧
      w1.rs.speed_dial_digit_index = 0 ∧
      w1.rs.speed_dial_digits = List.replicate 30 DIGIT_OFF ∧ w1.rs.state = STATE_DIAL :=
  ⟨by decide, (C6_overflow 5 (set_state STATE_PROGRAM_SD thirty_fives) (by decide)).1 rfl⟩

set_option maxRecDepth 100000 in
/-- C6 as stated fails in state Dial: after thirty digits dialed in state Dial, the
31st digit clears PendingNumber and the only tone emitted is the one of the digit;
the descending error tone is not emitted. -/
theorem C6_counterexample :
    dispatch_all (List.replicate 30 5) (init eeprom_factory) = .ok thirty_fives ∧
    thirty_fives.rs.state = STATE_DIAL ∧ thirty_fives.rs.speed_dial_digit_index = 30 ∧
    dispatch 5 thirty_fives = .ok
      { thirty_fives with
        rs := { thirty_fives.rs with
          speed_dial_digit_index := 0
          speed_dial_digits := List.replicate 30 DIGIT_OFF }
        out := List.replicate 31 (Sound.tone 5 200) } ∧
    Sound.tone DIGIT_TUNE_DESC 800 ∉ List.replicate 31 (Sound.tone 5 200) := by
  decide

/-! ## Dial-out -/

theorem dial_digits_eq (c : List Int) : ∀ w : World,
    dial_digits c w = { w with out := w.out ++ playback c } := by
  induction c with
  | nil => intro w; simp [dial_digits, playback]
  | cons d ds ih =>
    intro w
    unfold dial_digits
    by_cases hd : 0 ≤ d ∧ d ≤ DIGIT_POUND
    · have hd2 : 0 ≤ d ∧ d ≤ 11 := hd
      rw [if_pos hd, ih]
      simp [playback, List.filter_cons, hd2, sleep_ms, dtmf_generate_tone, DTMF_DURATION_MS]
    · have hd2 : ¬ (0 ≤ d ∧ d ≤ 11) := hd
      rw [if_neg hd, ih]
      simp [playback, List.filter_cons, hd2]

theorem dial_speed_dial_number_frame (i : Int) (w : World) :
    (dial_speed_dial_number i w).rs = w.rs ∧ (dial_speed_dial_number i w).eeprom = w.eeprom ∧
    (dial_speed_dial_number i w).eeprom_updates = w.eeprom_updates := by
  unfold dial_speed_dial_number
  split_ifs <;> simp [dial_digits_eq]

/-! ## Every dispatch is one step on PendingNumber -/

theorem dispatch_l1_call (d : Int) (w : World) (hs : w.rs.state = STATE_SPECIAL_L1)
    (h1 : d ≠ 1) (h2 : d ≠ 2) :
    dispatch d w =
      if d = 3 then
        .ok (dial_speed_dial_number (SPEED_DIAL_REDIAL : Nat) (set_state STATE_DIAL (set_dialed_digit d w)))
      else
        match speed_dial_loc d with
        | .ok loc =>
          .ok (if loc ≥ 0 then dial_speed_dial_number loc (set_state STATE_DIAL (set_dialed_digit d w))
               else set_state STATE_DIAL (set_dialed_digit d w))
        | .error f => .error f := by
  by_cases h3 : d = 3
  · simp [dispatch, process_dialed_digit, process_dialed_digit_rec, set_dialed_digit, set_state,
      hs, h3, STATE_DIAL, STATE_SPECIAL_L1, L2_STAR, L2_POUND, L2_REDIAL, pure, Except.pure]
  · rcases hloc : speed_dial_loc d with f | loc
    · simp [dispatch, process_dialed_digit, process_dialed_digit_rec, set_dialed_digit, set_state,
        hs, h1, h2, h3, hloc, STATE_DIAL, STATE_SPECIAL_L1, L2_STAR, L2_POUND, L2_REDIAL,
        bind, Except.bind]
    · by_cases hpos : loc ≥ 0 <;>
      simp [dispatch, process_dialed_digit, process_dialed_digit_rec, set_dialed_digit, set_state,
        hs, h1, h2, h3, hloc, hpos, STATE_DIAL, STATE_SPECIAL_L1, L2_STAR, L2_POUND, L2_REDIAL,
        bind, Except.bind, pure, Except.pure]

theorem dispatch_l2_fault (d : Int) (f : Fault) (w : World) (hs : w.rs.state = STATE_SPECIAL_L2)
    (hloc : speed_dial_loc d = .error f) : dispatch d w = .error f := by
  simp [dispatch, process_dialed_digit, process_dialed_digit_rec, set_dialed_digit, hs, hloc,
    bind, Except.bind, STATE_DIAL, STATE_SPECIAL_L1, STATE_SPECIAL_L2]

theorem dispatch_cancel (d : Int) (w : World) (h0 : w.rs.state ≠ STATE_DIAL)
    (h1 : w.rs.state ≠ STATE_SPECIAL_L1) (h2 : w.rs.state ≠ STATE_SPECIAL_L2)
    (h5 : w.rs.state ≠ STATE_PROGRAM_SD) :
    dispatch d w = .ok (set_state STATE_DIAL (set_dialed_digit d w)) := by
  by_cases h4 : w.rs.state = STATE_SPECIAL_L3
  · simp [dispatch, process_dialed_digit, process_dialed_digit_rec, set_dialed_digit, set_state,
      h4, pure, Except.pure, STATE_DIAL, STATE_SPECIAL_L1, STATE_SPECIAL_L2, STATE_SPECIAL_L3]
  · simp [dispatch, process_dialed_digit, process_dialed_digit_rec, set_dialed_digit, set_state,
      h0, h1, h2, h4, h5, pure, Except.pure]

theorem dispatch_step_dial (d : Int) (w w1 : World) (hs : w.rs.state = STATE_DIAL)
    (h : dispatch d w = .ok w1) : PendingStep w w1 := by
  by_cases hi : w.rs.speed_dial_digit_index < SPEED_DIAL_SIZE
  · rw [dispatch_dial_room d w hs hi] at h
    injection h with h
    subst h
    exact ⟨rfl, rfl, rfl, Or.inr (Or.inl ⟨hi, ⟨d, rfl⟩, rfl, Or.inl rfl⟩)⟩
  · rw [dispatch_dial_full d w hs hi] at h
    injection h with h
    subst h
    exact ⟨rfl, rfl, rfl, Or.inr (Or.inr ⟨rfl, rfl, le_refl _⟩)⟩

theorem dispatch_step (d : Int) (w w1 : World) (h : dispatch d w = .ok w1) :
    PendingStep w w1 := by
  by_cases h0 : w.rs.state = STATE_DIAL
  · exact dispatch_step_dial d w w1 h0 h
  by_cases h1 : w.rs.state = STATE_SPECIAL_L1
  · by_cases hd1 : d = 1
    · subst hd1
      rw [dispatch_l1_star w h1] at h
      exact dispatch_step_dial _ (set_state STATE_DIAL w) w1 rfl h
    by_cases hd2 : d = 2
    · subst hd2
      rw [dispatch_l1_pound w h1] at h
      exact dispatch_step_dial _ (set_state STATE_DIAL w) w1 rfl h
    rw [dispatch_l1_call d w h1 hd1 hd2] at h
    by_cases hd3 : d = 3
    · rw [if_pos hd3] at h
      injection h with h
      subst h
      obtain ⟨k1, k2, k3⟩ := dial_speed_dial_number_frame (SPEED_DIAL_REDIAL : Nat)
        (set_state STATE_DIAL (set_dialed_digit d w))
      exact ⟨by rw [k1]; rfl, k2, k3, Or.inl ⟨by rw [k1]; rfl, by rw [k1]; rfl, by rw [k1]; rfl⟩⟩
    · rw [if_neg hd3] at h
      rcases hloc : speed_dial_loc d with f | loc
      · rw [hloc] at h; cases h
      · rw [hloc] at h
        injection h with h
        subst h
        obtain ⟨k1, k2, k3⟩ := dial_speed_dial_number_frame loc
          (set_state STATE_DIAL (set_dialed_digit d w))
        by_cases hpos : loc ≥ 0
        · rw [if_pos hpos]
          exact ⟨by rw [k1]; rfl, k2, k3,
            Or.inl ⟨by rw [k1]; rfl, by rw [k1]; rfl, by rw [k1]; rfl⟩⟩
        · rw [if_neg hpos]
          exact ⟨rfl, rfl, rfl, Or.inl ⟨rfl, rfl, rfl⟩⟩
  by_cases h2 : w.rs.state = STATE_SPECIAL_L2
  · rcases hloc : speed_dial_loc d with f | loc
    · rw [dispatch_l2_fault d f w h2 hloc] at h; cases h
    · by_cases hpos : 0 ≤ loc
      · rw [dispatch_l2_slot d loc w h2 hloc hpos] at h
        injection h with h
        subst h
        obtain ⟨_, _, _, h6⟩ := speed_dial_loc_ok d loc hloc
        refine ⟨rfl, rfl, rfl, Or.inr (Or.inr ⟨rfl, rfl, ?_⟩)⟩
        show loc.toNat ≤ SPEED_DIAL_REDIAL
        simp [SPEED_DIAL_REDIAL, SPEED_DIAL_COUNT]; omega
      · rw [dispatch_l2_no_slot d loc w h2 hloc (by omega)] at h
        injection h with h
        subst h
        exact ⟨rfl, rfl, rfl, Or.inl ⟨rfl, rfl, rfl⟩⟩
  by_cases h5 : w.rs.state = STATE_PROGRAM_SD
  · by_cases hi : w.rs.speed_dial_digit_index < SPEED_DIAL_SIZE
    · rw [dispatch_program_room d w h5 hi] at h
      injection h with h
      subst h
      exact ⟨rfl, rfl, rfl, Or.inr (Or.inl ⟨hi, ⟨d, rfl⟩, rfl, Or.inr rfl⟩)⟩
    · rw [dispatch_program_full d w h5 hi] at h
      injection h with h
      subst h
      exact ⟨rfl, rfl, rfl, Or.inr (Or.inr ⟨rfl, rfl, Nat.zero_le _⟩)⟩
  · rw [dispatch_cancel d w h0 h1 h2 h5] at h
    injection h with h
    subst h
    exact ⟨rfl, rfl, rfl, Or.inl ⟨rfl, rfl, rfl⟩⟩

/-! ## The shape of reachable run states -/

theorem consistent_of_step (w w1 : World) (hc : Consistent w) (h : PendingStep w w1) :
    Consistent w1 := by
  obtain ⟨⟨pre, hp1, hp2, hp3⟩, hr, he, hi⟩ := hc
  obtain ⟨s1, s2, _, hcase⟩ := h
  rcases hcase with ⟨a1, a2, a3⟩ | ⟨b0, ⟨c, b1⟩, b2, b3⟩ | ⟨c1, c2, c3⟩
  · exact ⟨⟨pre, by rw [a1, hp1], by rw [a2, hp2], hp3⟩, by rw [s1, hr], by rw [s2]; exact he,
      by rw [a3]; exact hi⟩
  · have hlt : pre.length < SPEED_DIAL_SIZE := by omega
    refine ⟨⟨pre ++ [c], ?_, ?_, ?_⟩, by rw [s1, hr], by rw [s2]; exact he, ?_⟩
    · rw [b1, hp1, hp2]; exact padded_set pre c hlt
    · rw [b2, hp2]; simp
    · simp; omega
    · rcases b3 with b3 | b3
      · rw [b3]
      · rw [b3]; exact hi
  · exact ⟨⟨[], by rw [c1]; exact padded_nil.symm, by rw [c2]; rfl, Nat.zero_le _⟩,
      by rw [s1, hr], by rw [s2]; exact he, c3⟩

theorem consistent_of_frame (w w1 : World) (hc : Consistent w)
    (h1 : w1.rs.speed_dial_digits = w.rs.speed_dial_digits)
    (h2 : w1.rs.speed_dial_digit_index = w.rs.speed_dial_digit_index)
    (h3 : w1.rs.speed_dial_index = w.rs.speed_dial_index)
    (h4 : w1.rs.redial_digits = w.rs.redial_digits) (h5 : w1.eeprom = w.eeprom) :
    Consistent w1 := by
  obtain ⟨⟨pre, hp1, hp2, hp3⟩, hr, he, hi⟩ := hc
  exact ⟨⟨pre, by rw [h1, hp1], by rw [h2, hp2], hp3⟩, by rw [h4, hr], by rw [h5]; exact he,
    by rw [h3]; exact hi⟩

theorem consistent_init (e : List (List Int)) (he : EepromWF e) : Consistent (init e) :=
  ⟨⟨[], by simp [init, init_speed_dial, padded], rfl, Nat.zero_le _⟩,
    by simp [init, init_speed_dial], he, Nat.zero_le _⟩

theorem write_wf (s : List Int) (i : Int) (w : World) (hs : s.length = SPEED_DIAL_SIZE)
    (hr : w.rs.redial_digits.length = SPEED_DIAL_SIZE) (he : EepromWF w.eeprom) :
    (write_current_speed_dial s i w).rs.redial_digits.length = SPEED_DIAL_SIZE ∧
    EepromWF (write_current_speed_dial s i w).eeprom := by
  unfold write_current_speed_dial
  dsimp only
  by_cases h7 : i = (SPEED_DIAL_REDIAL : Nat)
  · rw [if_pos h7]
    exact ⟨by simp only [copy_block_full _ _ hr hs, hs], he⟩
  · rw [if_neg h7]
    by_cases hrange : 0 ≤ i ∧ i < (SPEED_DIAL_COUNT : Nat)
    · rw [if_pos hrange]
      by_cases hdiff : List.take SPEED_DIAL_SIZE (eeprom_row w i.toNat) ≠
          List.take SPEED_DIAL_SIZE s
      · rw [if_pos hdiff]
        refine ⟨hr, ?_, ?_⟩
        · simp only [List.length_set]; exact he.1
        · intro r hmem
          rcases List.mem_or_eq_of_mem_set hmem with hmem | heq
          · exact he.2 r hmem
          · have hrow := eeprom_row_length w i.toNat he (by omega)
            rw [heq, copy_block_full _ _ hrow hs, hs]
      · rw [if_neg hdiff]; exact ⟨hr, he⟩
    · rw [if_neg hrange]; exact ⟨hr, he⟩

theorem consistent_timeout (w : World) (hc : Consistent w) : Consistent (main_timeout w) := by
  obtain ⟨⟨pre, hp1, _, hp3⟩, hr, he, _⟩ := hc
  have hlen : w.rs.speed_dial_digits.length = SPEED_DIAL_SIZE := by
    rw [hp1]; exact padded_length pre hp3
  obtain ⟨k1, k2⟩ := write_wf w.rs.speed_dial_digits (to_int8 w.rs.speed_dial_index) w hlen hr he
  obtain ⟨_, _, m3, m4, m5⟩ := main_timeout_reset w
  refine ⟨⟨[], by rw [m4]; exact padded_nil.symm, by rw [m3]; rfl, Nat.zero_le _⟩, ?_, ?_,
    by rw [m5]; exact Nat.zero_le _⟩
  · unfold main_timeout
    dsimp only [init_speed_dial]
    split_ifs
    · exact k1
    · exact k1
    · exact hr
  · unfold main_timeout
    dsimp only [init_speed_dial]
    split_ifs
    · exact k2
    · exact k2
    · exact he

theorem main_process_dialed_cases (b : Build) (w w1 : World)
    (h : main_process_dialed b w = .ok w1) :
    (∃ d, 0 ≤ d ∧ d ≤ 9 ∧ dispatch d w = .ok w1) ∨ w1 = set_state STATE_DIAL w := by
  unfold main_process_dialed at h
  rcases hres : resolve_dialed_digit b w.rs.dialed_digit with _ | d
  · rw [hres] at h
    injection h with h
    exact Or.inr h.symm
  · rw [hres] at h
    refine Or.inl ⟨d, ?_, ?_, h⟩
    · unfold resolve_dialed_digit to_int8 at hres
      split_ifs at hres <;> injection hres with hres <;> omega
    · unfold resolve_dialed_digit to_int8 at hres
      split_ifs at hres <;> injection hres with hres <;> omega

/-- Every reachable run state has the shape `Consistent`. -/
theorem reachable_consistent (b : Build) (w : World) (h : Reachable b w) : Consistent w := by
  induction h with
  | init e he => exact consistent_init e he
  | wdt_isr w _ ih => exact consistent_of_frame w _ ih rfl rfl rfl rfl rfl
  | timeout w _ ih => exact consistent_timeout w ih
  | debounce xs w _ ih => exact consistent_of_frame w _ ih rfl rfl rfl rfl rfl
  | gesture_begin p w _ ih => exact consistent_of_frame w _ ih rfl rfl rfl rfl rfl
  | sample_tick t w _ ih =>
    obtain ⟨h1, h2, h3, h4, h5, _⟩ := main_sample_tick_frame b t w
    exact consistent_of_frame w _ ih h1 h2 h3 h4 h5
  | process_dialed w w1 _ hstep ih =>
    rcases main_process_dialed_cases b w w1 hstep with ⟨d, _, _, hd⟩ | hset
    · exact consistent_of_step w w1 ih (dispatch_step d w w1 hd)
    · rw [hset]; exact consistent_of_frame w _ ih rfl rfl rfl rfl rfl
  | dispatch st d w w1 _ _ _ hstep ih =>
    exact consistent_of_step (set_state st w) w1
      (consistent_of_frame w _ ih rfl rfl rfl rfl rfl) (dispatch_step d _ w1 hstep)

theorem reachable_dispatch_all (b : Build) (s : List Int) : ∀ (w w1 : World),
    Reachable b w → (∀ d ∈ s, 0 ≤ d ∧ d ≤ 11) → dispatch_all s w = .ok w1 → Reachable b w1 := by
  induction s with
  | nil =>
    intro w w1 hr _ h
    simp only [dispatch_all] at h
    injection h with h
    rw [← h]; exact hr
  | cons d ds ih =>
    intro w w1 hr hd h
    simp only [dispatch_all] at h
    rcases hstep : dispatch d w with f | w0
    · rw [hstep] at h; cases h
    · rw [hstep] at h
      have hd0 := hd d (List.mem_cons_self _ _)
      exact ih w0 w1 (Reachable.dispatch w.rs.state d w w0 hr hd0.1 hd0.2 hstep)
        (fun x hx => hd x (List.mem_cons_of_mem _ hx)) h

theorem speed_dial_loc_fault (d : Int) (f : Fault) (h : speed_dial_loc d = .error f) :
    f = Fault.table_index := by
  unfold speed_dial_loc at h
  split_ifs at h
  injection h with h
  exact h.symm

/-- The only fault a dispatch can end in is a read outside the slot table: the
recursion budget is never exhausted and PendingNumber is never written outside its
`SPEED_DIAL_SIZE` entries. -/
theorem dispatch_fault (d : Int) (w : World) (f : Fault) (h : dispatch d w = .error f) :
    f = Fault.table_index := by
  have hdial : ∀ (c : Int) (v : World), v.rs.state = STATE_DIAL →
      dispatch c v = .error f → f = Fault.table_index := by
    intro c v hv hf
    by_cases hi : v.rs.speed_dial_digit_index < SPEED_DIAL_SIZE
    · rw [dispatch_dial_room c v hv hi] at hf; cases hf
    · rw [dispatch_dial_full c v hv hi] at hf; cases hf
  by_cases h0 : w.rs.state = STATE_DIAL
  · exact hdial d w h0 h
  by_cases h1 : w.rs.state = STATE_SPECIAL_L1
  · by_cases hd1 : d = 1
    · subst hd1; rw [dispatch_l1_star w h1] at h; exact hdial _ _ rfl h
    by_cases hd2 : d = 2
    · subst hd2; rw [dispatch_l1_pound w h1] at h; exact hdial _ _ rfl h
    rw [dispatch_l1_call d w h1 hd1 hd2] at h
    by_cases hd3 : d = 3
    · rw [if_pos hd3] at h; cases h
    · rw [if_neg hd3] at h
      rcases hloc : speed_dial_loc d with g | loc
      · rw [hloc] at h
        injection h with h
        rw [← h]
        exact speed_dial_loc_fault d g hloc
      · rw [hloc] at h; cases h
  by_cases h2 : w.rs.state = STATE_SPECIAL_L2
  · rcases hloc : speed_dial_loc d with g | loc
    · rw [dispatch_l2_fault d g w h2 hloc] at h
      injection h with h
      rw [← h]
      exact speed_dial_loc_fault d g hloc
    · by_cases hpos : 0 ≤ loc
      · rw [dispatch_l2_slot d loc w h2 hloc hpos] at h; cases h
      · rw [dispatch_l2_no_slot d loc w h2 hloc (by omega)] at h; cases h
  by_cases h5 : w.rs.state = STATE_PROGRAM_SD
  · by_cases hi : w.rs.speed_dial_digit_index < SPEED_DIAL_SIZE
    · rw [dispatch_program_room d w h5 hi] at h; cases h
    · rw [dispatch_program_full d w h5 hi] at h; cases h
  · rw [dispatch_cancel d w h0 h1 h2 h5] at h; cases h

theorem dispatch_no_buffer_fault (d : Int) (w : World) :
    dispatch d w ≠ .error Fault.buffer_index := by
  intro h
  have hf := dispatch_fault d w _ h
  cases hf

/-! ## Timeout auto-save and the bound of PendingNumber -/

/-- C7 (as the code has it): in every reachable state in which the inactivity
timeout fires while PendingNumber holds n digits, 1 ≤ n: when n is below the
capacity 30, the handler commits PendingNumber to the targeted slot, which then
holds exactly those n digits padded with `DIGIT_OFF`; when n is 30 the handler
commits nothing and the slots stay as they are; in both cases the menu state is
then Dial and PendingNumber is cleared. -/
theorem C7_timeout_autosave (b : Build) (w : World) (hr : Reachable b w)
    (_hn : 1 ≤ w.rs.speed_dial_digit_index) :
    (w.rs.speed_dial_digit_index < 30 →
      slot_content (main_timeout w) w.rs.speed_dial_index = w.rs.speed_dial_digits ∧
      w.rs.speed_dial_digits =
        w.rs.speed_dial_digits.take w.rs.speed_dial_digit_index ++
          List.replicate (30 - w.rs.speed_dial_digit_index) DIGIT_OFF) ∧
    (w.rs.speed_dial_digit_index = 30 →
      (main_timeout w).rs.redial_digits = w.rs.redial_digits ∧
      (main_timeout w).eeprom = w.eeprom) ∧
    (main_timeout w).rs.state = STATE_DIAL ∧
    (main_timeout w).rs.speed_dial_digit_index = 0 ∧
    (main_timeout w).rs.speed_dial_digits = List.replicate 30 DIGIT_OFF := by
  obtain ⟨⟨pre, hp1, hp2, hp3⟩, hred, he, hi⟩ := reachable_consistent b w hr
  obtain ⟨m1, _, m3, m4, _⟩ := main_timeout_reset w
  have hlen : w.rs.speed_dial_digits.length = SPEED_DIAL_SIZE := by
    rw [hp1]; exact padded_length pre hp3
  refine ⟨?_, ?_, m1, m3, m4⟩
  · intro hlt
    constructor
    · by_cases h7 : w.rs.speed_dial_index = SPEED_DIAL_REDIAL
      · rw [slot_content, if_pos h7]
        exact (main_timeout_redial w hlt h7 hlen hred).1
      · rw [slot_content, if_neg h7]
        exact (main_timeout_persisted w hlt (by omega) hlen he).1
    · rw [hp2]
      conv_lhs => rw [hp1]
      rw [hp1]
      unfold padded
      rw [List.take_left]
      rfl
  · intro h30
    have hnot : ¬ w.rs.speed_dial_digit_index < SPEED_DIAL_SIZE := by
      unfold SPEED_DIAL_SIZE; omega
    simp [main_timeout, init_speed_dial, hnot]

theorem reachable_five_two : Reachable standard_build five_two :=
  reachable_dispatch_all standard_build [5, 2] (init eeprom_factory) five_two
    (Reachable.init eeprom_factory (by decide)) (by decide) (by decide)

set_option maxRecDepth 100000 in
theorem reachable_thirty_fives : Reachable standard_build thirty_fives :=
  reachable_dispatch_all standard_build (List.replicate 30 5) (init eeprom_factory) thirty_fives
    (Reachable.init eeprom_factory (by decide)) (by decide) (by decide)

/-- C7, at the state after the digits 5 and 2 were dialed in state Dial. -/
theorem C7_timeout_autosave_witness :
    (Reachable standard_build five_two ∧ 1 ≤ five_two.rs.speed_dial_digit_index ∧
      five_two.rs.speed_dial_digit_index < 30) ∧
    slot_content (main_timeout five_two) five_two.rs.speed_dial_index =
      five_two.rs.speed_dial_digits ∧
    five_two.rs.speed_dial_digits =
      five_two.rs.speed_dial_digits.take five_two.rs.speed_dial_digit_index ++
        List.replicate (30 - five_two.rs.speed_dial_digit_index) DIGIT_OFF :=
  ⟨⟨reachable_five_two, by decide, by decide⟩,
    (C7_timeout_autosave standard_build five_two reachable_five_two (by decide)).1 (by decide)⟩

/-- C7 as stated fails at n = 30: after thirty digits dialed in state Dial the
timeout commits nothing, the redial slot still holds only `DIGIT_OFF` and not the
thirty digits of PendingNumber. -/
theorem C7_counterexample :
    dispatch_all (List.replicate 30 5) (init eeprom_factory) = .ok thirty_fives ∧
    thirty_fives.rs.speed_dial_digit_index = 30 ∧
    thirty_fives.rs.speed_dial_index = SPEED_DIAL_REDIAL ∧
    thirty_fives.rs.speed_dial_digits = List.replicate 30 5 ∧
    slot_content (main_timeout thirty_fives) SPEED_DIAL_REDIAL = List.replicate 30 DIGIT_OFF ∧
    slot_content (main_timeout thirty_fives) thirty_fives.rs.speed_dial_index ≠
      thirty_fives.rs.speed_dial_digits := by
  set_option maxRecDepth 100000 in decide

/-- C8: in every reachable run state PendingNumber holds at most 30 digits in its
30 entries, and no dispatch of any digit in any menu state writes PendingNumber at
an index of 30 or more. -/
theorem C8_pending_bound (b : Build) (w : World) (hr : Reachable b w) :
    w.rs.speed_dial_digit_index ≤ 30 ∧ w.rs.speed_dial_digits.length = 30 ∧
    (∀ (st : Nat) (d : Int), dispatch d (set_state st w) ≠ .error Fault.buffer_index) ∧
    main_process_dialed b w ≠ .error Fault.buffer_index := by
  obtain ⟨⟨pre, hp1, hp2, hp3⟩, _, _, _⟩ := reachable_consistent b w hr
  refine ⟨by rw [hp2]; exact hp3, by rw [hp1]; exact padded_length pre hp3,
    fun st d => dispatch_no_buffer_fault d (set_state st w), ?_⟩
  unfold main_process_dialed
  rcases resolve_dialed_digit b w.rs.dialed_digit with _ | d
  · intro h; cases h
  · exact dispatch_no_buffer_fault d w

/-- C8, at the state after thirty digits were dialed in state Dial. -/
theorem C8_pending_bound_witness :
    Reachable standard_build thirty_fives ∧
    thirty_fives.rs.speed_dial_digit_index ≤ 30 ∧ thirty_fives.rs.speed_dial_digits.length = 30 ∧
    (∀ (st : Nat) (d : Int),
      dispatch d (set_state st thirty_fives) ≠ .error Fault.buffer_index) ∧
    main_process_dialed standard_build thirty_fives ≠ .error Fault.buffer_index :=
  ⟨reachable_thirty_fives, C8_pending_bound standard_build thirty_fives reachable_thirty_fives⟩

/-! ## Wear-minimising commit -/

theorem write_persisted_eq (s : List Int) (i : Nat) (w : World) (hwf : EepromWF w.eeprom)
    (hi : i < SPEED_DIAL_REDIAL) (hs : s.length = SPEED_DIAL_SIZE) :
    write_current_speed_dial s (i : Int) w =
      if eeprom_row w i ≠ s then
        { w with eeprom := w.eeprom.set i s, eeprom_updates := w.eeprom_updates + 1 }
      else w := by
  have hrow := eeprom_row_length w i hwf (by unfold SPEED_DIAL_REDIAL at hi; omega)
  have hne : ¬ ((i : Int) = (SPEED_DIAL_REDIAL : Nat)) := by omega
  have hrange : 0 ≤ (i : Int) ∧ (i : Int) < (SPEED_DIAL_COUNT : Nat) := by
    unfold SPEED_DIAL_REDIAL at hi; omega
  have htake : List.take SPEED_DIAL_SIZE s = s := List.take_of_length_le (le_of_eq hs)
  have htake2 : List.take SPEED_DIAL_SIZE (eeprom_row w i) = eeprom_row w i :=
    List.take_of_length_le (le_of_eq hrow)
  unfold write_current_speed_dial
  simp only [hne, hrange, if_false, and_self, if_true, Int.toNat_ofNat, htake, htake2,
    copy_block_full _ _ hrow hs]

theorem eeprom_set_ne (e : List (List Int)) (i : Nat) (s : List Int) (hi : i < e.length)
    (hne : e.getD i [] ≠ s) : e.set i s ≠ e := by
  intro h
  apply hne
  have h2 : (e.set i s).getD i [] = s := by
    simp [List.getD_eq_getElem?_getD, hi]
  rw [h] at h2
  exact h2

theorem write_eeprom_wf (s : List Int) (i : Nat) (w : World) (hwf : EepromWF w.eeprom)
    (hi : i < SPEED_DIAL_REDIAL) (hs : s.length = SPEED_DIAL_SIZE) :
    EepromWF (write_current_speed_dial s (i : Int) w).eeprom := by
  rw [write_persisted_eq s i w hwf hi hs]
  split_ifs
  · refine ⟨by simp only [List.length_set]; exact hwf.1, ?_⟩
    intro r hmem
    rcases List.mem_or_eq_of_mem_set hmem with hmem | heq
    · exact hwf.2 r hmem
    · rw [heq, hs]
  · exact hwf

/-- C9: a commit of the 30 digits `s` to a persisted slot i (0..6) calls
`eeprom_update_block`, and changes the store, exactly when the stored content of
the slot differs from `s`; afterwards the slot holds `s` and the other slots and
the run state are as before; a second commit of the same `s` to the same slot
changes nothing, so two commits in succession make at most one mutation. -/
theorem C9_commit_idempotent (i : Nat) (s : List Int) (w : World) (hi : i ≤ 6)
    (hwf : EepromWF w.eeprom) (hs : s.length = 30) :
    ((write_current_speed_dial s i w).eeprom_updates = w.eeprom_updates + 1 ↔
      slot_content w i ≠ s) ∧
    ((write_current_speed_dial s i w).eeprom_updates = w.eeprom_updates ↔
      slot_content w i = s) ∧
    ((write_current_speed_dial s i w).eeprom ≠ w.eeprom ↔ slot_content w i ≠ s) ∧
    slot_content (write_current_speed_dial s i w) i = s ∧
    (∀ j, j ≠ i → slot_content (write_current_speed_dial s i w) j = slot_content w j) ∧
    (write_current_speed_dial s i w).rs = w.rs ∧
    (write_current_speed_dial s i w).out = w.out ∧
    write_current_speed_dial s i (write_current_speed_dial s i w) =
      write_current_speed_dial s i w ∧
    (write_current_speed_dial s i (write_current_speed_dial s i w)).eeprom_updates ≤
      w.eeprom_updates + 1 := by
  have hlt : i < SPEED_DIAL_REDIAL := by simp [SPEED_DIAL_REDIAL, SPEED_DIAL_COUNT]; omega
  have hne7 : ¬ i = SPEED_DIAL_REDIAL := by omega
  have hlen : i < w.eeprom.length := by
    rw [hwf.1]; simp [SPEED_DIAL_COUNT]; omega
  have heq := write_persisted_eq s i w hwf hlt hs
  have hrow := write_persisted_row s i w hwf hlt hs
  have hwf2 := write_eeprom_wf s i w hwf hlt hs
  have hslot : slot_content w i = eeprom_row w i := by rw [slot_content, if_neg hne7]
  have hslot2 : slot_content (write_current_speed_dial s i w) i =
      eeprom_row (write_current_speed_dial s i w) i := by rw [slot_content, if_neg hne7]
  have hrs : (write_current_speed_dial s i w).rs = w.rs :=
    write_persisted_rs s i w (by omega)
  have hidem : write_current_speed_dial s i (write_current_speed_dial s i w) =
      write_current_speed_dial s i w := by
    rw [write_persisted_eq s i (write_current_speed_dial s i w) hwf2 hlt hs, hrow]
    simp
  rw [hslot, hslot2]
  refine ⟨?_, ?_, ?_, hrow, ?_, hrs, (write_state s i w).2.1, hidem, ?_⟩
  · rw [heq]; split_ifs with h
    · simp [h]
    · simp [h]
  · rw [heq]; split_ifs with h
    · simp [h]
    · simp only [true_iff]; exact not_not.mp h
  · rw [heq]; split_ifs with h
    · simp only [ne_eq, h, not_false_eq_true, iff_true]
      exact eeprom_set_ne w.eeprom i s hlen h
    · simp [h]
  · intro j hj
    rw [heq]
    unfold slot_content eeprom_row
    split_ifs with h1 h2
    · rfl
    · rfl
    · simp only [List.getD_eq_getElem?_getD, List.getElem?_set_ne (Ne.symm hj)]
    · rfl
  · rw [hidem, heq]; split_ifs <;> simp

/-- C9, at slot 1, the digits 7 and 3 and the factory EEPROM. -/
theorem C9_commit_idempotent_witness :
    ((1 : Nat) ≤ 6 ∧ EepromWF (init eeprom_factory).eeprom ∧ (padded [7, 3]).length = 30) ∧
    slot_content (write_current_speed_dial (padded [7, 3]) (1 : Nat) (init eeprom_factory)) 1 =
      padded [7, 3] ∧
    write_current_speed_dial (padded [7, 3]) (1 : Nat)
        (write_current_speed_dial (padded [7, 3]) (1 : Nat) (init eeprom_factory)) =
      write_current_speed_dial (padded [7, 3]) (1 : Nat) (init eeprom_factory) :=
  ⟨⟨by decide, by decide, by decide⟩,
    (C9_commit_idempotent 1 (padded [7, 3]) (init eeprom_factory)
      (by decide) (by decide) (by decide)).2.2.2.1,
    (C9_commit_idempotent 1 (padded [7, 3]) (init eeprom_factory)
      (by decide) (by decide) (by decide)).2.2.2.2.2.2.2.1⟩

/-! ## Dial-out playback -/

/-- C10: for a slot index 0..7 whose stored content has 30 entries,
`dial_speed_dial_number` emits, in the order of the entries, the tone of each
entry in 0..11 for 200 ms followed by a pause of 200 ms, and nothing for any other
entry, and changes nothing else; for any other index it does nothing at all. -/
theorem C10_dial_out (w : World) :
    (∀ i : Nat, i ≤ 7 → (slot_content w i).length = 30 →
      dial_speed_dial_number i w = { w with out := w.out ++ playback (slot_content w i) }) ∧
    (∀ i : Int, i < 0 ∨ 7 < i → dial_speed_dial_number i w = w) := by
  constructor
  · intro i hi hlen
    have hrange : 0 ≤ (i : Int) ∧ (i : Int) < (SPEED_DIAL_COUNT : Nat) := by
      simp [SPEED_DIAL_COUNT]; omega
    have htake : List.take SPEED_DIAL_SIZE (slot_content w i) = slot_content w i :=
      List.take_of_length_le (le_of_eq hlen)
    unfold dial_speed_dial_number
    rw [if_pos hrange]
    by_cases h7 : i = SPEED_DIAL_REDIAL
    · have h7i : (i : Int) = (SPEED_DIAL_REDIAL : Nat) := by rw [h7]
      have hs : slot_content w i = w.rs.redial_digits := by rw [slot_content, if_pos h7]
      rw [hs] at htake
      simp only [h7i, if_true, htake, dial_digits_eq, hs]
    · have h7i : ¬ (i : Int) = (SPEED_DIAL_REDIAL : Nat) := by omega
      have hs : slot_content w i = eeprom_row w i := by rw [slot_content, if_neg h7]
      rw [hs] at htake
      simp only [h7i, if_false, Int.toNat_ofNat, htake, dial_digits_eq, hs]
  · intro i hi
    have hrange : ¬ (0 ≤ i ∧ i < (SPEED_DIAL_COUNT : Nat)) := by
      simp [SPEED_DIAL_COUNT]; omega
    unfold dial_speed_dial_number
    rw [if_neg hrange]

/-- C10, at the redial slot after the digits 5 and 2 were dialed and committed by
the timeout: the tones 5 and 2, each followed by a pause. -/
theorem C10_dial_out_witness :
    slot_content (main_timeout five_two) 7 = [5, 2] ++ List.replicate 28 (-1) ∧
    dial_speed_dial_number 7 (main_timeout five_two) =
      { main_timeout five_two with
        out := (main_timeout five_two).out ++
          [Sound.tone 5 200, Sound.pause 200, Sound.tone 2 200, Sound.pause 200] } := by
  refine ⟨by decide, ?_⟩
  have h := (C10_dial_out (main_timeout five_two)).1 7 (by decide) (by decide)
  rw [show ((7 : Nat) : Int) = 7 from rfl] at h
  rw [h]
  decide

/-! ## Redial -/

theorem playback_append (a c : List Int) : playback (a ++ c) = playback a ++ playback c := by
  simp [playback, List.filter_append, List.flatMap_append]

theorem playback_off (k : Nat) : playback (List.replicate k DIGIT_OFF) = [] := by
  induction k with
  | zero => rfl
  | succ k ih =>
    rw [List.replicate_succ]
    simp only [playback, List.filter_cons, DIGIT_OFF] at ih ⊢
    simp [ih]

theorem playback_valid (s : List Int) (hd : ∀ d ∈ s, 0 ≤ d ∧ d ≤ 11) :
    playback s = s.flatMap (fun d => [Sound.tone d 200, Sound.pause 200]) := by
  unfold playback
  rw [List.filter_eq_self.mpr]
  intro d hmem
  simpa using hd d hmem

theorem playback_padded (s : List Int) (hd : ∀ d ∈ s, 0 ≤ d ∧ d ≤ 11) :
    playback (padded s) = s.flatMap (fun d => [Sound.tone d 200, Sound.pause 200]) := by
  unfold padded
  rw [playback_append, playback_off, playback_valid s hd, List.append_nil]

/-- The dial-out of the redial slot, when the redial buffer has its 30 entries. -/
theorem dial_redial_eq (w : World) (hlen : w.rs.redial_digits.length = SPEED_DIAL_SIZE) :
    dial_speed_dial_number (SPEED_DIAL_REDIAL : Nat) w =
      { w with out := w.out ++ playback w.rs.redial_digits } := by
  have hrange : 0 ≤ ((SPEED_DIAL_REDIAL : Nat) : Int) ∧
      ((SPEED_DIAL_REDIAL : Nat) : Int) < (SPEED_DIAL_COUNT : Nat) := by decide
  unfold dial_speed_dial_number
  rw [if_pos hrange]
  simp only [if_true, List.take_of_length_le (le_of_eq hlen), dial_digits_eq]

/-- C11 (amended): after 1 to 29 digits (each 0..9) were dialed in state Dial,
the first of them with PendingNumber empty, and committed by the inactivity
timeout, a dispatch of digit 3 in state SpecialL1 emits exactly the tones of the
dialed digits, in order, each for 200 ms and each followed by a pause of 200 ms,
leaves PendingNumber, the commit target and the stored slots as they are, and ends
in state Dial. -/
theorem C11_redial_round_trip (w : World) (s : List Int) (hc : Consistent w)
    (hst : w.rs.state = STATE_DIAL) (hidx : w.rs.speed_dial_digit_index = 0)
    (h1 : 1 ≤ s.length) (h29 : s.length ≤ 29) (hd : ∀ d ∈ s, 0 ≤ d ∧ d ≤ 9) :
    ∃ w1, dispatch_all s w = .ok w1 ∧
      (main_timeout w1).rs.redial_digits = padded s ∧
      ∀ w3 : World, w3.rs.state = STATE_SPECIAL_L1 →
        w3.rs.redial_digits = (main_timeout w1).rs.redial_digits →
        ∃ w4, dispatch 3 w3 = .ok w4 ∧
          w4.out = w3.out ++ s.flatMap (fun d => [Sound.tone d 200, Sound.pause 200]) ∧
          w4.rs.state = STATE_DIAL ∧
          w4.rs.speed_dial_digits = w3.rs.speed_dial_digits ∧
          w4.rs.speed_dial_digit_index = w3.rs.speed_dial_digit_index ∧
          w4.rs.speed_dial_index = w3.rs.speed_dial_index ∧
          w4.rs.redial_digits = w3.rs.redial_digits ∧
          w4.eeprom = w3.eeprom ∧ w4.eeprom_updates = w3.eeprom_updates := by
  obtain ⟨⟨pre, hp1, hp2, _⟩, hred, _, _⟩ := hc
  have hpre : pre = [] := List.length_eq_zero.mp (by rw [← hp2, hidx])
  subst hpre
  obtain ⟨w1, r1, r2, r3, r4, r5, _, r7, _, _⟩ := dial_run s w [] hst hp1 (by simpa using hidx)
    (by simp [SPEED_DIAL_SIZE]; omega)
  have hne : s ≠ [] := by intro h; subst h; simp at h1
  have hi : w1.rs.speed_dial_digit_index < SPEED_DIAL_SIZE := by
    rw [r4]; simp [SPEED_DIAL_SIZE]; omega
  have hpad : w1.rs.speed_dial_digits = padded s := by simpa using r3
  have hlen : w1.rs.speed_dial_digits.length = SPEED_DIAL_SIZE := by
    rw [hpad]; exact padded_length _ (by simp [SPEED_DIAL_SIZE]; omega)
  obtain ⟨t1, _, _⟩ := main_timeout_redial w1 hi (r5 hne) hlen (by rw [r7, hred])
  have hcommit : (main_timeout w1).rs.redial_digits = padded s := by rw [t1, hpad]
  refine ⟨w1, r1, hcommit, ?_⟩
  intro w3 h3 hsame
  have hcall := dispatch_l1_call 3 w3 h3 (by decide) (by decide)
  rw [if_pos rfl] at hcall
  have hr3 : (set_state STATE_DIAL (set_dialed_digit 3 w3)).rs.redial_digits = padded s := by
    rw [← hcommit, ← hsame]; rfl
  have hl3 : (set_state STATE_DIAL (set_dialed_digit 3 w3)).rs.redial_digits.length =
      SPEED_DIAL_SIZE := by
    rw [hr3]; exact padded_length _ (by simp [SPEED_DIAL_SIZE]; omega)
  rw [dial_redial_eq _ hl3, hr3,
    playback_padded s (fun d hm => ⟨(hd d hm).1, by have := (hd d hm).2; omega⟩)] at hcall
  exact ⟨_, hcall, rfl, rfl, rfl, rfl, rfl, rfl, rfl, rfl⟩

/-- C11, at the digits 5 and 2 dialed right after initialisation. -/
theorem C11_redial_round_trip_witness :
    (Consistent (init eeprom_factory) ∧ (init eeprom_factory).rs.state = STATE_DIAL ∧
      (init eeprom_factory).rs.speed_dial_digit_index = 0 ∧
      1 ≤ [(5 : Int), 2].length ∧ [(5 : Int), 2].length ≤ 29 ∧
      ∀ d ∈ [(5 : Int), 2], 0 ≤ d ∧ d ≤ 9) ∧
    ∃ w1, dispatch_all [5, 2] (init eeprom_factory) = .ok w1 ∧
      (main_timeout w1).rs.redial_digits = padded [5, 2] ∧
      ∀ w3 : World, w3.rs.state = STATE_SPECIAL_L1 →
        w3.rs.redial_digits = (main_timeout w1).rs.redial_digits →
        ∃ w4, dispatch 3 w3 = .ok w4 ∧
          w4.out = w3.out ++
            [(5 : Int), 2].flatMap (fun d => [Sound.tone d 200, Sound.pause 200]) ∧
          w4.rs.state = STATE_DIAL ∧
          w4.rs.speed_dial_digits = w3.rs.speed_dial_digits ∧
          w4.rs.speed_dial_digit_index = w3.rs.speed_dial_digit_index ∧
          w4.rs.speed_dial_index = w3.rs.speed_dial_index ∧
          w4.rs.redial_digits = w3.rs.redial_digits ∧
          w4.eeprom = w3.eeprom ∧ w4.eeprom_updates = w3.eeprom_updates :=
  ⟨⟨consistent_init eeprom_factory (by decide), rfl, rfl, by decide, by decide, by decide⟩,
    C11_redial_round_trip (init eeprom_factory) [5, 2]
      (consistent_init eeprom_factory (by decide)) rfl rfl (by decide) (by decide) (by decide)⟩

/-! ## Slot selection -/

/-- The digit of a slot: 0 for slot 0, the slot plus 3 otherwise. -/
theorem speed_dial_loc_digit (d slot : Int) (h : speed_dial_loc d = .ok slot) (hpos : 0 ≤ slot) :
    d = if slot = 0 then 0 else slot + 3 := by
  obtain ⟨h0, h9, _, _⟩ := speed_dial_loc_ok d slot h
  have hv : 0 ≤ d ∧ d < 10 := ⟨h0, by omega⟩
  unfold speed_dial_loc at h
  rw [if_pos hv] at h
  injection h with h
  subst h
  interval_cases d <;> simp [_g_speed_dial_loc] at hpos ⊢

/-- C12: the slot table maps the digits 4..9 to the persisted slots 1..6, gives
no slot to the digits 1, 2 and 3, maps no two digits to one slot and no digit to
the redial slot; a digit 0..9 dispatched in state SpecialL2 that has a slot clears
PendingNumber, makes the slot the commit target, emits nothing and enters
ProgramSpeedDial; one without a slot emits the descending error tone for 800 ms
and enters Dial, PendingNumber and the commit target staying as they are. -/
theorem C12_slot_selection :
    (speed_dial_loc 4 = .ok 1 ∧ speed_dial_loc 5 = .ok 2 ∧ speed_dial_loc 6 = .ok 3 ∧
      speed_dial_loc 7 = .ok 4 ∧ speed_dial_loc 8 = .ok 5 ∧ speed_dial_loc 9 = .ok 6) ∧
    (speed_dial_loc 1 = .ok (-1) ∧ speed_dial_loc 2 = .ok (-1) ∧ speed_dial_loc 3 = .ok (-1)) ∧
    (∀ d1 d2 slot : Int, speed_dial_loc d1 = .ok slot → speed_dial_loc d2 = .ok slot →
      0 ≤ slot → d1 = d2) ∧
    (∀ d slot : Int, speed_dial_loc d = .ok slot → slot ≠ (SPEED_DIAL_REDIAL : Nat)) ∧
    (∀ (w : World) (d : Int), w.rs.state = STATE_SPECIAL_L2 → 0 ≤ d → d ≤ 9 →
      ∃ slot w1, speed_dial_loc d = .ok slot ∧ dispatch d w = .ok w1 ∧
        (0 ≤ slot →
          w1.rs.speed_dial_digit_index = 0 ∧
          w1.rs.speed_dial_digits = List.replicate 30 DIGIT_OFF ∧
          w1.rs.speed_dial_index = slot.toNat ∧ w1.out = w.out ∧
          w1.rs.state = STATE_PROGRAM_SD) ∧
        (slot < 0 →
          w1.out = w.out ++ [Sound.tone DIGIT_TUNE_DESC 800] ∧ w1.rs.state = STATE_DIAL ∧
          w1.rs.speed_dial_digit_index = w.rs.speed_dial_digit_index ∧
          w1.rs.speed_dial_digits = w.rs.speed_dial_digits ∧
          w1.rs.speed_dial_index = w.rs.speed_dial_index)) := by
  refine ⟨by decide, by decide, ?_, ?_, ?_⟩
  · intro d1 d2 slot h1 h2 hpos
    obtain ⟨a1, a2, _, _⟩ := speed_dial_loc_ok d1 slot h1
    obtain ⟨b1, b2, _, _⟩ := speed_dial_loc_ok d2 slot h2
    rw [speed_dial_loc_digit d1 slot h1 hpos, speed_dial_loc_digit d2 slot h2 hpos]
  · intro d slot h hs
    obtain ⟨_, _, _, h6⟩ := speed_dial_loc_ok d slot h
    rw [hs] at h6
    revert h6
    decide
  · intro w d hs h0 h9
    have hv : 0 ≤ d ∧ d < 10 := ⟨h0, by omega⟩
    have hloc : speed_dial_loc d = .ok (_g_speed_dial_loc.getD d.toNat DIGIT_OFF) := by
      unfold speed_dial_loc; rw [if_pos hv]
    by_cases hpos : 0 ≤ _g_speed_dial_loc.getD d.toNat DIGIT_OFF
    · exact ⟨_, _, hloc, dispatch_l2_slot d _ w hs hloc hpos,
        fun _ => ⟨rfl, rfl, rfl, rfl, rfl⟩, fun hneg => absurd hpos (by omega)⟩
    · exact ⟨_, _, hloc, dispatch_l2_no_slot d _ w hs hloc (by omega),
        fun h => absurd h hpos, fun _ => ⟨rfl, rfl, rfl, rfl, rfl⟩⟩

/-! ## The passes of the sampling loop -/

theorem main_special_function_pins (b : Build) (t : Tick) (w : World) :
    (main_special_function b t w).rs.pulse_pin = w.rs.pulse_pin ∧
    (main_special_function b t w).rs.dial_pin = w.rs.dial_pin ∧
    (main_special_function b t w).rs.dialed_digit = w.rs.dialed_digit := by
  unfold main_special_function
  split_ifs <;> exact ⟨rfl, rfl, rfl⟩

/-- The fields of the run state after one pass of the sampling loop. -/
theorem main_sample_tick_fields (b : Build) (t : Tick) (w : World) :
    (main_sample_tick b t w).rs.pulse_pin = update_pin w.rs.pulse_pin t.pulse ∧
    (main_sample_tick b t w).rs.dial_pin = update_pin w.rs.dial_pin t.dial ∧
    (main_sample_tick b t w).rs.dialed_digit =
      (if pulse_counted t w = true then to_int8 (w.rs.dialed_digit + 1)
       else w.rs.dialed_digit) ∧
    (main_sample_tick b t w).rs.flags =
      (if pulse_counted t w = true then F_NONE else (main_special_function b t w).rs.flags) ∧
    (main_sample_tick b t w).rs.state = (main_special_function b t w).rs.state ∧
    (main_sample_tick b t w).out = (main_special_function b t w).out := by
  obtain ⟨h1, h2, h3⟩ := main_special_function_pins b t w
  unfold main_sample_tick pulse_counted
  dsimp only
  rw [h1]
  by_cases hc : (update_pin w.rs.pulse_pin t.pulse).high = true ∧
      (update_pin w.rs.pulse_pin t.pulse).changed = true
  · rw [if_pos hc]
    simp [hc.1, hc.2, h2, h3]
  · rw [if_neg hc]
    have hb : ((update_pin w.rs.pulse_pin t.pulse).high &&
        (update_pin w.rs.pulse_pin t.pulse).changed) = false := by
      simpa using hc
    simp [hb, h2, h3]

/-- With the detection flags at `F_NONE` the switch of the sampling loop does
nothing. -/
theorem main_special_function_none (b : Build) (t : Tick) (w : World)
    (hf : w.rs.flags = F_NONE) :
    (main_special_function b t w).rs.flags = F_NONE ∧
    (main_special_function b t w).rs.state = w.rs.state ∧
    (main_special_function b t w).out = w.out := by
  simp [main_special_function, hf, F_NONE, F_DETECT_SPECIAL_L1, F_DETECT_SPECIAL_L2,
    F_DETECT_SPECIAL_L3]

theorem main_sample_tick_none (b : Build) (t : Tick) (w : World) (hf : w.rs.flags = F_NONE) :
    (main_sample_tick b t w).rs.flags = F_NONE ∧
    (main_sample_tick b t w).rs.state = w.rs.state ∧
    (main_sample_tick b t w).out = w.out := by
  obtain ⟨_, _, _, h4, h5, h6⟩ := main_sample_tick_fields b t w
  obtain ⟨k1, k2, k3⟩ := main_special_function_none b t w hf
  refine ⟨?_, by rw [h5, k2], by rw [h6, k3]⟩
  rw [h4, k1]
  split_ifs <;> rfl

theorem main_sample_loop_none (b : Build) (ts : List Tick) : ∀ w : World,
    w.rs.flags = F_NONE →
    (main_sample_loop b ts w).rs.flags = F_NONE ∧
    (main_sample_loop b ts w).rs.state = w.rs.state ∧
    (main_sample_loop b ts w).out = w.out := by
  induction ts with
  | nil => intro w hf; exact ⟨hf, rfl, rfl⟩
  | cons t ts ih =>
    intro w hf
    unfold main_sample_loop
    by_cases hh : w.rs.dial_pin.high = true
    · rw [if_pos hh]; exact ⟨hf, rfl, rfl⟩
    · rw [if_neg hh]
      obtain ⟨k1, k2, k3⟩ := main_sample_tick_none b t w hf
      obtain ⟨m1, m2, m3⟩ := ih _ k1
      exact ⟨m1, by rw [m2, k2], by rw [m3, k3]⟩

theorem main_sample_tick_counted (b : Build) (t : Tick) (w : World)
    (hc : pulse_counted t w = true) : (main_sample_tick b t w).rs.flags = F_NONE := by
  rw [(main_sample_tick_fields b t w).2.2.2.1, if_pos hc]

/-- C13: once a pass of the sampling loop has counted a pulse, the detection flags
are `F_NONE`, and over all the later passes of the gesture, whatever the pins and
the elapsed-time counter read, the menu state stays as it is and no tone is
emitted. -/
theorem C13_escalation_exclusive (b : Build) (t : Tick) (w : World)
    (hc : pulse_counted t w = true) :
    (main_sample_tick b t w).rs.flags = F_NONE ∧
    ∀ later : List Tick,
      (main_sample_loop b later (main_sample_tick b t w)).out = (main_sample_tick b t w).out ∧
      (main_sample_loop b later (main_sample_tick b t w)).rs.state =
        (main_sample_tick b t w).rs.state ∧
      (main_sample_loop b later (main_sample_tick b t w)).rs.flags = F_NONE := by
  have hf := main_sample_tick_counted b t w hc
  refine ⟨hf, ?_⟩
  intro later
  obtain ⟨m1, m2, m3⟩ := main_sample_loop_none b later _ hf
  exact ⟨m3, m2, m1⟩

set_option maxRecDepth 100000 in
/-- C13, at the third high sample of a clean pulse. -/
theorem C13_escalation_exclusive_witness :
    pulse_counted { delay_counter := 0, pulse := true, dial := false }
      (main_gesture_samples standard_build true (one_pulse.take 5) (init eeprom_factory)) = true ∧
    ∀ later : List Tick,
      (main_sample_loop standard_build later
        (main_sample_tick standard_build { delay_counter := 0, pulse := true, dial := false }
          (main_gesture_samples standard_build true (one_pulse.take 5)
            (init eeprom_factory)))).out =
      (main_sample_tick standard_build { delay_counter := 0, pulse := true, dial := false }
        (main_gesture_samples standard_build true (one_pulse.take 5)
          (init eeprom_factory))).out :=
  ⟨by decide, fun later =>
    ((C13_escalation_exclusive standard_build { delay_counter := 0, pulse := true, dial := false }
      (main_gesture_samples standard_build true (one_pulse.take 5) (init eeprom_factory))
      (by decide)).2 later).1⟩

/-! ## Escalation only from Dial -/

theorem dispatch_flags (d : Int) (w w1 : World) (h : dispatch d w = .ok w1) :
    w1.rs.flags = w.rs.flags := by
  have hdial : ∀ (c : Int) (v : World), v.rs.state = STATE_DIAL →
      dispatch c v = .ok w1 → w1.rs.flags = v.rs.flags := by
    intro c v hv hf
    by_cases hi : v.rs.speed_dial_digit_index < SPEED_DIAL_SIZE
    · rw [dispatch_dial_room c v hv hi] at hf; injection hf with hf; rw [← hf]
    · rw [dispatch_dial_full c v hv hi] at hf; injection hf with hf; rw [← hf]
  by_cases h0 : w.rs.state = STATE_DIAL
  · exact hdial d w h0 h
  by_cases h1 : w.rs.state = STATE_SPECIAL_L1
  · by_cases hd1 : d = 1
    · subst hd1; rw [dispatch_l1_star w h1] at h; exact hdial _ (set_state STATE_DIAL w) rfl h
    by_cases hd2 : d = 2
    · subst hd2; rw [dispatch_l1_pound w h1] at h; exact hdial _ (set_state STATE_DIAL w) rfl h
    rw [dispatch_l1_call d w h1 hd1 hd2] at h
    by_cases hd3 : d = 3
    · rw [if_pos hd3] at h
      injection h with h
      rw [← h, (dial_speed_dial_number_frame _ _).1]; rfl
    · rw [if_neg hd3] at h
      rcases hloc : speed_dial_loc d with g | loc
      · rw [hloc] at h; cases h
      · rw [hloc] at h
        injection h with h
        rw [← h]
        split_ifs
        · rw [(dial_speed_dial_number_frame _ _).1]; rfl
        · rfl
  by_cases h2 : w.rs.state = STATE_SPECIAL_L2
  · rcases hloc : speed_dial_loc d with g | loc
    · rw [dispatch_l2_fault d g w h2 hloc] at h; cases h
    · by_cases hpos : 0 ≤ loc
      · rw [dispatch_l2_slot d loc w h2 hloc hpos] at h; injection h with h; rw [← h]
      · rw [dispatch_l2_no_slot d loc w h2 hloc (by omega)] at h; injection h with h; rw [← h]
  by_cases h5 : w.rs.state = STATE_PROGRAM_SD
  · by_cases hi : w.rs.speed_dial_digit_index < SPEED_DIAL_SIZE
    · rw [dispatch_program_room d w h5 hi] at h; injection h with h; rw [← h]
    · rw [dispatch_program_full d w h5 hi] at h; injection h with h; rw [← h]
  · rw [dispatch_cancel d w h0 h1 h2 h5] at h; injection h with h; rw [← h]; rfl

/-- In the sampling loop, a tally other than 0 comes with the detection flags at
`F_NONE`. -/
theorem main_sample_tick_tally (b : Build) (t : Tick) (w : World)
    (h : w.rs.dialed_digit = 0 ∨ w.rs.flags = F_NONE) :
    (main_sample_tick b t w).rs.dialed_digit = 0 ∨ (main_sample_tick b t w).rs.flags = F_NONE := by
  obtain ⟨_, _, h3, h4, _, _⟩ := main_sample_tick_fields b t w
  by_cases hc : pulse_counted t w = true
  · right; rw [h4, if_pos hc]
  · rw [h3, h4, if_neg hc, if_neg hc]
    rcases h with h | h
    · left; exact h
    · right; exact (main_special_function_none b t w h).1

theorem main_sample_loop_tally (b : Build) (ts : List Tick) : ∀ w : World,
    (w.rs.dialed_digit = 0 ∨ w.rs.flags = F_NONE) →
    (main_sample_loop b ts w).rs.dialed_digit = 0 ∨ (main_sample_loop b ts w).rs.flags = F_NONE := by
  induction ts with
  | nil => intro w h; exact h
  | cons t ts ih =>
    intro w h
    unfold main_sample_loop
    split_ifs
    · exact h
    · exact ih _ (main_sample_tick_tally b t w h)

theorem main_process_dialed_tally (b : Build) (w w1 : World)
    (h : main_process_dialed b w = .ok w1) :
    (w.rs.dialed_digit ≠ 0 ∧ ∃ d, dispatch d w = .ok w1) ∨ w1 = set_state STATE_DIAL w := by
  unfold main_process_dialed at h
  rcases hres : resolve_dialed_digit b w.rs.dialed_digit with _ | d
  · rw [hres] at h
    injection h with h
    exact Or.inr h.symm
  · rw [hres] at h
    refine Or.inl ⟨?_, d, h⟩
    intro h0
    rw [h0] at hres
    simp [resolve_dialed_digit] at hres

theorem main_sleep_cases (fired : Bool) (w : World)
    (h : (main_sleep fired w).rs.flags ≠ F_WDT_AWAKE) : main_sleep fired w = w := by
  unfold main_sleep at h ⊢
  split_ifs with hc
  · rw [if_pos hc] at h
    exact absurd rfl h
  · rfl

/-- At the head of the loop of `main`, a menu state other than Dial comes with the
detection flags at `F_NONE`. -/
theorem main_loop_flags (b : Build) (w : World) (hm : MainLoop b w) :
    w.rs.state ≠ STATE_DIAL → w.rs.flags = F_NONE := by
  induction hm with
  | init e => intro h; exact absurd rfl h
  | timeout fired w _ _ _ => intro h; exact absurd (main_timeout_reset _).1 h
  | abandoned fired xs w _ hf _ ih =>
    rw [main_sleep_cases fired w hf]
    exact ih
  | gesture fired xs pulse_raw ts w w1 _ hf _ _ hp _ =>
    intro hs
    rcases main_process_dialed_tally b _ w1 hp with ⟨ht, d, hd⟩ | hset
    · rw [dispatch_flags d _ w1 hd]
      rcases main_sample_loop_tally b ts (main_gesture_begin pulse_raw
        (main_debounce xs (main_sleep fired w))) (Or.inl rfl) with h0 | hnone
      · exact absurd h0 ht
      · exact hnone
    · rw [hset] at hs
      exact absurd rfl hs

/-- C15: in every execution of the loop of `main`, a gesture that begins (after the
sleep and the soft debounce) in a menu state other than Dial begins with the
detection flags at `F_NONE`, and its sampling loop, whatever the pins and the
elapsed-time counter read and however long it runs, changes no menu state and
emits no tone. -/
theorem C15_escalation_only_from_dial (b : Build) (w : World) (hm : MainLoop b w) :
    (w.rs.state ≠ STATE_DIAL → w.rs.flags = F_NONE) ∧
    ∀ (fired : Bool) (xs : List Bool) (pulse_raw : Bool) (ts : List Tick),
      (main_sleep fired w).rs.flags ≠ F_WDT_AWAKE →
      (main_debounce xs (main_sleep fired w)).rs.state ≠ STATE_DIAL →
      (main_debounce xs (main_sleep fired w)).rs.flags = F_NONE ∧
      (main_gesture_samples b pulse_raw ts (main_debounce xs (main_sleep fired w))).out =
        (main_debounce xs (main_sleep fired w)).out ∧
      (main_gesture_samples b pulse_raw ts (main_debounce xs (main_sleep fired w))).rs.state =
        (main_debounce xs (main_sleep fired w)).rs.state := by
  have hflags := main_loop_flags b w hm
  refine ⟨hflags, ?_⟩
  intro fired xs pulse_raw ts hf hs
  rw [main_sleep_cases fired w hf] at hs ⊢
  have hnone : (main_debounce xs w).rs.flags = F_NONE := hflags hs
  have hbegin : (main_gesture_begin pulse_raw (main_debounce xs w)).rs.flags = F_NONE := by
    have hs2 : ¬ (main_debounce xs w).rs.state = STATE_DIAL := hs
    simp only [main_gesture_begin, if_neg hs2]
    exact hnone
  obtain ⟨_, m2, m3⟩ := main_sample_loop_none b ts _ hbegin
  exact ⟨hnone, m3, m2⟩

set_option maxRecDepth 100000 in
theorem main_loop_programming : MainLoop standard_build programming_after_gesture :=
  MainLoop.gesture false [false, false, false] true hold_twice_then_4 (init eeprom_factory)
    programming_after_gesture (MainLoop.init eeprom_factory) (by decide) (by decide) (by decide)
    (by decide)

/-- C15, at the head of the loop after a gesture that escalated twice and dialed
digit 4: the menu state is ProgramSpeedDial. -/
theorem C15_escalation_only_from_dial_witness :
    (MainLoop standard_build programming_after_gesture ∧
      programming_after_gesture.rs.state = STATE_PROGRAM_SD) ∧
    (programming_after_gesture.rs.state ≠ STATE_DIAL →
      programming_after_gesture.rs.flags = F_NONE) :=
  ⟨⟨main_loop_programming, rfl⟩,
    (C15_escalation_only_from_dial standard_build programming_after_gesture
      main_loop_programming).1⟩

/-! ## Escalation thresholds -/

theorem main_sample_loop_append (b : Build) (a c : List Tick) : ∀ w : World,
    main_sample_loop b (a ++ c) w = main_sample_loop b c (main_sample_loop b a w) := by
  induction a with
  | nil => intro w; rfl
  | cons t a ih =>
    intro w
    by_cases hh : w.rs.dial_pin.high = true
    · have h1 : main_sample_loop b (t :: a) w = w := by simp [main_sample_loop, hh]
      have h2 : main_sample_loop b (t :: a ++ c) w = w := by simp [main_sample_loop, hh]
      have h3 : main_sample_loop b c w = w := by
        cases c with
        | nil => rfl
        | cons x c => simp [main_sample_loop, hh]
      rw [h1, h2, h3]
    · have h1 : main_sample_loop b (t :: a) w = main_sample_loop b a (main_sample_tick b t w) := by
        simp [main_sample_loop, hh]
      have h2 : main_sample_loop b (t :: a ++ c) w =
          main_sample_loop b (a ++ c) (main_sample_tick b t w) := by
        simp [main_sample_loop, hh]
      rw [h1, h2, ih]

set_option maxRecDepth 100000 in
/-- The sampling loop alone does not space the escalations: over readings of the
counter that keep growing (the delay of 2000 ms at the first pass, 200 ms more at
each of the next two) the three levels are entered at consecutive passes. The
spacing rests on the counter being restarted between two levels. -/
theorem main_sample_loop_cascade :
    dial_low_after_init.rs.state = STATE_DIAL ∧ sf_delay_ticks standard_build = 62000 ∧
    (main_gesture_samples standard_build true (hold_without_restart.take 1)
      dial_low_after_init).rs.state = STATE_SPECIAL_L1 ∧
    (main_gesture_samples standard_build true (hold_without_restart.take 2)
      dial_low_after_init).rs.state = STATE_SPECIAL_L2 ∧
    (main_gesture_samples standard_build true (hold_without_restart.take 2)
      dial_low_after_init).out =
      [Sound.tone DIGIT_BEEP_LOW 200, Sound.tone DIGIT_TUNE_ASC 200] ∧
    (main_gesture_samples standard_build true hold_without_restart
      dial_low_after_init).rs.state = STATE_SPECIAL_L3 ∧
    (main_gesture_samples standard_build true hold_without_restart dial_low_after_init).out =
      [Sound.tone DIGIT_BEEP_LOW 200, Sound.tone DIGIT_TUNE_ASC 200,
        Sound.tone DIGIT_TUNE_DESC 800] ∧
    hold_without_restart.map (fun t => t.delay_counter) =
      [62000, 62000 + 6200, 62000 + 12400] := by
  decide

/-! ## The debounce of `update_pin` -/

set_option maxRecDepth 1000000 in
set_option maxHeartbeats 4000000 in
/-- One call of `update_pin`, for every history of eight samples: the history
stays below 2^8; a change of the level needs the new sample and the two lowest
bits of the old history at the new level; a reported change leaves a uniform
history; without one the level stays and the history is shifted by one sample. -/
theorem update_pin_step : ∀ buf, buf < 256 → ∀ high changed raw : Bool,
    (update_pin { buf := buf, high := high, changed := changed } raw).buf < 256 ∧
    ((update_pin { buf := buf, high := high, changed := changed } raw).high ≠ high →
      (update_pin { buf := buf, high := high, changed := changed } raw).high = raw ∧
      decide (buf % 2 = 1) = raw ∧ decide (buf / 2 % 2 = 1) = raw) ∧
    ((update_pin { buf := buf, high := high, changed := changed } raw).changed = true →
      (update_pin { buf := buf, high := high, changed := changed } raw).buf =
        if (update_pin { buf := buf, high := high, changed := changed } raw).high
        then 255 else 0) ∧
    ((update_pin { buf := buf, high := high, changed := changed } raw).changed = false →
      (update_pin { buf := buf, high := high, changed := changed } raw).high = high ∧
      decide ((update_pin { buf := buf, high := high, changed := changed } raw).buf % 2 = 1)
        = raw ∧
      decide ((update_pin { buf := buf, high := high, changed := changed } raw).buf / 2 % 2 = 1)
        = decide (buf % 2 = 1)) := by
  decide

theorem update_pin_facts (p : pin_t) (h : p.buf < 256) (raw : Bool) :
    (update_pin p raw).buf < 256 ∧
    ((update_pin p raw).high ≠ p.high →
      (update_pin p raw).high = raw ∧
      decide (p.buf % 2 = 1) = raw ∧ decide (p.buf / 2 % 2 = 1) = raw) ∧
    ((update_pin p raw).changed = true →
      (update_pin p raw).buf = if (update_pin p raw).high then 255 else 0) ∧
    ((update_pin p raw).changed = false →
      (update_pin p raw).high = p.high ∧
      decide ((update_pin p raw).buf % 2 = 1) = raw ∧
      decide ((update_pin p raw).buf / 2 % 2 = 1) = decide (p.buf % 2 = 1)) :=
  update_pin_step p.buf h p.high p.changed raw

theorem feed_pin_snoc (p : pin_t) (xs : List Bool) (x : Bool) :
    feed_pin p (xs ++ [x]) = update_pin (feed_pin p xs) x := by
  simp [feed_pin, List.foldl_append]

/-- The history of a pin fed from a session-initial state: a lowest bit that
differs from the level is the last sample fed, a second bit that differs from the
level is the sample fed before the last. -/
theorem feed_pin_history (p0 : pin_t) (h0 : session_initial p0) (xs : List Bool) :
    (feed_pin p0 xs).buf < 256 ∧
    (decide ((feed_pin p0 xs).buf % 2 = 1) ≠ (feed_pin p0 xs).high →
      ∃ ys, xs = ys ++ [decide ((feed_pin p0 xs).buf % 2 = 1)]) ∧
    (decide ((feed_pin p0 xs).buf / 2 % 2 = 1) ≠ (feed_pin p0 xs).high →
      ∃ ys c, xs = ys ++ [decide ((feed_pin p0 xs).buf / 2 % 2 = 1), c]) := by
  induction xs using List.reverseRecOn with
  | nil =>
    rcases h0 with ⟨hb, hh⟩ | ⟨hb, hh⟩
    · simp [feed_pin, hb, hh]
    · simp [feed_pin, hb, hh]
  | append_singleton xs x ih =>
    obtain ⟨i1, i2, i3⟩ := ih
    rw [feed_pin_snoc]
    obtain ⟨f1, _, f3, f4⟩ := update_pin_facts (feed_pin p0 xs) i1 x
    refine ⟨f1, ?_, ?_⟩
    · intro hne
      cases hc : (update_pin (feed_pin p0 xs) x).changed
      · obtain ⟨_, g2, _⟩ := f4 hc
        exact ⟨xs, by rw [g2]⟩
      · have hb := f3 hc
        exfalso
        apply hne
        rw [hb]
        cases (update_pin (feed_pin p0 xs) x).high <;> simp
    · intro hne
      cases hc : (update_pin (feed_pin p0 xs) x).changed
      · obtain ⟨g1, _, g3⟩ := f4 hc
        rw [g3, g1] at hne
        obtain ⟨ys, hys⟩ := i2 hne
        refine ⟨ys, x, ?_⟩
        rw [g3]
        conv_lhs => rw [hys]
        simp
      · have hb := f3 hc
        exfalso
        apply hne
        rw [hb]
        cases (update_pin (feed_pin p0 xs) x).high <;> simp

/-- A call of `update_pin` that changes the level of a pin fed from a
session-initial state: the last three samples are at the new level. -/
theorem feed_pin_change (p0 : pin_t) (xs : List Bool) (x : Bool) (h0 : session_initial p0)
    (hchg : (update_pin (feed_pin p0 xs) x).high ≠ (feed_pin p0 xs).high) :
    x = (update_pin (feed_pin p0 xs) x).high ∧ ∃ ys, xs = ys ++ [x, x] := by
  obtain ⟨i1, i2, i3⟩ := feed_pin_history p0 h0 xs
  obtain ⟨_, f2, _, _⟩ := update_pin_facts (feed_pin p0 xs) i1 x
  obtain ⟨g1, g2, g3⟩ := f2 hchg
  refine ⟨g1.symm, ?_⟩
  have hx : x ≠ (feed_pin p0 xs).high := by rw [← g1]; exact hchg
  obtain ⟨ys, hys⟩ := i2 (by rw [g2]; exact hx)
  obtain ⟨zs, c, hzs⟩ := i3 (by rw [g3]; exact hx)
  rw [g2] at hys
  rw [g3] at hzs
  have h2 : ys ++ [x] = (zs ++ [x]) ++ [c] := by
    rw [← hys, hzs]; simp
  have hc : [x] = [c] := (List.append_inj' h2 rfl).2
  have hcx : c = x := (List.singleton_injective hc).symm
  rw [hcx] at hzs
  exact ⟨zs, hzs⟩

/-- C16: for a pin started in a session-initial state and fed any samples, a call
of `update_pin` that changes the stable level has its own sample and the two
samples fed right before it all equal to the new level; so at least three samples
were fed, the last three identical. -/
theorem C16_debounce_run_length (p0 : pin_t) (xs : List Bool) (x : Bool)
    (h0 : session_initial p0)
    (hchg : (update_pin (feed_pin p0 xs) x).high ≠ (feed_pin p0 xs).high) :
    x = (update_pin (feed_pin p0 xs) x).high ∧
    ∃ ys, xs = ys ++ [(update_pin (feed_pin p0 xs) x).high, (update_pin (feed_pin p0 xs) x).high] := by
  obtain ⟨h1, ys, h2⟩ := feed_pin_change p0 xs x h0 hchg
  exact ⟨h1, ys, by rw [← h1]; exact h2⟩

/-- C16, at three low samples fed to a pin preset high. -/
theorem C16_debounce_run_length_witness :
    (session_initial { buf := 0xFF, high := true, changed := false } ∧
      (update_pin (feed_pin { buf := 0xFF, high := true, changed := false } [false, false])
        false).high ≠
      (feed_pin { buf := 0xFF, high := true, changed := false } [false, false]).high) ∧
    false = (update_pin (feed_pin { buf := 0xFF, high := true, changed := false }
      [false, false]) false).high :=
  ⟨⟨by decide, by decide⟩,
    (C16_debounce_run_length { buf := 0xFF, high := true, changed := false } [false, false] false
      (by decide) (by decide)).1⟩

set_option maxRecDepth 100000 in
/-- C17 at a glitch: a pin preset high is fed two low samples and then high
samples; its level is high after every call, yet the call of the sixth high sample
reports a change; in the sampling loop that pass counts a pulse, so the tally of
the gesture is 1 although the debounced pulse level never was low. -/
theorem C17_change_without_transition :
    session_initial { buf := 0xFF, high := true, changed := false } ∧
    (List.range 8).all (fun k =>
      (feed_pin { buf := 0xFF, high := true, changed := false }
        ((glitch.map (fun t => t.pulse)).take k)).high) = true ∧
    (update_pin (feed_pin { buf := 0xFF, high := true, changed := false }
      ((glitch.map (fun t => t.pulse)).take 7)) true).changed = true ∧
    (update_pin (feed_pin { buf := 0xFF, high := true, changed := false }
      ((glitch.map (fun t => t.pulse)).take 7)) true).high = true ∧
    (List.range 9).all (fun k =>
      (main_gesture_samples standard_build true (glitch.take k)
        dial_low_after_init).rs.pulse_pin.high) = true ∧
    (main_gesture_samples standard_build true (glitch.take 7)
      dial_low_after_init).rs.dialed_digit = 0 ∧
    (main_gesture_samples standard_build true glitch dial_low_after_init).rs.dialed_digit = 1 := by
  decide

/-! ## Counting of clean pulse trains -/

theorem counted_pulses_append (a c : List Bool) : ∀ p : pin_t,
    counted_pulses p (a ++ c) = counted_pulses p a + counted_pulses (feed_pin p a) c := by
  induction a with
  | nil => intro p; simp [counted_pulses, feed_pin]
  | cons x a ih =>
    intro p
    show counted_pulses p (x :: (a ++ c)) =
      counted_pulses p (x :: a) + counted_pulses (feed_pin p (x :: a)) c
    have hf : feed_pin p (x :: a) = feed_pin (update_pin p x) a := rfl
    rw [hf, counted_pulses, counted_pulses, ih]
    omega

theorem feed_pin_append (p : pin_t) (a c : List Bool) :
    feed_pin p (a ++ c) = feed_pin (feed_pin p a) c := by
  simp [feed_pin, List.foldl_append]

/-- Samples at the level of a stable pin leave it stable and count nothing. -/
theorem stable_same (lv : Bool) (m : Nat) : ∀ p : pin_t, stable_at lv p →
    stable_at lv (feed_pin p (List.replicate m lv)) ∧
    counted_pulses p (List.replicate m lv) = 0 := by
  induction m with
  | zero => intro p h; exact ⟨h, rfl⟩
  | succ m ih =>
    intro p h
    have hstep : stable_at lv (update_pin p lv) ∧
        ((update_pin p lv).high && (update_pin p lv).changed) = false := by
      obtain ⟨buf, high, c⟩ := p
      obtain ⟨hb, hh⟩ := h
      simp only at hb hh
      subst hb; subst hh
      cases high <;> cases c <;> decide
    obtain ⟨i1, i2⟩ := ih _ hstep.1
    rw [List.replicate_succ]
    refine ⟨?_, ?_⟩
    · simpa [feed_pin] using i1
    · simp only [counted_pulses, hstep.2, i2]
      rfl

/-- The first three samples of a run fed to a stable pin: the pin is stable at the
level of the run, and a pulse is counted, at the third sample, exactly when the
run is high and the pin was low. -/
theorem stable_three (prev lv : Bool) (p : pin_t) (h : stable_at prev p) :
    stable_at lv (feed_pin p [lv, lv, lv]) ∧
    counted_pulses p [lv, lv] = 0 ∧
    counted_pulses p [lv, lv, lv] = (if !prev && lv then 1 else 0) := by
  obtain ⟨buf, high, c⟩ := p
  obtain ⟨hb, hh⟩ := h
  simp only at hb hh
  subst hb; subst hh
  cases high <;> cases lv <;> cases c <;> decide

/-- A run of at least three samples fed to a stable pin. -/
theorem stable_run (prev lv : Bool) (n : Nat) (hn : 3 ≤ n) (p : pin_t) (h : stable_at prev p) :
    stable_at lv (feed_pin p (List.replicate n lv)) ∧
    counted_pulses p (List.replicate n lv) = (if !prev && lv then 1 else 0) := by
  obtain ⟨m, rfl⟩ : ∃ m, n = 3 + m := ⟨n - 3, by omega⟩
  have hsplit : List.replicate (3 + m) lv = [lv, lv, lv] ++ List.replicate m lv := by
    rw [List.replicate_add]; rfl
  obtain ⟨t1, _, t3⟩ := stable_three prev lv p h
  obtain ⟨s1, s2⟩ := stable_same lv m _ t1
  rw [hsplit, feed_pin_append, counted_pulses_append, t3, s2]
  exact ⟨s1, rfl⟩

theorem rising_run (prev lv : Bool) (n : Nat) (hn : 1 ≤ n) (rest : List Bool) :
    rising prev (List.replicate n lv ++ rest) = (if !prev && lv then 1 else 0) + rising lv rest := by
  obtain ⟨m, rfl⟩ : ∃ m, n = m + 1 := ⟨n - 1, by omega⟩
  rw [List.replicate_succ]
  simp only [List.cons_append, rising]
  congr 1
  clear hn
  induction m with
  | zero => rfl
  | succ m ih =>
    rw [List.replicate_succ]
    simp only [List.cons_append, rising, ih]
    cases lv <;> simp

/-- Fed to a stable pin, clean runs count exactly the low-to-high transitions. -/
theorem counted_clean (runs : List Nat) : ∀ (prev lv : Bool) (p : pin_t),
    stable_at prev p → (∀ n ∈ runs, 3 ≤ n) →
    counted_pulses p (alternating_runs lv runs) = rising prev (alternating_runs lv runs) := by
  induction runs with
  | nil => intro prev lv p _ _; rfl
  | cons n ns ih =>
    intro prev lv p h hr
    have hn : 3 ≤ n := hr n (List.mem_cons_self _ _)
    obtain ⟨r1, r2⟩ := stable_run prev lv n hn p h
    simp only [alternating_runs]
    rw [counted_pulses_append, r2, rising_run prev lv n (by omega),
      ih lv (!lv) _ r1 (fun x hx => hr x (List.mem_cons_of_mem _ hx))]

theorem to_int8_idem (x : Int) : to_int8 (to_int8 x) = to_int8 x := by
  unfold to_int8; omega

theorem to_int8_succ (x : Int) (n : Nat) :
    to_int8 (to_int8 (x + 1) + n) = to_int8 (x + (1 + n : Nat)) := by
  unfold to_int8; push_cast; omega

/-- While the dial samples are low and the dial pin is stable low, the sampling
loop feeds the pulse samples to the pulse pin and counts its pulses into the
tally, modulo 2^8. -/
theorem main_sample_loop_pulses (b : Build) (ts : List Tick) : ∀ w : World,
    stable_at false w.rs.dial_pin → (∀ t ∈ ts, t.dial = false) →
    to_int8 w.rs.dialed_digit = w.rs.dialed_digit →
    (main_sample_loop b ts w).rs.pulse_pin =
      feed_pin w.rs.pulse_pin (ts.map (fun t => t.pulse)) ∧
    (main_sample_loop b ts w).rs.dialed_digit =
      to_int8 (w.rs.dialed_digit +
        (counted_pulses w.rs.pulse_pin (ts.map (fun t => t.pulse)) : Nat)) ∧
    stable_at false (main_sample_loop b ts w).rs.dial_pin := by
  induction ts with
  | nil =>
    intro w hd _ ht
    exact ⟨rfl, by simp [main_sample_loop, counted_pulses, ht], hd⟩
  | cons t ts ih =>
    intro w hd hdial ht
    have hlow : w.rs.dial_pin.high = false := hd.2
    have hloop : main_sample_loop b (t :: ts) w = main_sample_loop b ts (main_sample_tick b t w) := by
      simp [main_sample_loop, hlow]
    obtain ⟨f1, f2, f3, _, _, _⟩ := main_sample_tick_fields b t w
    have hd2 : stable_at false (main_sample_tick b t w).rs.dial_pin := by
      rw [f2, hdial t (List.mem_cons_self _ _)]
      have := (stable_same false 1 w.rs.dial_pin hd).1
      simpa [feed_pin] using this
    have ht2 : to_int8 (main_sample_tick b t w).rs.dialed_digit =
        (main_sample_tick b t w).rs.dialed_digit := by
      rw [f3]; split_ifs
      · exact to_int8_idem _
      · exact ht
    obtain ⟨i1, i2, i3⟩ := ih (main_sample_tick b t w) hd2
      (fun x hx => hdial x (List.mem_cons_of_mem _ hx)) ht2
    rw [hloop]
    refine ⟨?_, ?_, i3⟩
    · rw [i1, f1]; simp [feed_pin]
    · rw [i2, f1, f3]
      simp only [List.map_cons, counted_pulses]
      by_cases hc : pulse_counted t w = true
      · have hc2 : ((update_pin w.rs.pulse_pin t.pulse).high &&
            (update_pin w.rs.pulse_pin t.pulse).changed) = true := hc
        rw [if_pos hc, hc2, if_pos rfl, to_int8_succ]
      · have hc2 : ((update_pin w.rs.pulse_pin t.pulse).high &&
            (update_pin w.rs.pulse_pin t.pulse).changed) = false := by
          simpa [pulse_counted] using hc
        rw [if_neg hc, hc2]
        simp

/-- C18 (as the code has it): with the pulse pin preset to the current level and
the dial pin staying low, for pulse samples made of alternating runs of at least
three samples each, the tally after the sampling is the number of low-to-high
transitions of the samples (the preset level counting as the sample before the
first) wrapped to the signed 8-bit range of the tally, so it equals that number
when it is at most 127; a high run fed to a low pin counts nothing in its first
two samples and exactly one pulse at its third, and no more after it; a low
run counts nothing. -/
theorem C18_clean_pulse_trains (b : Build) (w : World) (preset lv : Bool) (runs : List Nat)
    (ts : List Tick) (hdial : stable_at false w.rs.dial_pin) (hheld : ∀ t ∈ ts, t.dial = false)
    (hsamples : ts.map (fun t => t.pulse) = alternating_runs lv runs)
    (hruns : ∀ n ∈ runs, 3 ≤ n) :
    (main_gesture_samples b preset ts w).rs.dialed_digit =
      to_int8 (rising preset (alternating_runs lv runs)) ∧
    (rising preset (alternating_runs lv runs) ≤ 127 →
      (main_gesture_samples b preset ts w).rs.dialed_digit =
        rising preset (alternating_runs lv runs)) ∧
    (∀ (p : pin_t) (n : Nat), 3 ≤ n → stable_at false p →
      counted_pulses p (List.replicate 2 true) = 0 ∧
      counted_pulses p (List.replicate 3 true) = 1 ∧
      counted_pulses p (List.replicate n true) = 1) ∧
    (∀ (p : pin_t) (n : Nat), 3 ≤ n → stable_at true p →
      counted_pulses p (List.replicate n false) = 0) := by
  have hbegin : stable_at preset (main_gesture_begin preset w).rs.pulse_pin := by
    cases preset <;> exact ⟨rfl, rfl⟩
  obtain ⟨_, k2, _⟩ := main_sample_loop_pulses b ts (main_gesture_begin preset w) hdial hheld rfl
  have hcount := counted_clean runs preset lv _ hbegin hruns
  have htally : (main_gesture_samples b preset ts w).rs.dialed_digit =
      to_int8 (rising preset (alternating_runs lv runs)) := by
    unfold main_gesture_samples
    rw [k2, hsamples, hcount]
    have h0 : (main_gesture_begin preset w).rs.dialed_digit = 0 := rfl
    rw [h0, zero_add]
  refine ⟨htally, ?_, ?_, ?_⟩
  · intro hle
    rw [htally]
    unfold to_int8
    omega
  · intro p n hn hp
    exact ⟨(stable_three false true p hp).2.1, (stable_three false true p hp).2.2,
      (stable_run false true n hn p hp).2⟩
  · intro p n hn hp
    exact (stable_run true false n hn p hp).2

set_option maxRecDepth 100000 in
/-- C18, at four clean pulses: a tally of 4. -/
theorem C18_clean_pulse_trains_witness :
    (stable_at false dial_low_after_init.rs.dial_pin ∧
      (∀ t ∈ pulse_train 4, t.dial = false) ∧
      (pulse_train 4).map (fun t => t.pulse) = alternating_runs false (List.replicate 8 3) ∧
      ∀ n ∈ List.replicate 8 3, 3 ≤ n) ∧
    (main_gesture_samples standard_build true (pulse_train 4)
      dial_low_after_init).rs.dialed_digit =
      to_int8 (rising true (alternating_runs false (List.replicate 8 3))) ∧
    rising true (alternating_runs false (List.replicate 8 3)) = 4 :=
  ⟨⟨by decide, by decide, by decide, by decide⟩,
    (C18_clean_pulse_trains standard_build dial_low_after_init true false (List.replicate 8 3)
      (pulse_train 4) (by decide) (by decide) (by decide) (by decide)).1,
    by decide⟩

set_option maxRecDepth 1000000 in
set_option maxHeartbeats 4000000 in
/-- C18 as stated fails at 128 clean pulses: the samples have 128 low-to-high
transitions and the signed 8-bit tally is -128. -/
theorem C18_counterexample :
    stable_at false dial_low_after_init.rs.dial_pin ∧
    (pulse_train 128).all (fun t => !t.dial) = true ∧
    (pulse_train 128).map (fun t => t.pulse) = alternating_runs false (List.replicate 256 3) ∧
    rising true ((pulse_train 128).map (fun t => t.pulse)) = 128 ∧
    (main_gesture_samples standard_build true (pulse_train 128)
      dial_low_after_init).rs.dialed_digit = -128 := by
  decide

/-! ## The soft debounce of the wake -/

/-- The soft debounce leaves with the dial pin low only after three low samples in
a row, the last of them among the first `n` samples. -/
theorem main_debounce_loop_low (p0 : pin_t) (h0 : session_initial p0) (n : Nat) :
    ∀ (xs done : List Bool), (feed_pin p0 done).high = true →
    (main_debounce_loop n xs (feed_pin p0 done)).high = false →
    ∃ ys post, done ++ xs = ys ++ [false, false, false] ++ post ∧
      ys.length + 3 ≤ done.length + n := by
  induction n with
  | zero =>
    intro xs done hh hl
    simp only [main_debounce_loop] at hl
    rw [hh] at hl; cases hl
  | succ n ih =>
    intro xs done hh hl
    cases xs with
    | nil =>
      simp only [main_debounce_loop] at hl
      rw [hh] at hl; cases hl
    | cons x xs =>
      simp only [main_debounce_loop] at hl
      rw [← feed_pin_snoc] at hl
      by_cases hlow : (feed_pin p0 (done ++ [x])).high = false
      · have hchg : (update_pin (feed_pin p0 done) x).high ≠ (feed_pin p0 done).high := by
          rw [← feed_pin_snoc, hlow, hh]; simp
        obtain ⟨c1, ys, c2⟩ := feed_pin_change p0 done x h0 hchg
        rw [← feed_pin_snoc, hlow] at c1
        subst c1
        refine ⟨ys, xs, ?_, ?_⟩
        · rw [c2]; simp
        · rw [c2]; simp; omega
      · have hhigh : (feed_pin p0 (done ++ [x])).high = true := by
          cases h : (feed_pin p0 (done ++ [x])).high
          · exact absurd h hlow
          · rfl
        simp only [hhigh, Bool.not_true, Bool.false_eq_true, if_false] at hl
        obtain ⟨ys, post, e1, e2⟩ := ih xs (done ++ [x]) hhigh hl
        refine ⟨ys, post, ?_, ?_⟩
        · rw [← e1]; simp
        · simp at e2; omega

/-- Three low samples in a row, right at the start, end the soft debounce with the
dial pin low. -/
theorem main_debounce_loop_three (m : Nat) (rest : List Bool) (p : pin_t)
    (hp : stable_at true p) :
    (main_debounce_loop (m + 3) (false :: false :: false :: rest) p).high = false := by
  obtain ⟨buf, high, c⟩ := p
  obtain ⟨hb, hh⟩ := hp
  simp only at hb hh
  subst hb; subst hh
  cases c <;> rfl

/-- High samples only keep the dial pin high to the end of the soft debounce. -/
theorem main_debounce_loop_high (n : Nat) : ∀ (rest : List Bool) (p : pin_t),
    stable_at true p →
    (main_debounce_loop n (List.replicate n true ++ rest) p).high = true := by
  induction n with
  | zero => intro rest p hp; exact hp.2
  | succ n ih =>
    intro rest p hp
    have hs := (stable_same true 1 p hp).1
    have hs1 : stable_at true (update_pin p true) := by simpa [feed_pin] using hs
    rw [List.replicate_succ]
    simp only [List.cons_append, main_debounce_loop, hs1.2, Bool.not_true, Bool.false_eq_true,
      if_false]
    exact ih rest _ hs1

/-- C19 (as the code has it): the soft debounce after a wake changes nothing but
the dial pin; the gesture sampling is entered when the debounced dial level is
low within the first 5000 samples, which needs three low samples in a row among
them, and three low samples right at the start suffice; when the first 5000
samples are all high the dial pin is still high and the wake is abandoned. -/
theorem C19_debounce_guard (xs : List Bool) (w : World) :
    ((main_debounce xs w).rs.state = w.rs.state ∧
      (main_debounce xs w).rs.speed_dial_digits = w.rs.speed_dial_digits ∧
      (main_debounce xs w).rs.speed_dial_digit_index = w.rs.speed_dial_digit_index ∧
      (main_debounce xs w).rs.speed_dial_index = w.rs.speed_dial_index ∧
      (main_debounce xs w).rs.redial_digits = w.rs.redial_digits ∧
      (main_debounce xs w).rs.flags = w.rs.flags ∧
      (main_debounce xs w).eeprom = w.eeprom ∧ (main_debounce xs w).out = w.out) ∧
    ((main_debounce xs w).rs.dial_pin.high = false →
      ∃ ys post, xs = ys ++ [false, false, false] ++ post ∧ ys.length + 3 ≤ 5000) ∧
    (∀ rest : List Bool,
      (main_debounce ([false, false, false] ++ rest) w).rs.dial_pin.high = false) ∧
    (∀ rest : List Bool,
      (main_debounce (List.replicate 5000 true ++ rest) w).rs.dial_pin.high = true) := by
  have hinit : session_initial { w.rs.dial_pin with buf := 0xFF, high := true } :=
    Or.inl ⟨rfl, rfl⟩
  have hstable : stable_at true { w.rs.dial_pin with buf := 0xFF, high := true } := ⟨rfl, rfl⟩
  refine ⟨⟨rfl, rfl, rfl, rfl, rfl, rfl, rfl, rfl⟩, ?_, ?_, ?_⟩
  · intro hl
    obtain ⟨ys, post, e1, e2⟩ := main_debounce_loop_low _ hinit 5000 xs [] rfl hl
    exact ⟨ys, post, by simpa using e1, by simpa using e2⟩
  · intro rest
    exact main_debounce_loop_three 4997 rest _ hstable
  · intro rest
    exact main_debounce_loop_high 5000 rest _ hstable

/-- C19, at three low samples after initialisation. -/
theorem C19_debounce_guard_witness :
    (main_debounce ([false, false, false] ++ []) (init eeprom_factory)).rs.dial_pin.high
      = false :=
  (C19_debounce_guard [] (init eeprom_factory)).2.2.1 []

set_option maxRecDepth 100000 in
/-- C19 as stated fails: after a wake, three low samples of the dial pin (300 µs)
end the soft debounce with the dial pin low, the gesture sampling is entered and a
gesture of four pulses is resolved and dispatched: the tone of digit 4 is emitted. -/
theorem C19_counterexample :
    [false, false, false].length = 3 ∧
    (main_sleep false (init eeprom_factory)).rs.flags ≠ F_WDT_AWAKE ∧
    (main_debounce [false, false, false]
      (main_sleep false (init eeprom_factory))).rs.dial_pin.high = false ∧
    (main_process_dialed standard_build
      (main_gesture_samples standard_build true (pulses 4)
        (main_debounce [false, false, false] (main_sleep false (init eeprom_factory))))).map
      (fun w => w.out) = .ok [Sound.tone 4 200] := by
  decide

/-! ## Reads of the slot table -/

theorem resolve_dialed_digit_range (b : Build) (t d : Int)
    (h : resolve_dialed_digit b t = some d) : 0 ≤ d ∧ d ≤ 9 := by
  unfold resolve_dialed_digit to_int8 at h
  split_ifs at h <;> injection h with h <;> omega

/-- A digit 0..9 is dispatched without a fault in every run state. -/
theorem dispatch_digit_ok (d : Int) (w : World) (h0 : 0 ≤ d) (h9 : d ≤ 9) :
    ∃ w1, dispatch d w = .ok w1 := by
  rcases hres : dispatch d w with f | w1
  · exfalso
    have hf := dispatch_fault d w f hres
    subst hf
    have hloc : ∃ slot, speed_dial_loc d = .ok slot := by
      unfold speed_dial_loc
      rw [if_pos ⟨h0, by omega⟩]
      exact ⟨_, rfl⟩
    obtain ⟨slot, hslot⟩ := hloc
    by_cases hs0 : w.rs.state = STATE_DIAL
    · by_cases hi : w.rs.speed_dial_digit_index < SPEED_DIAL_SIZE
      · rw [dispatch_dial_room d w hs0 hi] at hres; cases hres
      · rw [dispatch_dial_full d w hs0 hi] at hres; cases hres
    by_cases hs1 : w.rs.state = STATE_SPECIAL_L1
    · by_cases hd1 : d = 1
      · subst hd1
        rw [dispatch_l1_star w hs1] at hres
        obtain ⟨v, hv, _⟩ := dispatch_dial_effect DIGIT_STAR (set_state STATE_DIAL w) rfl
        rw [hv] at hres; cases hres
      by_cases hd2 : d = 2
      · subst hd2
        rw [dispatch_l1_pound w hs1] at hres
        obtain ⟨v, hv, _⟩ := dispatch_dial_effect DIGIT_POUND (set_state STATE_DIAL w) rfl
        rw [hv] at hres; cases hres
      rw [dispatch_l1_call d w hs1 hd1 hd2, hslot] at hres
      split_ifs at hres
    by_cases hs2 : w.rs.state = STATE_SPECIAL_L2
    · by_cases hpos : 0 ≤ slot
      · rw [dispatch_l2_slot d slot w hs2 hslot hpos] at hres; cases hres
      · rw [dispatch_l2_no_slot d slot w hs2 hslot (by omega)] at hres; cases hres
    by_cases hs5 : w.rs.state = STATE_PROGRAM_SD
    · by_cases hi : w.rs.speed_dial_digit_index < SPEED_DIAL_SIZE
      · rw [dispatch_program_room d w hs5 hi] at hres; cases hres
      · rw [dispatch_program_full d w hs5 hi] at hres; cases hres
    · rw [dispatch_cancel d w hs0 hs1 hs2 hs5] at hres; cases hres
  · exact ⟨w1, rfl⟩

/-- C20: in both builds and in every run state, the processing of a gesture by
`main` ends without a fault, so no read of the slot table is outside its ten
entries: the digit handed to `process_dialed_digit` is in 0..9, a table read
faults exactly for an index outside 0..9, a fault of a dispatch can only be such
a read, and the codes `DIGIT_STAR` and `DIGIT_POUND` of the SpecialL1 re-dispatch
are processed in state Dial, where they are appended or clear PendingNumber
without a table read. -/
theorem C20_slot_table_reads (b : Build) (w : World) :
    (∃ w1, main_process_dialed b w = .ok w1) ∧
    (∀ d, resolve_dialed_digit b w.rs.dialed_digit = some d → 0 ≤ d ∧ d ≤ 9) ∧
    (∀ d : Int, (∃ f, speed_dial_loc d = .error f) ↔ ¬ (0 ≤ d ∧ d ≤ 9)) ∧
    (∀ (d : Int) (f : Fault), dispatch d w = .error f → f = Fault.table_index) ∧
    (w.rs.state = STATE_SPECIAL_L1 →
      dispatch 1 w = dispatch DIGIT_STAR (set_state STATE_DIAL w) ∧
      dispatch 2 w = dispatch DIGIT_POUND (set_state STATE_DIAL w) ∧
      (∃ w1, dispatch DIGIT_STAR (set_state STATE_DIAL w) = .ok w1) ∧
      (∃ w1, dispatch DIGIT_POUND (set_state STATE_DIAL w) = .ok w1)) := by
  refine ⟨?_, ?_, ?_, ?_, ?_⟩
  · unfold main_process_dialed
    rcases hres : resolve_dialed_digit b w.rs.dialed_digit with _ | d
    · exact ⟨_, rfl⟩
    · obtain ⟨h0, h9⟩ := resolve_dialed_digit_range b _ d hres
      exact dispatch_digit_ok d w h0 h9
  · intro d hd
    exact resolve_dialed_digit_range b _ d hd
  · intro d
    unfold speed_dial_loc
    constructor
    · rintro ⟨f, hf⟩
      split_ifs at hf with hc
      intro hd
      exact hc ⟨hd.1, by omega⟩
    · intro hd
      have hc : ¬ (0 ≤ d ∧ d < 10) := fun h => hd ⟨h.1, by omega⟩
      rw [if_neg hc]
      exact ⟨_, rfl⟩
  · intro d f hf
    exact dispatch_fault d w f hf
  · intro hs
    refine ⟨dispatch_l1_star w hs, dispatch_l1_pound w hs, ?_, ?_⟩
    · obtain ⟨v, hv, _⟩ := dispatch_dial_effect DIGIT_STAR (set_state STATE_DIAL w) rfl
      exact ⟨v, hv⟩
    · obtain ⟨v, hv, _⟩ := dispatch_dial_effect DIGIT_POUND (set_state STATE_DIAL w) rfl
      exact ⟨v, hv⟩

/-! ## Width of the pulse counter -/

/-- Whatever the pins read, the tally after the sampling loop is the tally before
it plus the number of pulses counted in the passes the loop made, wrapped to the
signed 8-bit range. -/
theorem main_sample_loop_wraps (b : Build) (ts : List Tick) : ∀ w : World,
    to_int8 w.rs.dialed_digit = w.rs.dialed_digit →
    ∃ k, k ≤ ts.length ∧
      (main_sample_loop b ts w).rs.dialed_digit =
        to_int8 (w.rs.dialed_digit +
          (counted_pulses w.rs.pulse_pin ((ts.take k).map (fun t => t.pulse)) : Nat)) := by
  induction ts with
  | nil =>
    intro w ht
    exact ⟨0, le_refl _, by simp [main_sample_loop, counted_pulses, ht]⟩
  | cons t ts ih =>
    intro w ht
    by_cases hh : w.rs.dial_pin.high = true
    · refine ⟨0, Nat.zero_le _, ?_⟩
      simp [main_sample_loop, hh, counted_pulses, ht]
    · have hloop : main_sample_loop b (t :: ts) w =
          main_sample_loop b ts (main_sample_tick b t w) := by
        simp [main_sample_loop, hh]
      obtain ⟨f1, _, f3, _, _, _⟩ := main_sample_tick_fields b t w
      have ht2 : to_int8 (main_sample_tick b t w).rs.dialed_digit =
          (main_sample_tick b t w).rs.dialed_digit := by
        rw [f3]; split_ifs
        · exact to_int8_idem _
        · exact ht
      obtain ⟨k, hk, hv⟩ := ih (main_sample_tick b t w) ht2
      refine ⟨k + 1, by simpa using hk, ?_⟩
      rw [hloop, hv, f1, f3]
      simp only [List.take_succ_cons, List.map_cons, counted_pulses]
      by_cases hc : pulse_counted t w = true
      · have hc2 : ((update_pin w.rs.pulse_pin t.pulse).high &&
            (update_pin w.rs.pulse_pin t.pulse).changed) = true := hc
        rw [if_pos hc, hc2, if_pos rfl, to_int8_succ]
      · have hc2 : ((update_pin w.rs.pulse_pin t.pulse).high &&
            (update_pin w.rs.pulse_pin t.pulse).changed) = false := by
          simpa [pulse_counted] using hc
        rw [if_neg hc, hc2]
        simp

/-- A pass at which the elapsed-time counter reads less than the special function
delay changes neither the menu state nor the tones. -/
theorem main_special_function_early (b : Build) (t : Tick) (w : World)
    (hlt : t.delay_counter < sf_delay_ticks b) :
    (main_special_function b t w).out = w.out ∧
    (main_special_function b t w).rs.state = w.rs.state := by
  have hn : ¬ t.delay_counter ≥ SF_DELAY_MS * b.t0_overflow_per_ms := by
    unfold sf_delay_ticks at hlt; omega
  unfold main_special_function
  simp only [hn, if_false]
  split_ifs <;> exact ⟨rfl, rfl⟩

theorem main_sample_loop_early (b : Build) (ts : List Tick) : ∀ w : World,
    (∀ t ∈ ts, t.delay_counter < sf_delay_ticks b) →
    (main_sample_loop b ts w).out = w.out ∧
    (main_sample_loop b ts w).rs.state = w.rs.state := by
  induction ts with
  | nil => intro w _; exact ⟨rfl, rfl⟩
  | cons t ts ih =>
    intro w hlt
    unfold main_sample_loop
    split_ifs
    · exact ⟨rfl, rfl⟩
    · obtain ⟨_, _, _, _, f5, f6⟩ := main_sample_tick_fields b t w
      obtain ⟨e1, e2⟩ := main_special_function_early b t w (hlt t (List.mem_cons_self _ _))
      obtain ⟨i1, i2⟩ := ih (main_sample_tick b t w)
        (fun x hx => hlt x (List.mem_cons_of_mem _ hx))
      exact ⟨by rw [i1, f6, e1], by rw [i2, f5, e2]⟩

theorem pulse_train_succ (n : Nat) : pulse_train (n + 1) = one_pulse ++ pulse_train n := by
  simp [pulse_train, List.replicate_succ]

theorem pulse_train_ticks (n : Nat) :
    ∀ t ∈ pulse_train n, t.dial = false ∧ t.delay_counter = 0 := by
  induction n with
  | zero => intro t ht; simp [pulse_train] at ht
  | succ n ih =>
    intro t ht
    rw [pulse_train_succ, List.mem_append] at ht
    rcases ht with ht | ht
    · revert t; decide
    · exact ih t ht

/-- A train of `n` clean pulses fed to a pin that is stable high leaves it stable
high and counts `n` pulses. -/
theorem pulse_train_count (n : Nat) : ∀ p : pin_t, stable_at true p →
    stable_at true (feed_pin p ((pulse_train n).map (fun t => t.pulse))) ∧
    counted_pulses p ((pulse_train n).map (fun t => t.pulse)) = n := by
  induction n with
  | zero => intro p hp; exact ⟨hp, rfl⟩
  | succ n ih =>
    intro p hp
    have hmap : (pulse_train (n + 1)).map (fun t => t.pulse) =
        [false, false, false] ++ ([true, true, true] ++
          (pulse_train n).map (fun t => t.pulse)) := by
      rw [pulse_train_succ, List.map_append]; rfl
    obtain ⟨a1, _, a3⟩ := stable_three true false p hp
    obtain ⟨b1, _, b3⟩ := stable_three false true _ a1
    obtain ⟨c1, c2⟩ := ih _ b1
    rw [hmap, feed_pin_append, feed_pin_append, counted_pulses_append, counted_pulses_append,
      a3, b3, c2]
    exact ⟨c1, by simp; omega⟩

/-- The release of the dial: three passes with the dial pin sampled high end the
sampling loop with the dial pin high; with the pulse pin stable high they count
nothing. -/
theorem dial_release_passes (b : Build) (w : World) (hdial : stable_at false w.rs.dial_pin)
    (hpulse : stable_at true w.rs.pulse_pin) :
    (main_sample_loop b dial_release w).rs.dial_pin.high = true ∧
    (main_sample_loop b dial_release w).rs.dialed_digit = w.rs.dialed_digit := by
  have hstep : ∀ (v : World), stable_at true v.rs.pulse_pin →
      stable_at true (main_sample_tick b { delay_counter := 0, pulse := true, dial := true }
        v).rs.pulse_pin ∧
      (main_sample_tick b { delay_counter := 0, pulse := true, dial := true } v).rs.dialed_digit =
        v.rs.dialed_digit ∧
      (main_sample_tick b { delay_counter := 0, pulse := true, dial := true } v).rs.dial_pin =
        update_pin v.rs.dial_pin true := by
    intro v hv
    obtain ⟨f1, f2, f3, _, _, _⟩ :=
      main_sample_tick_fields b { delay_counter := 0, pulse := true, dial := true } v
    have hs := stable_same true 1 v.rs.pulse_pin hv
    have hs1 : stable_at true (update_pin v.rs.pulse_pin true) := by
      simpa [feed_pin] using hs.1
    have hs2 : ((update_pin v.rs.pulse_pin true).high &&
        (update_pin v.rs.pulse_pin true).changed) = false := by
      have h := hs.2
      simp only [List.replicate, counted_pulses] at h
      by_contra hne
      have ht : ((update_pin v.rs.pulse_pin true).high &&
          (update_pin v.rs.pulse_pin true).changed) = true := by
        cases hx : ((update_pin v.rs.pulse_pin true).high &&
          (update_pin v.rs.pulse_pin true).changed)
        · exact absurd hx hne
        · rfl
      rw [ht] at h
      simp at h
    have hnc : ¬ pulse_counted { delay_counter := 0, pulse := true, dial := true } v = true := by
      unfold pulse_counted; rw [hs2]; simp
    rw [if_neg hnc] at f3
    exact ⟨by rw [f1]; exact hs1, f3, f2⟩
  have hd3 : ∀ p : pin_t, stable_at false p →
      (update_pin p true).high = false ∧ (update_pin (update_pin p true) true).high = false ∧
      (update_pin (update_pin (update_pin p true) true) true).high = true := by
    intro p hp
    obtain ⟨buf, high, c⟩ := p
    obtain ⟨hb, hh⟩ := hp
    simp only at hb hh
    subst hb; subst hh
    cases c <;> decide
  obtain ⟨d1, d2, d3⟩ := hd3 w.rs.dial_pin hdial
  obtain ⟨p1, t1, q1⟩ := hstep w hpulse
  obtain ⟨p2, t2, q2⟩ := hstep _ p1
  obtain ⟨_, t3, q3⟩ := hstep _ p2
  have h0 : w.rs.dial_pin.high = false := hdial.2
  have e1 : (main_sample_tick b { delay_counter := 0, pulse := true, dial := true }
      w).rs.dial_pin.high = false := by rw [q1]; exact d1
  have e2 : (main_sample_tick b { delay_counter := 0, pulse := true, dial := true }
      (main_sample_tick b { delay_counter := 0, pulse := true, dial := true }
        w)).rs.dial_pin.high = false := by rw [q2, q1]; exact d2
  have hloop : main_sample_loop b dial_release w =
      main_sample_tick b { delay_counter := 0, pulse := true, dial := true }
        (main_sample_tick b { delay_counter := 0, pulse := true, dial := true }
          (main_sample_tick b { delay_counter := 0, pulse := true, dial := true } w)) := by
    simp [dial_release, List.replicate, main_sample_loop, h0, e1, e2]
  rw [hloop]
  exact ⟨by rw [q3, q2, q1]; exact d3, by rw [t3, t2, t1]⟩

/-- A gesture of `n` clean pulses, with the pulse pin preset high and a special
function delay that is not zero: the sampling ends with the dial pin high, escalates
nothing, and leaves the tally at `n` wrapped to the signed 8-bit range. -/
theorem clean_gesture_tally (b : Build) (hb : 0 < sf_delay_ticks b) (n : Nat) (w : World)
    (hdial : stable_at false w.rs.dial_pin) :
    (main_gesture_samples b true (pulses n) w).rs.dial_pin.high = true ∧
    (main_gesture_samples b true (pulses n) w).rs.dialed_digit = to_int8 n ∧
    (main_gesture_samples b true (pulses n) w).out = w.out ∧
    (main_gesture_samples b true (pulses n) w).rs.state = w.rs.state := by
  have hbegin : stable_at true (main_gesture_begin true w).rs.pulse_pin := ⟨rfl, rfl⟩
  have hticks := pulse_train_ticks n
  obtain ⟨k1, k2, k3⟩ := main_sample_loop_pulses b (pulse_train n) (main_gesture_begin true w)
    hdial (fun t ht => (hticks t ht).1) rfl
  obtain ⟨c1, c2⟩ := pulse_train_count n _ hbegin
  rw [c2] at k2
  rw [← k1] at c1
  obtain ⟨r1, r2⟩ := dial_release_passes b _ k3 c1
  have hearly : ∀ t ∈ pulses n, t.delay_counter < sf_delay_ticks b := by
    intro t ht
    have hsplit : pulses n = pulse_train n ++ dial_release := rfl
    rw [hsplit, List.mem_append] at ht
    rcases ht with ht | ht
    · rw [(hticks t ht).2]; exact hb
    · have h0 : t.delay_counter = 0 := by revert t; decide
      rw [h0]; exact hb
  obtain ⟨e1, e2⟩ := main_sample_loop_early b (pulses n) (main_gesture_begin true w) hearly
  have hsplit : main_gesture_samples b true (pulses n) w =
      main_sample_loop b dial_release
        (main_sample_loop b (pulse_train n) (main_gesture_begin true w)) := by
    unfold main_gesture_samples
    have hp : pulses n = pulse_train n ++ dial_release := rfl
    rw [hp, main_sample_loop_append]
  refine ⟨by rw [hsplit]; exact r1, ?_, e1, e2⟩
  rw [hsplit, r2, k2]
  have h0 : (main_gesture_begin true w).rs.dialed_digit = 0 := rfl
  rw [h0, zero_add]

/-- C21 at 257 pulses: for every number n of clean pulses in a gesture the tally is
n wrapped to the signed 8-bit range, and a digit is dispatched exactly when the
wrapped value is in 1..10; a gesture of 257 clean pulses counts 257 pulses, ends
with a tally of 1, is resolved to digit 1 and dispatched: the tone of digit 1 is
emitted. -/
theorem C21_wrapped_tally_dispatched :
    (∀ (b : Build) (n : Nat) (w : World), 0 < sf_delay_ticks b →
      stable_at false w.rs.dial_pin →
      (main_gesture_samples b true (pulses n) w).rs.dialed_digit = to_int8 n ∧
      ((resolve_dialed_digit b (main_gesture_samples b true (pulses n) w).rs.dialed_digit).isSome
        ↔ 1 ≤ to_int8 n ∧ to_int8 n ≤ 10)) ∧
    counted_pulses { buf := 0xFF, high := true, changed := false }
      ((pulses 257).map (fun t => t.pulse)) = 257 ∧
    (main_gesture_samples standard_build true (pulses 257)
      dial_low_after_init).rs.dial_pin.high = true ∧
    (main_gesture_samples standard_build true (pulses 257)
      dial_low_after_init).rs.dialed_digit = 1 ∧
    resolve_dialed_digit standard_build
      (main_gesture_samples standard_build true (pulses 257)
        dial_low_after_init).rs.dialed_digit = some 1 ∧
    (main_process_dialed standard_build
      (main_gesture_samples standard_build true (pulses 257) dial_low_after_init)).map
      (fun w => w.out) = .ok [Sound.tone 1 200] := by
  have hb : 0 < sf_delay_ticks standard_build := by decide
  have hdial : stable_at false dial_low_after_init.rs.dial_pin := by decide
  obtain ⟨g1, g2, g3, g4⟩ := clean_gesture_tally standard_build hb 257 dial_low_after_init hdial
  have h257 : to_int8 ((257 : Nat) : Int) = 1 := by decide
  rw [h257] at g2
  have hres : resolve_dialed_digit standard_build
      (main_gesture_samples standard_build true (pulses 257)
        dial_low_after_init).rs.dialed_digit = some 1 := by
    rw [g2]; decide
  refine ⟨?_, ?_, g1, g2, hres, ?_⟩
  · intro b n w hb2 hd
    obtain ⟨_, k2, _, _⟩ := clean_gesture_tally b hb2 n w hd
    refine ⟨k2, ?_⟩
    rw [k2]
    unfold resolve_dialed_digit
    by_cases h : to_int8 (n : Int) > 0 ∧ to_int8 (n : Int) ≤ 10
    · rw [if_pos h]
      constructor
      · intro _; omega
      · intro _; split_ifs <;> rfl
    · rw [if_neg h]
      constructor
      · intro h1; cases h1
      · intro h1; exact absurd (by omega) h
  · have hp : stable_at true ({ buf := 0xFF, high := true, changed := false } : pin_t) := by
      decide
    obtain ⟨c1, c2⟩ := pulse_train_count 257 _ hp
    have hsplit : (pulses 257).map (fun t => t.pulse) =
        (pulse_train 257).map (fun t => t.pulse) ++ List.replicate 3 true := by
      have h : pulses 257 = pulse_train 257 ++ dial_release := rfl
      rw [h, List.map_append]; rfl
    rw [hsplit, counted_pulses_append, c2, (stable_same true 3 _ c1).2]
  · obtain ⟨_, f2, _, _, _, _, _⟩ :=
      main_gesture_samples_frame standard_build true (pulses 257) dial_low_after_init
    have hstate : (main_gesture_samples standard_build true (pulses 257)
        dial_low_after_init).rs.state = STATE_DIAL := by rw [g4]; rfl
    have hidx : (main_gesture_samples standard_build true (pulses 257)
        dial_low_after_init).rs.speed_dial_digit_index < SPEED_DIAL_SIZE := by
      rw [f2]; decide
    have hstep := dispatch_dial_room 1 _ hstate hidx
    have hmain : main_process_dialed standard_build
        (main_gesture_samples standard_build true (pulses 257) dial_low_after_init) =
        dispatch 1 (main_gesture_samples standard_build true (pulses 257)
          dial_low_after_init) := by
      simp only [main_process_dialed, hres]
      rfl
    rw [hmain, hstep]
    simp only [Except.map, g3]
    rfl

/-! ## Redial after an abandoned programming -/

set_option maxRecDepth 100000 in
theorem main_loop_seven_pending : MainLoop standard_build seven_pending :=
  MainLoop.gesture false [false, false, false] true dial_release recorded_seven seven_pending
    (MainLoop.gesture false [false, false, false] true (pulses 7) programming_after_gesture
      recorded_seven main_loop_programming (by decide) (by decide) (by decide) (by decide))
    (by decide) (by decide) (by decide) (by decide)

set_option maxRecDepth 100000 in
/-- C11 as stated fails when PendingNumber is not empty at the first digit. In an
execution from initialisation, digit 7 is recorded in ProgramSpeedDial and a
gesture without a pulse then resets the menu state to Dial (`seven_pending`);
the digits 5 and 2 are dialed in state Dial and committed by the timeout: the
redial slot holds 7, 5, 2, and the dispatch of digit 3 in state SpecialL1 emits
the tones 7, 5, 2, not the tones 5, 2 of the digits dialed in state Dial. -/
theorem C11_counterexample :
    MainLoop standard_build seven_pending ∧ seven_pending.rs.state = STATE_DIAL ∧
    seven_pending.rs.speed_dial_digits = padded [7] ∧
    (dispatch_all [5, 2] seven_pending).map (fun w1 => (main_timeout w1).rs.redial_digits) =
      .ok (padded [7, 5, 2]) ∧
    (dispatch_all [5, 2] seven_pending).map (fun w1 => (main_timeout w1).out) =
      .ok (seven_pending.out ++ [Sound.tone 5 200, Sound.tone 2 200]) ∧
    ((dispatch_all [5, 2] seven_pending).bind
      (fun w1 => dispatch 3 (set_state STATE_SPECIAL_L1 (main_timeout w1)))).map
        (fun w4 => w4.out) =
      .ok (seven_pending.out ++ [Sound.tone 5 200, Sound.tone 2 200] ++
        [Sound.tone 7 200, Sound.pause 200, Sound.tone 5 200, Sound.pause 200,
          Sound.tone 2 200, Sound.pause 200]) ∧
    [Sound.tone 7 200, Sound.pause 200, Sound.tone 5 200, Sound.pause 200,
        Sound.tone 2 200, Sound.pause 200] ≠
      [(5 : Int), 2].flatMap (fun d => [Sound.tone d 200, Sound.pause 200]) :=
  ⟨main_loop_seven_pending, by decide, by decide, by decide, by decide, by decide, by decide⟩

/-! ## Spacing of the escalations -/

set_option maxRecDepth 100000 in
/-- The held dial `timed_hold`, pass by pass: the menu state after each number of
passes, and the tones of the whole gesture. SpecialL1 is entered at 2000 ms,
SpecialL2 at 4000 ms and SpecialL3 at 6000 ms. -/
theorem timed_hold_run :
    (List.range 12).map (fun n => (main_timed_gesture standard_build true 0 (timed_hold.take n)
      { w := dial_low_after_init, restart := 0 }).w.rs.state) =
      [STATE_DIAL, STATE_DIAL, STATE_DIAL, STATE_SPECIAL_L1, STATE_SPECIAL_L1, STATE_SPECIAL_L1,
        STATE_SPECIAL_L2, STATE_SPECIAL_L2, STATE_SPECIAL_L2, STATE_SPECIAL_L3, STATE_SPECIAL_L3,
        STATE_SPECIAL_L3] ∧
    (main_timed_gesture standard_build true 0 timed_hold
      { w := dial_low_after_init, restart := 0 }).w.out =
      [Sound.tone DIGIT_BEEP_LOW 200, Sound.tone DIGIT_TUNE_ASC 200,
        Sound.tone DIGIT_TUNE_DESC 800] := by
  decide

end RotaryDial
